import Mathlib

/-!
# Pluto agent: batching engine

A shallow embedding of the packet and log batchers of `cmd/agent/agent.go`
(`BatchBuffer`, `LogBatch`, `splitBatch`, `writeWithRetries`) together with
theorems about them.

Modelling conventions.

* `*PacketData` handles are addresses (`Ptr`) into a heap held by the `World`;
  `BatchBuffer.packets` is a list of such addresses, as in the source.
* `json.Marshal`, `os.Hostname` and the two Kafka writers belong to libraries
  outside the repository.  The serialisers and the host name are fields of `Env`;
  each writer is an outcome oracle held by the `World` (`true` means the call
  returned a nil error), consumed one call at a time.
* Every operation returns, next to the new state, the list of `Event`s it
  executed, in program order.  The mutex is not modelled: each operation below is
  one critical section.
* Go `int` and `time.Duration` values are `Int`; lengths are `Nat`.
-/

namespace Pluto

/-! ## Data model -/

/-- A byte string (`[]byte`), one natural number below 256 per byte. -/
abbrev Bytes := List Nat

/-- The address of a `PacketData` value (`*PacketData`). -/
abbrev Ptr := Nat

/-- The constant `maxMessageSize` (agent.go:66). -/
def maxMessageSize : Nat := 5 * 1024 * 1024

/-- The constant `maxPayloadSize` (agent.go:69). -/
def maxPayloadSize : Nat := 1024

/-- The duration `time.Second`, in nanoseconds. -/
def second : Int := 1000000000

/-- The struct `PacketData` (agent.go:72-114). -/
structure PacketData where
  Timestamp : Int := 0
  DeviceName : String := ""
  SrcMAC : String := ""
  DstMAC : String := ""
  EtherType : String := ""
  VLANID : Nat := 0
  IsMultiCast : Bool := false
  SrcIP : String := ""
  DstIP : String := ""
  IPVrs : String := ""
  TTL : Nat := 0
  Protocol : String := ""
  FragID : Nat := 0
  FragOffset : Nat := 0
  DSCP : Nat := 0
  ICMPType : Nat := 0
  ICMPCode : Nat := 0
  SrcPort : Nat := 0
  DstPort : Nat := 0
  TCPFlags : String := ""
  SeqNum : Nat := 0
  AckNum : Nat := 0
  WindowSize : Nat := 0
  DNSID : Nat := 0
  DNSOpCode : String := ""
  DNSQuery : List String := []
  HTTPMethod : String := ""
  TLSVersion : String := ""
  SNI : String := ""
  Payload : Bytes := []
  PayloadSize : Int := 0
  deriving DecidableEq, Repr, Inhabited

/-- The struct `LogEntry` (agent.go:288-292). -/
structure LogEntry where
  Timestamp : Int := 0
  File : String := ""
  Message : String := ""
  deriving DecidableEq, Repr, Inhabited

/-- The struct `Envelope` (agent.go:294-299); the payload is always a slice of
log entries in this program. -/
structure Envelope where
  SensorID : String
  DataType : String
  Timestamp : Int
  Payload : List LogEntry
  deriving DecidableEq, Repr

/-- A pending `*time.Timer`, remembered with the delay it was armed with. -/
structure Timer where
  delay : Int
  deriving DecidableEq, Repr

/-- The two Kafka writers. -/
inductive Topic where
  | network
  | logs
  deriving DecidableEq, Repr

/-- One executed statement of interest, in program order. -/
inductive Event where
  /-- The buffer was copied out and truncated (agent.go:163-165). -/
  | copyOut (batch : List Ptr)
  /-- The log buffer was copied out and truncated (agent.go:342-344). -/
  | copyOutLog (entries : List LogEntry)
  /-- The call `timer.Stop()`. -/
  | timerStop
  /-- The call `time.AfterFunc(d, ...)`. -/
  | afterFunc (d : Int)
  /-- A call `logger.Error(msg, ...)` other than the one in `writeWithRetries`. -/
  | logError (msg : String)
  /-- The call `logger.Error("Failed to send packet batch to Kafka", attempt)`. -/
  | logSendError (attempt : Nat)
  /-- The call `splitBatch(batch, maxMessageSize)` (agent.go:179). -/
  | splitCall
  /-- The call `writeWithRetries(d)` where `d` is the serialisation of `grp`
  (agent.go:190 and 193). -/
  | handOff (grp : List Ptr) (data : Bytes)
  /-- A call `WriteMessages` on a writer and whether it returned a nil error. -/
  | writeMessages (topic : Topic) (data : Bytes) (ok : Bool)
  /-- The call `time.Sleep(d)`. -/
  | sleep (d : Int)
  /-- The call `eventsBatchSize.Observe(float64(v))`. -/
  | observe (v : Int)
  deriving DecidableEq, Repr

/-- The library functions the agent calls. -/
structure Env where
  /-- The call `json.Marshal` on a slice of records (given by their contents). -/
  marshal : List PacketData → Option Bytes
  /-- The call `json.Marshal` on an envelope. -/
  marshalEnvelope : Envelope → Option Bytes
  /-- The call `os.Hostname()`; `none` when it returns an error. -/
  hostname : Option String

/-- The mutable surroundings of the batchers. -/
structure World where
  /-- The records the handles point to. -/
  heap : Ptr → PacketData
  /-- Outcome of the k-th coming `networkWriter.WriteMessages` call. -/
  networkWriter : Nat → Bytes → Bool
  /-- Outcome of the k-th coming `logsWriter.WriteMessages` call. -/
  logsWriter : Nat → Bytes → Bool
  /-- The wall clock, in nanoseconds. -/
  now : Int

/-- The result of an operation: new state, new world, executed events. -/
structure Out (σ : Type) where
  st : σ
  world : World
  events : List Event

/-- The struct `BatchBuffer` (agent.go:117-123), without its mutex. -/
structure BatchBuffer where
  packets : List Ptr
  timer : Option Timer
  batchSize : Int
  timeout : Int
  deriving DecidableEq, Repr

/-- The struct `LogBatch` (agent.go:301-307), without its mutex. -/
structure LogBatch where
  entries : List LogEntry
  timer : Option Timer
  batchSize : Int
  timeout : Int
  deriving DecidableEq, Repr

/-! ## Operations -/

/-- The function `NewBatchBuffer` (agent.go:125-131). -/
def NewBatchBuffer (batchSize : Int) (timeout : Int) : BatchBuffer :=
  { packets := [], timer := none, batchSize := batchSize, timeout := timeout }

/-- One call `networkWriter.WriteMessages(ctx, kafka.Message{Value: data})`. -/
def World.writeNetwork (w : World) (data : Bytes) : Bool × World :=
  (w.networkWriter 0 data, { w with networkWriter := fun k => w.networkWriter (k + 1) })

/-- One call `logsWriter.WriteMessages(ctx, kafka.Message{Value: data})`. -/
def World.writeLogs (w : World) (data : Bytes) : Bool × World :=
  (w.logsWriter 0 data, { w with logsWriter := fun k => w.logsWriter (k + 1) })

/-- The loop of `writeWithRetries` (agent.go:204-213) with `n` iterations left,
that is with loop variable `i = 3 - n`. -/
def writeLoop (data : Bytes) : Nat → World → World × List Event
  | 0, w => (w, [])
  | n + 1, w =>
    let r := w.writeNetwork data
    if r.1 then
      (r.2, [Event.writeMessages Topic.network data true])
    else
      let w2 : World := { r.2 with now := r.2.now + second }
      let rest := writeLoop data n w2
      (rest.1, [Event.writeMessages Topic.network data false,
                Event.logSendError (3 - n), Event.sleep second] ++ rest.2)

/-- The function `writeWithRetries` (agent.go:203-214). -/
def writeWithRetries (data : Bytes) (w : World) : World × List Event :=
  writeLoop data 3 w

/-- The loop of `splitBatch` (agent.go:220-238) over the records still to visit,
with the loop variables `groups` and `current`. -/
def splitLoop {α : Type} (marshal : List α → Option Bytes) (maxSize : Int) :
    List α → List (List α) → List α → Option (List (List α))
  | [], groups, current =>
    if current.length > 0 then some (groups ++ [current]) else some groups
  | pkt :: rest, groups, current =>
    let current1 := current ++ [pkt]
    match marshal current1 with
    | none => none
    | some data =>
      if (data.length : Int) > maxSize then
        if current1.length = 1 then
          splitLoop marshal maxSize rest (groups ++ [current1]) []
        else
          let last := current1.getLastD pkt
          splitLoop marshal maxSize rest (groups ++ [current1.dropLast]) [last]
      else
        splitLoop marshal maxSize rest groups current1

/-- The function `splitBatch` (agent.go:216-243); `none` is the error return. -/
def splitBatch {α : Type} (marshal : List α → Option Bytes) (batch : List α)
    (maxSize : Int) : Option (List (List α)) :=
  splitLoop marshal maxSize batch [] []

/-- The loop over the split groups in `flushLocked` (agent.go:184-191). -/
def publishGroups (env : Env) : List (List Ptr) → World → World × List Event
  | [], w => (w, [])
  | grp :: rest, w =>
    match env.marshal (grp.map w.heap) with
    | none =>
      let r := publishGroups env rest w
      (r.1, Event.logError "Failed to marshal packet group" :: r.2)
    | some d =>
      let r1 := writeWithRetries d w
      let r2 := publishGroups env rest r1.1
      (r2.1, Event.handOff grp d :: (r1.2 ++ r2.2))

/-- The serialise-and-publish part of `flushLocked` (agent.go:171-194) for the
snapshot `batch`. -/
def publishBatch (env : Env) (batch : List Ptr) (w : World) : World × List Event :=
  match env.marshal (batch.map w.heap) with
  | none => (w, [Event.logError "Failed to marshal packet batch"])
  | some data =>
    if data.length > maxMessageSize then
      match splitBatch (fun g => env.marshal (g.map w.heap)) batch maxMessageSize with
      | none => (w, [Event.splitCall, Event.logError "Failed to split packet batch"])
      | some groups =>
        let r := publishGroups env groups w
        (r.1, Event.splitCall :: r.2)
    else
      let r := writeWithRetries data w
      (r.1, Event.handOff batch data :: r.2)

/-- The method `BatchBuffer.flushLocked` (agent.go:157-195). -/
def flushLocked (env : Env) (b : BatchBuffer) (w : World) : Out BatchBuffer :=
  if b.packets.length = 0 then
    { st := b, world := w, events := [] }
  else
    let batch := b.packets
    let stop : List Event := if b.timer.isSome then [Event.timerStop] else []
    let b1 : BatchBuffer := { b with packets := [], timer := none }
    let r := publishBatch env batch w
    { st := b1, world := r.1, events := Event.copyOut batch :: (stop ++ r.2) }

/-- The method `BatchBuffer.Flush` (agent.go:197-201). -/
def BatchBuffer.Flush (env : Env) (b : BatchBuffer) (w : World) : Out BatchBuffer :=
  flushLocked env b w

/-- The payload trimming at the head of `BatchBuffer.Add` (agent.go:138-141), on
the record itself. -/
def trimPayload (p : PacketData) : PacketData :=
  if p.Payload.length > maxPayloadSize then
    { p with Payload := p.Payload.take maxPayloadSize, PayloadSize := (maxPayloadSize : Int) }
  else p

/-- The world after the payload trimming at the head of `BatchBuffer.Add`
(agent.go:138-141), which writes through the handle. -/
def World.trimAt (w : World) (packet : Ptr) : World :=
  { w with heap := Function.update w.heap packet (trimPayload (w.heap packet)) }

/-- The method `BatchBuffer.Add` (agent.go:133-155). -/
def BatchBuffer.Add (env : Env) (b : BatchBuffer) (packet : Ptr) (w : World) :
    Out BatchBuffer :=
  let w1 : World := w.trimAt packet
  let b1 : BatchBuffer := { b with packets := b.packets ++ [packet] }
  if (b1.packets.length : Int) ≥ b1.batchSize then
    let r := flushLocked env b1 w1
    { st := r.st, world := r.world, events := r.events ++ [Event.observe r.st.batchSize] }
  else if b1.timer.isNone then
    { st := { b1 with timer := some ⟨b1.timeout⟩ }, world := w1,
      events := [Event.afterFunc b1.timeout] }
  else
    { st := b1, world := w1, events := [] }

/-- The timer callback armed by `BatchBuffer.Add` (agent.go:148-153). -/
def BatchBuffer.timerFire (env : Env) (b : BatchBuffer) (w : World) : Out BatchBuffer :=
  let r := flushLocked env b w
  { st := r.st, world := r.world,
    events := r.events ++ [Event.observe (r.st.packets.length : Int)] }

/-- Successive calls of `BatchBuffer.Add`, one per handle, in order. -/
def addAll (env : Env) : BatchBuffer → List Ptr → World → Out BatchBuffer
  | b, [], w => { st := b, world := w, events := [] }
  | b, p :: ps, w =>
    let r1 := b.Add env p w
    let r2 := addAll env r1.st ps r1.world
    { st := r2.st, world := r2.world, events := r1.events ++ r2.events }

/-- Successive calls of `BatchBuffer.Add` followed by one call of
`BatchBuffer.Flush`. -/
def addAllThenFlush (env : Env) (b : BatchBuffer) (ps : List Ptr) (w : World) :
    Out BatchBuffer :=
  let r1 := addAll env b ps w
  let r2 := r1.st.Flush env r1.world
  { st := r2.st, world := r2.world, events := r1.events ++ r2.events }

/-- The function `NewLogBatch` (agent.go:309-316), given the parsed duration. -/
def NewLogBatch (batchSize : Int) (timeout : Int) : LogBatch :=
  { entries := [], timer := none, batchSize := batchSize, timeout := timeout }

/-- The function `getHostID` (agent.go:392-398). -/
def getHostID (env : Env) : String :=
  match env.hostname with
  | none => "unknown"
  | some host => host

/-- The method `LogBatch.flush` (agent.go:337-367). -/
def LogBatch.flush (env : Env) (b : LogBatch) (w : World) : Out LogBatch :=
  if b.entries.length = 0 then
    { st := b, world := w, events := [] }
  else
    let entries := b.entries
    let stop : List Event := if b.timer.isSome then [Event.timerStop] else []
    let b1 : LogBatch := { b with entries := [], timer := none }
    let envelope : Envelope :=
      { SensorID := getHostID env, DataType := "log", Timestamp := w.now, Payload := entries }
    match env.marshalEnvelope envelope with
    | none =>
      { st := b1, world := w,
        events := Event.copyOutLog entries ::
          (stop ++ [Event.logError "Failed to marshal log envelope"]) }
    | some data =>
      let r := w.writeLogs data
      let fail : List Event :=
        if r.1 then [] else [Event.logError "Failed to send log batch to Kafka"]
      { st := b1, world := r.2,
        events := Event.copyOutLog entries ::
          (stop ++ Event.writeMessages Topic.logs data r.1 :: fail) }

/-- The method `LogBatch.Flush` (agent.go:331-335). -/
def LogBatch.Flush (env : Env) (b : LogBatch) (w : World) : Out LogBatch :=
  b.flush env w

/-- The method `LogBatch.Add` (agent.go:318-329). -/
def LogBatch.Add (env : Env) (b : LogBatch) (entry : LogEntry) (w : World) : Out LogBatch :=
  let b1 : LogBatch := { b with entries := b.entries ++ [entry] }
  if (b1.entries.length : Int) ≥ b1.batchSize then
    let r := b1.flush env w
    { st := r.st, world := r.world, events := r.events ++ [Event.observe r.st.batchSize] }
  else if b1.timer.isNone then
    { st := { b1 with timer := some ⟨b1.timeout⟩ }, world := w,
      events := [Event.afterFunc b1.timeout] }
  else
    { st := b1, world := w, events := [] }

/-- The timer callback armed by `LogBatch.Add`, which is `buffer.Flush`
(agent.go:327). -/
def LogBatch.timerFire (env : Env) (b : LogBatch) (w : World) : Out LogBatch :=
  b.Flush env w

/-- One event at a batcher: an admit (with the packet handle for the packet
batcher and the entry for the log batcher), the timer callback, or an explicit
flush. -/
inductive BatcherOp where
  | add (packet : Ptr) (entry : LogEntry)
  | timerFire
  | flush
  deriving DecidableEq, Repr

/-- One event applied to the packet batcher. -/
def BatchBuffer.step (env : Env) (b : BatchBuffer) (w : World) : BatcherOp → Out BatchBuffer
  | BatcherOp.add packet _ => b.Add env packet w
  | BatcherOp.timerFire => b.timerFire env w
  | BatcherOp.flush => b.Flush env w

/-- One event applied to the log batcher. -/
def LogBatch.step (env : Env) (b : LogBatch) (w : World) : BatcherOp → Out LogBatch
  | BatcherOp.add _ entry => b.Add env entry w
  | BatcherOp.timerFire => b.timerFire env w
  | BatcherOp.flush => b.Flush env w

/-- A sequence of events applied to the packet batcher, one after the other. -/
def BatchBuffer.run (env : Env) : BatchBuffer → World → List BatcherOp → Out BatchBuffer
  | b, w, [] => { st := b, world := w, events := [] }
  | b, w, op :: ops =>
    let r1 := b.step env w op
    let r2 := BatchBuffer.run env r1.st r1.world ops
    { st := r2.st, world := r2.world, events := r1.events ++ r2.events }

/-- A sequence of events applied to the log batcher, one after the other. -/
def LogBatch.run (env : Env) : LogBatch → World → List BatcherOp → Out LogBatch
  | b, w, [] => { st := b, world := w, events := [] }
  | b, w, op :: ops =>
    let r1 := b.step env w op
    let r2 := LogBatch.run env r1.st r1.world ops
    { st := r2.st, world := r2.world, events := r1.events ++ r2.events }

/-! ## Capture -/

/-- The read timeout handed to `pcap.OpenLive`. -/
inductive PcapTimeout where
  | blockForever
  | after (d : Int)
  deriving DecidableEq, Repr

/-- The arguments of a call `pcap.OpenLive(device, snaplen, promisc, timeout)`. -/
structure OpenLiveCall where
  device : String
  snaplen : Int
  promisc : Bool
  timeout : PcapTimeout
  deriving DecidableEq, Repr

/-- The call `pcap.OpenLive(device.Name, 65355, true, pcap.BlockForever)` with
which `captureDevice` opens its interface (agent.go:403). -/
def captureDeviceOpenLive (deviceName : String) : OpenLiveCall :=
  { device := deviceName, snaplen := 65355, promisc := true,
    timeout := PcapTimeout.blockForever }

/-- The default of the flag `snaplen` of the collector (collector/main.go:27),
the value its `captureDevice` hands to `pcap.OpenLive` unless overridden. -/
def collectorSnapLenDefault : Int := 65535

/-! ## Reading an event list -/

/-- The snapshot of a `copyOut` event. -/
def Event.snapshot? : Event → Option (List Ptr)
  | Event.copyOut batch => some batch
  | _ => none

/-- The group and message of a `handOff` event. -/
def Event.handOff? : Event → Option (List Ptr × Bytes)
  | Event.handOff grp data => some (grp, data)
  | _ => none

/-- The message and outcome of a `writeMessages` event on topic `t`. -/
def Event.attempt? (t : Topic) : Event → Option (Bytes × Bool)
  | Event.writeMessages t1 data ok => if t1 = t then some (data, ok) else none
  | _ => none

/-- The delay of an `afterFunc` event. -/
def Event.armed? : Event → Option Int
  | Event.afterFunc d => some d
  | _ => none

/-- The snapshots copied out of the packet buffer, in order. -/
def snapshots (es : List Event) : List (List Ptr) := es.filterMap Event.snapshot?

/-- The record groups handed to `writeWithRetries`, with their message, in order. -/
def handedOff (es : List Event) : List (List Ptr × Bytes) := es.filterMap Event.handOff?

/-- The `WriteMessages` calls on a topic, with their outcome, in order. -/
def attempts (t : Topic) (es : List Event) : List (Bytes × Bool) :=
  es.filterMap (Event.attempt? t)

/-- The delays of the timers armed, in order. -/
def armed (es : List Event) : List Int := es.filterMap Event.armed?

/-- The snapshot of a `copyOutLog` event. -/
def Event.logSnapshot? : Event → Option (List LogEntry)
  | Event.copyOutLog entries => some entries
  | _ => none

/-- The value of an `observe` event. -/
def Event.observed? : Event → Option Int
  | Event.observe v => some v
  | _ => none

/-- The snapshots copied out of the log buffer, in order. -/
def logSnapshots (es : List Event) : List (List LogEntry) := es.filterMap Event.logSnapshot?

/-- The values observed by the batch-size histogram, in order. -/
def observations (es : List Event) : List Int := es.filterMap Event.observed?

/-! ## Packet dissection -/

/-- A hardware address of a decoded Ethernet layer (`net.HardwareAddr`).  The
packet library decodes both addresses of an Ethernet header as six-byte slices, so
the six bytes are always there. -/
structure HardwareAddr where
  b0 : Nat
  b1 : Nat
  b2 : Nat
  b3 : Nat
  b4 : Nat
  b5 : Nat
  deriving DecidableEq, Repr

/-- The fields of `layers.Ethernet` that `dissectPacket` reads. -/
structure Ethernet where
  SrcMAC : HardwareAddr
  DstMAC : HardwareAddr
  EthernetType : Nat
  deriving DecidableEq, Repr

/-- The field of `layers.Dot1Q` that `dissectPacket` reads. -/
structure Dot1Q where
  VLANIdentifier : Nat
  deriving DecidableEq, Repr

/-- The fields of `layers.IPv4` that `dissectPacket` reads. -/
structure IPv4 where
  SrcIP : Bytes
  DstIP : Bytes
  TTL : Nat
  Protocol : Nat
  Id : Nat
  FragOffset : Nat
  TOS : Nat
  deriving DecidableEq, Repr

/-- The fields of `layers.IPv6` that `dissectPacket` reads. -/
structure IPv6 where
  SrcIP : Bytes
  DstIP : Bytes
  HopLimit : Nat
  NextHeader : Nat
  deriving DecidableEq, Repr

/-- The fields of `layers.IPv6Fragment` that `dissectPacket` reads. -/
structure IPv6Fragment where
  Identification : Nat
  FragmentOffset : Nat
  deriving DecidableEq, Repr

/-- The fields of `layers.TCP` that `dissectPacket` and `tcpFlags` read. -/
structure TCP where
  SrcPort : Nat
  DstPort : Nat
  FIN : Bool
  SYN : Bool
  RST : Bool
  PSH : Bool
  ACK : Bool
  URG : Bool
  Seq : Nat
  Ack : Nat
  Window : Nat
  deriving DecidableEq, Repr

/-- The fields of `layers.UDP` that `dissectPacket` reads. -/
structure UDP where
  SrcPort : Nat
  DstPort : Nat
  deriving DecidableEq, Repr

/-- The field of `layers.ICMPv4` that `dissectPacket` reads. -/
structure ICMPv4 where
  TypeCode : Nat
  deriving DecidableEq, Repr

/-- The fields of `layers.DNS` that `dissectPacket` reads; a question is given
by its name, `string(question.Name)`. -/
structure DNS where
  ID : Nat
  OpCode : Nat
  Questions : List String
  deriving DecidableEq, Repr

/-- A captured frame as the packet library presents it (`gopacket.Packet`): the
capture timestamp, the result of `packet.Layer(t)` for each layer type the agent
asks for (`none` is a nil layer), and the payload of `packet.ApplicationLayer()`. -/
structure Packet where
  Timestamp : Int
  ethernet : Option Ethernet := none
  dot1q : Option Dot1Q := none
  ipv4 : Option IPv4 := none
  ipv6 : Option IPv6 := none
  ipv6Fragment : Option IPv6Fragment := none
  tcp : Option TCP := none
  udp : Option UDP := none
  icmpv4 : Option ICMPv4 := none
  dns : Option DNS := none
  application : Option Bytes := none
  deriving DecidableEq, Repr

/-- The formatting methods of the packet library that `dissectPacket` calls. -/
structure PacketLib where
  /-- The method `HardwareAddr.String`. -/
  macString : HardwareAddr → String
  /-- The method `EthernetType.String`. -/
  etherTypeString : Nat → String
  /-- The method `net.IP.String`. -/
  ipString : Bytes → String
  /-- The method `IPProtocol.String`. -/
  ipProtocolString : Nat → String
  /-- The method `DNSOpCode.String`. -/
  dnsOpCodeString : Nat → String
  /-- The method `ICMPv4TypeCode.Type`. -/
  icmpType : Nat → Nat
  /-- The method `ICMPv4TypeCode.Code`. -/
  icmpCode : Nat → Nat

/-- The function `tcpFlags` (agent.go:511-532, and the same text in
collector/main.go:271-292). -/
def tcpFlags (tcp : TCP) : String :=
  let flags := ""
  let flags := if tcp.FIN then flags ++ "F" else flags
  let flags := if tcp.SYN then flags ++ "S" else flags
  let flags := if tcp.RST then flags ++ "R" else flags
  let flags := if tcp.PSH then flags ++ "P" else flags
  let flags := if tcp.ACK then flags ++ "A" else flags
  let flags := if tcp.URG then flags ++ "U" else flags
  flags

/-- The Ethernet block of `dissectPacket` (agent.go:425-432). -/
def dissectEthernet (lib : PacketLib) (packet : Packet) (m : PacketData) : PacketData :=
  match packet.ethernet with
  | some eth =>
    { m with SrcMAC := lib.macString eth.SrcMAC, DstMAC := lib.macString eth.DstMAC,
             EtherType := lib.etherTypeString eth.EthernetType,
             IsMultiCast := (eth.DstMAC.b0 &&& 1 == 1) }
  | none => m

/-- The VLAN block of `dissectPacket` (agent.go:434-438). -/
def dissectDot1Q (packet : Packet) (m : PacketData) : PacketData :=
  match packet.dot1q with
  | some dot1q => { m with VLANID := dot1q.VLANIdentifier }
  | none => m

/-- The network block of `dissectPacket` (agent.go:440-464). -/
def dissectNetwork (lib : PacketLib) (packet : Packet) (m : PacketData) : PacketData :=
  match packet.ipv4 with
  | some ip4 =>
    { m with SrcIP := lib.ipString ip4.SrcIP, DstIP := lib.ipString ip4.DstIP,
             IPVrs := "IPv4", TTL := ip4.TTL,
             Protocol := lib.ipProtocolString ip4.Protocol,
             FragID := ip4.Id, FragOffset := ip4.FragOffset, DSCP := ip4.TOS >>> 2 }
  | none =>
    match packet.ipv6 with
    | some ip6 =>
      let m1 : PacketData :=
        { m with SrcIP := lib.ipString ip6.SrcIP, DstIP := lib.ipString ip6.DstIP,
                 IPVrs := "IPv6", TTL := ip6.HopLimit,
                 Protocol := lib.ipProtocolString ip6.NextHeader }
      match packet.ipv6Fragment with
      | some frag => { m1 with FragID := frag.Identification, FragOffset := frag.FragmentOffset }
      | none => m1
    | none => m

/-- The transport block of `dissectPacket` (agent.go:466-479). -/
def dissectTransport (packet : Packet) (m : PacketData) : PacketData :=
  match packet.tcp with
  | some tcp =>
    { m with SrcPort := tcp.SrcPort, DstPort := tcp.DstPort, TCPFlags := tcpFlags tcp,
             SeqNum := tcp.Seq, AckNum := tcp.Ack, WindowSize := tcp.Window }
  | none =>
    match packet.udp with
    | some udp => { m with SrcPort := udp.SrcPort, DstPort := udp.DstPort }
    | none => m

/-- The ICMP block of `dissectPacket` (agent.go:481-486). -/
def dissectICMP (lib : PacketLib) (packet : Packet) (m : PacketData) : PacketData :=
  match packet.icmpv4 with
  | some icmp =>
    { m with ICMPType := lib.icmpType icmp.TypeCode, ICMPCode := lib.icmpCode icmp.TypeCode }
  | none => m

/-- The DNS block of `dissectPacket` (agent.go:488-496). -/
def dissectDNS (lib : PacketLib) (packet : Packet) (m : PacketData) : PacketData :=
  match packet.dns with
  | some dns =>
    { m with DNSID := dns.ID, DNSOpCode := lib.dnsOpCodeString dns.OpCode,
             DNSQuery := m.DNSQuery ++ dns.Questions }
  | none => m

/-- The payload block of `dissectPacket` (agent.go:498-506). -/
def dissectPayload (packet : Packet) (m : PacketData) : PacketData :=
  match packet.application with
  | some appPayload =>
    let payload :=
      if appPayload.length > maxPayloadSize then appPayload.take maxPayloadSize
      else appPayload
    { m with Payload := payload, PayloadSize := (payload.length : Int) }
  | none => m

/-- The record `meta` that `dissectPacket` has built when it calls
`batchBuffer.Add(&meta)` (agent.go:420-506). -/
def dissectRecord (lib : PacketLib) (deviceName : String) (packet : Packet) : PacketData :=
  let m : PacketData := { Timestamp := packet.Timestamp, DeviceName := deviceName }
  let m := dissectEthernet lib packet m
  let m := dissectDot1Q packet m
  let m := dissectNetwork lib packet m
  let m := dissectTransport packet m
  let m := dissectICMP lib packet m
  let m := dissectDNS lib packet m
  dissectPayload packet m

/-- The function `dissectPacket` (agent.go:419-509), acting on the global
`batchBuffer`; `addr` is the address at which the runtime places `meta`. -/
def dissectPacket (lib : PacketLib) (env : Env) (b : BatchBuffer) (deviceName : String)
    (packet : Packet) (addr : Ptr) (w : World) : Out BatchBuffer :=
  let w1 : World :=
    { w with heap := Function.update w.heap addr (dissectRecord lib deviceName packet) }
  b.Add env addr w1

/-! ## Log file discovery -/

/-- The struct `LogConfig` (agent.go:247-253). -/
structure LogConfig where
  Directories : List String
  FilePatterns : List String
  ExPatterns : List String
  BatchSize : Int
  BatchTimeout : String
  deriving DecidableEq, Repr

/-- A directory entry (`os.DirEntry`): its name and whether it is a directory. -/
structure DirEntry where
  Name : String
  IsDir : Bool
  deriving DecidableEq, Repr

/-- The file-system functions that `discoverLogs` calls. -/
structure FileSystem where
  /-- The call `os.ReadDir(dir)`; `none` when it returns an error. -/
  readDir : String → Option (List DirEntry)
  /-- The first result of `filepath.Match(pattern, name)`. -/
  globMatch : String → String → Bool
  /-- The call `filepath.Join(dir, name)`. -/
  join : String → String → String

/-- The loop over `config.FilePatterns` (agent.go:595-600), with the variable
`matched`. -/
def includeLoop (fs : FileSystem) (name : String) : List String → Bool → Bool
  | [], matched => matched
  | pattern :: rest, matched =>
    if fs.globMatch pattern name then true else includeLoop fs name rest matched

/-- The loop over `config.ExPatterns` (agent.go:601-606), with the variable
`matched`. -/
def excludeLoop (fs : FileSystem) (name : String) : List String → Bool → Bool
  | [], matched => matched
  | pattern :: rest, matched =>
    if fs.globMatch pattern name then false else excludeLoop fs name rest matched

/-- The loop over the entries of one directory (agent.go:590-610), with the
variable `logFiles`. -/
def entriesLoop (fs : FileSystem) (config : LogConfig) (dir : String) :
    List DirEntry → List String → List String
  | [], logFiles => logFiles
  | entry :: rest, logFiles =>
    if entry.IsDir then entriesLoop fs config dir rest logFiles
    else
      let matched := includeLoop fs entry.Name config.FilePatterns false
      let matched := excludeLoop fs entry.Name config.ExPatterns matched
      if matched then entriesLoop fs config dir rest (logFiles ++ [fs.join dir entry.Name])
      else entriesLoop fs config dir rest logFiles

/-- The loop over `config.Directories` (agent.go:584-611), with the variable
`logFiles` and the directories warned about so far. -/
def directoriesLoop (fs : FileSystem) (config : LogConfig) :
    List String → List String × List String → List String × List String
  | [], acc => acc
  | dir :: rest, (logFiles, warned) =>
    match fs.readDir dir with
    | none => directoriesLoop fs config rest (logFiles, warned ++ [dir])
    | some entries =>
      directoriesLoop fs config rest (entriesLoop fs config dir entries logFiles, warned)

/-- The function `discoverLogs` (agent.go:582-613): the log files found, and the
directories for which a warning was logged. -/
def discoverLogs (fs : FileSystem) (config : LogConfig) : List String × List String :=
  directoriesLoop fs config config.Directories ([], [])

/-! ## Predicates used in the statements -/

/-- A group is within the bound when its serialisation is at most `maxSize` bytes
long, or it is a single record. -/
def groupOk {α : Type} (marshal : List α → Option Bytes) (maxSize : Int)
    (g : List α) : Prop :=
  (∃ d, marshal g = some d ∧ (d.length : Int) ≤ maxSize) ∨ ∃ x, g = [x]

/-- The first `xs.length / n` consecutive blocks of `n` elements of `xs`. -/
def fullChunks {α : Type} (n : Nat) (xs : List α) : List (List α) :=
  (List.range (xs.length / n)).map (fun i => (xs.drop (i * n)).take n)

/-- A serialisation failure of the packet flush path was logged: the marshal of
the snapshot (agent.go:173), the split (agent.go:181) or the marshal of a split
group (agent.go:187). -/
def serialisationErrorLogged (es : List Event) : Prop :=
  Event.logError "Failed to marshal packet batch" ∈ es ∨
  Event.logError "Failed to split packet batch" ∈ es ∨
  Event.logError "Failed to marshal packet group" ∈ es

/-- The message `d` was written to the network topic successfully, or writing it
failed at least three times. -/
def settled (es : List Event) (d : Bytes) : Prop :=
  (d, true) ∈ attempts Topic.network es ∨ 3 ≤ (attempts Topic.network es).count (d, false)

/-- The states of a packet batcher that `Add`, the timer callback and `Flush`
can produce from `NewBatchBuffer`, in any order and in any surroundings. -/
inductive Reachable (env : Env) (B T : Int) : BatchBuffer → Prop where
  | init : Reachable env B T (NewBatchBuffer B T)
  | add (b : BatchBuffer) (p : Ptr) (w : World) :
      Reachable env B T b → Reachable env B T (b.Add env p w).st
  | fire (b : BatchBuffer) (w : World) :
      Reachable env B T b → Reachable env B T (b.timerFire env w).st
  | flush (b : BatchBuffer) (w : World) :
      Reachable env B T b → Reachable env B T (b.Flush env w).st

/-- The letters of the TCP flags that are set, in the order F S R P A U. -/
def setFlagLetters (tcp : TCP) : List Char :=
  ([(tcp.FIN, 'F'), (tcp.SYN, 'S'), (tcp.RST, 'R'), (tcp.PSH, 'P'), (tcp.ACK, 'A'),
    (tcp.URG, 'U')].filter (fun x => x.1)).map (fun x => x.2)

/-- An entry is kept by log discovery when it is not a directory, some include
pattern matches its name and no exclude pattern does. -/
def keepsEntry (fs : FileSystem) (config : LogConfig) (entry : DirEntry) : Bool :=
  !entry.IsDir && config.FilePatterns.any (fun pattern => fs.globMatch pattern entry.Name) &&
    !config.ExPatterns.any (fun pattern => fs.globMatch pattern entry.Name)

/-- The network fields of a record that an IP layer of either version fills:
addresses, version tag, TTL, protocol, fragment id and fragment offset. -/
def networkReading (m : PacketData) : String × String × String × Nat × String × Nat × Nat :=
  (m.SrcIP, m.DstIP, m.IPVrs, m.TTL, m.Protocol, m.FragID, m.FragOffset)

/-- The network fields of a record that an IPv6 layer itself fills. -/
def addressReading (m : PacketData) : String × String × String × Nat × String :=
  (m.SrcIP, m.DstIP, m.IPVrs, m.TTL, m.Protocol)

/-- The log files that discovery is to return: for each configured directory
in order, nothing when it cannot be read, else the joined paths of its kept
entries in entry order. -/
def keptPaths (fs : FileSystem) (config : LogConfig) : List String :=
  config.Directories.flatMap (fun dir =>
    match fs.readDir dir with
    | none => []
    | some entries =>
      (entries.filter (keepsEntry fs config)).map (fun entry => fs.join dir entry.Name))

/-- The states of a log batcher that `Add`, the timer callback and `Flush` can
produce from `NewLogBatch`, in any order and in any surroundings. -/
inductive ReachableLog (env : Env) (B T : Int) : LogBatch → Prop where
  | init : ReachableLog env B T (NewLogBatch B T)
  | add (b : LogBatch) (entry : LogEntry) (w : World) :
      ReachableLog env B T b → ReachableLog env B T (b.Add env entry w).st
  | fire (b : LogBatch) (w : World) :
      ReachableLog env B T b → ReachableLog env B T (b.timerFire env w).st
  | flush (b : LogBatch) (w : World) :
      ReachableLog env B T b → ReachableLog env B T (b.Flush env w).st

/-- The serialisation of `g` is longer than `maxSize`. -/
def exceeds {α : Type} (marshal : List α → Option Bytes) (maxSize : Int) (g : List α) : Prop :=
  ∃ d, marshal g = some d ∧ (d.length : Int) > maxSize

/-- The group `g` cannot take more before the group `h` that follows it: `g` is a
single record that alone exceeds `maxSize`, or `g` with the first record of `h`
appended exceeds `maxSize`. -/
def packedBefore {α : Type} (marshal : List α → Option Bytes) (maxSize : Int)
    (g h : List α) : Prop :=
  (∃ x, g = [x] ∧ exceeds marshal maxSize [x]) ∨
  ∃ y rest, h = y :: rest ∧ exceeds marshal maxSize (g ++ [y])

/-- The envelope that a flush of the log batcher `b` builds in the world `w`. -/
def flushEnvelope (env : Env) (b : LogBatch) (w : World) : Envelope :=
  { SensorID := match env.hostname with
      | some host => host
      | none => "unknown",
    DataType := "log", Timestamp := w.now, Payload := b.entries }

/-- The packet batcher `p` and the log batcher `l` have buffers of the same
length, both or neither has a timer pending, and they have the same batch size. -/
def agree (p : BatchBuffer) (l : LogBatch) : Prop :=
  p.packets.length = l.entries.length ∧ p.timer.isSome = l.timer.isSome ∧
    p.batchSize = l.batchSize

/-! ## Example environments -/

/-- An example serialiser: an opening bracket, the payload bytes of the records
in order, a closing bracket. -/
def exampleMarshal (recs : List PacketData) : Option Bytes :=
  some (91 :: (recs.map PacketData.Payload).flatten ++ [93])

/-- A message of `n` zero bytes. -/
@[irreducible] def zeros (n : Nat) : Bytes := List.replicate n 0

/-- An example serialiser for a slice of any element type, with the length of a
JSON array whose elements take `c` bytes each: two brackets, the elements, and a
comma between neighbours. -/
def uniformMarshal {α : Type} (c : Nat) (xs : List α) : Option Bytes :=
  some (zeros (2 + c * xs.length + (xs.length - 1)))

/-- An example environment in which every serialisation succeeds. -/
def exampleEnv : Env :=
  { marshal := exampleMarshal, marshalEnvelope := fun _ => some [123, 125],
    hostname := some "sensor" }

/-- An example environment in which `json.Marshal` always returns an error. -/
def failingEnv : Env :=
  { marshal := fun _ => none, marshalEnvelope := fun _ => none, hostname := none }

/-- An example environment whose serialisation of any record slice is exactly
`maxMessageSize` bytes long. -/
def boundaryEnv : Env :=
  { marshal := fun _ => some (zeros maxMessageSize),
    marshalEnvelope := fun _ => some [123, 125], hostname := some "sensor" }

/-- An example environment in which every serialisation of records takes
6 000 000 bytes, more than `maxMessageSize`. -/
def heavyEnv : Env :=
  { marshal := fun _ => some (zeros 6000000), marshalEnvelope := fun _ => some [123, 125],
    hostname := some "sensor" }

/-- An example world: every handle points to a record with payload `payload` and
payload size `size`, and every publish has outcome `ok`. -/
def exampleWorld (payload : Bytes) (size : Int) (ok : Bool) : World :=
  { heap := fun _ => { Payload := payload, PayloadSize := size },
    networkWriter := fun _ _ => ok, logsWriter := fun _ _ => ok, now := 0 }

/-- An example packet library: every name is the empty string, and the ICMP
type and code are the high and the low byte of the type-code. -/
def exampleLib : PacketLib :=
  { macString := fun _ => "", etherTypeString := fun _ => "", ipString := fun _ => "",
    ipProtocolString := fun _ => "", dnsOpCodeString := fun _ => "",
    icmpType := fun tc => (tc >>> 8) % 256, icmpCode := fun tc => tc % 256 }

/-- An example file system: the directory `/var/log` holds a subdirectory
`audit`, the files `syslog`, `auth.log`, `old.log.gz`; no other directory can be
read; a pattern matches a name when it is the name itself or `*` followed by an
ending of the name. -/
def exampleFS : FileSystem :=
  { readDir := fun dir =>
      if dir = "/var/log" then
        some [⟨"audit", true⟩, ⟨"syslog", false⟩, ⟨"auth.log", false⟩, ⟨"old.log.gz", false⟩]
      else none,
    globMatch := fun pattern name =>
      pattern == name ||
        (pattern.data.head? == some '*' && pattern.data.tail.isSuffixOf name.data),
    join := fun dir name => dir ++ "/" ++ name }

/-- An example log configuration. -/
def exampleLogConfig : LogConfig :=
  { Directories := ["/var/log", "/missing"], FilePatterns := ["*.log", "*.gz", "syslog"],
    ExPatterns := ["*.gz"], BatchSize := 100, BatchTimeout := "5s" }

/-- An example environment in which the serialisation of records fails exactly
for the one-record slice whose record has the payload `[9]`, and otherwise takes
3 000 000 bytes for a slice of at most one record and 6 000 000 bytes for a longer
one. -/
def pickyEnv : Env :=
  { marshal := fun recs =>
      if recs.map PacketData.Payload = [[9]] then none
      else if recs.length ≤ 1 then some (zeros 3000000) else some (zeros 6000000),
    marshalEnvelope := fun _ => some [123, 125], hostname := none }

/-- An example world in which the handle `p` points to a record with the payload
`[p]`, and every publish is accepted. -/
def numberedWorld : World :=
  { heap := fun p => { Payload := [p], PayloadSize := 1 },
    networkWriter := fun _ _ => true, logsWriter := fun _ _ => true, now := 0 }

/-! ## Basic facts -/

theorem maxMessageSize_eq : maxMessageSize = 5242880 := rfl

theorem zeros_length (n : Nat) : (zeros n).length = n := by
  unfold zeros
  exact List.length_replicate n 0

theorem snapshots_append (xs ys : List Event) :
    snapshots (xs ++ ys) = snapshots xs ++ snapshots ys := by
  simp [snapshots]

theorem handedOff_append (xs ys : List Event) :
    handedOff (xs ++ ys) = handedOff xs ++ handedOff ys := by
  simp [handedOff]

theorem attempts_append (t : Topic) (xs ys : List Event) :
    attempts t (xs ++ ys) = attempts t xs ++ attempts t ys := by
  simp [attempts]

theorem armed_append (xs ys : List Event) :
    armed (xs ++ ys) = armed xs ++ armed ys := by
  simp [armed]

theorem writeLoop_heap (data : Bytes) (n : Nat) (w : World) :
    (writeLoop data n w).1.heap = w.heap := by
  induction n generalizing w with
  | zero => rfl
  | succ n ih =>
    simp only [writeLoop, World.writeNetwork]
    split
    · rfl
    · simp [ih]

theorem writeLoop_handedOff (data : Bytes) (n : Nat) (w : World) :
    handedOff (writeLoop data n w).2 = [] := by
  induction n generalizing w with
  | zero => rfl
  | succ n ih =>
    simp only [writeLoop, World.writeNetwork]
    split
    · rfl
    · have h := ih { w with networkWriter := fun k => w.networkWriter (k + 1),
                            now := w.now + second }
      simpa [handedOff, Event.handOff?] using h

theorem writeLoop_snapshots (data : Bytes) (n : Nat) (w : World) :
    snapshots (writeLoop data n w).2 = [] := by
  induction n generalizing w with
  | zero => rfl
  | succ n ih =>
    simp only [writeLoop, World.writeNetwork]
    split
    · rfl
    · have h := ih { w with networkWriter := fun k => w.networkWriter (k + 1),
                            now := w.now + second }
      simpa [snapshots, Event.snapshot?] using h

theorem writeLoop_armed (data : Bytes) (n : Nat) (w : World) :
    armed (writeLoop data n w).2 = [] := by
  induction n generalizing w with
  | zero => rfl
  | succ n ih =>
    simp only [writeLoop, World.writeNetwork]
    split
    · rfl
    · have h := ih { w with networkWriter := fun k => w.networkWriter (k + 1),
                            now := w.now + second }
      simpa [armed, Event.armed?] using h

/-! ## Bounded retry -/

/-- The attempts of `writeLoop` with three iterations left, by cases on the
outcomes of the next three calls. -/
theorem writeLoop_three_attempts (data : Bytes) (w : World) :
    attempts Topic.network (writeLoop data 3 w).2 =
      if w.networkWriter 0 data then [(data, true)]
      else if w.networkWriter 1 data then [(data, false), (data, true)]
      else [(data, false), (data, false), (data, w.networkWriter 2 data)] := by
  cases h0 : w.networkWriter 0 data <;> cases h1 : w.networkWriter 1 data <;>
    cases h2 : w.networkWriter 2 data <;>
    simp [writeLoop, World.writeNetwork, attempts, Event.attempt?, h0, h1, h2]

/-- C10. `writeWithRetries` calls `WriteMessages` until the first success or
until three calls have failed.  With `o k` the outcome of the k-th coming call:
the calls made are exactly calls `0 .. n-1` on the same message, where `n` is the
number of attempts; `n` is `min 3 (p + 1)` when call `p` is the first to succeed
(so `min 3` of its 1-based position) and `3` when the first three calls all fail;
every call but the last one made has failed, so no attempt follows a success; and
the writer has consumed exactly `n` outcomes, so no fourth call is made. -/
theorem writeWithRetries_attempts (data : Bytes) (w : World) :
    (attempts Topic.network (writeWithRetries data w).2 =
      (List.range (attempts Topic.network (writeWithRetries data w).2).length).map
        (fun k => (data, w.networkWriter k data))) ∧
    (∀ p, w.networkWriter p data = true → (∀ j, j < p → w.networkWriter j data = false) →
      (attempts Topic.network (writeWithRetries data w).2).length = min 3 (p + 1)) ∧
    ((∀ j, j < 3 → w.networkWriter j data = false) →
      (attempts Topic.network (writeWithRetries data w).2).length = 3) ∧
    (∀ k, k + 1 < (attempts Topic.network (writeWithRetries data w).2).length →
      w.networkWriter k data = false) ∧
    (writeWithRetries data w).1.networkWriter =
      fun k => w.networkWriter
        (k + (attempts Topic.network (writeWithRetries data w).2).length) := by
  have key := writeLoop_three_attempts data w
  unfold writeWithRetries
  cases h0 : w.networkWriter 0 data
  · cases h1 : w.networkWriter 1 data
    · rw [key]
      simp only [h0, h1, Bool.false_eq_true, if_false]
      refine ⟨?_, ?_, ?_, ?_, ?_⟩
      · simp [List.range_succ, h0, h1]
      · intro p hp hlt
        have h3 : 2 ≤ p := by
          rcases p with _ | _ | p
          · rw [h0] at hp; exact absurd hp (by decide)
          · rw [h1] at hp; exact absurd hp (by decide)
          · omega
        simp only [List.length_cons, List.length_nil]
        omega
      · intro _; rfl
      · intro k hk
        simp only [List.length_cons, List.length_nil] at hk
        rcases k with _ | _ | k
        · exact h0
        · exact h1
        · omega
      · cases h2 : w.networkWriter 2 data <;>
          simp [writeLoop, World.writeNetwork, h0, h1, h2, Nat.add_assoc]
    · rw [key]
      simp only [h0, h1, Bool.false_eq_true, if_false, if_true]
      refine ⟨?_, ?_, ?_, ?_, ?_⟩
      · simp [List.range_succ, h0, h1]
      · intro p hp hlt
        have h3 : p = 1 := by
          rcases p with _ | _ | p
          · rw [h0] at hp; exact absurd hp (by decide)
          · rfl
          · have := hlt 1 (by omega); rw [h1] at this; exact absurd this (by decide)
        subst h3; rfl
      · intro h; have := h 1 (by omega); rw [h1] at this; exact absurd this (by decide)
      · intro k hk
        simp only [List.length_cons, List.length_nil] at hk
        have : k = 0 := by omega
        subst this; exact h0
      · simp [writeLoop, World.writeNetwork, h0, h1, Nat.add_assoc]
  · rw [key]
    simp only [h0, if_true]
    refine ⟨?_, ?_, ?_, ?_, ?_⟩
    · simp [List.range_succ, h0]
    · intro p hp hlt
      have h3 : p = 0 := by
        rcases p with _ | p
        · rfl
        · have := hlt 0 (by omega); rw [h0] at this; exact absurd this (by decide)
      subst h3; rfl
    · intro h; have := h 0 (by omega); rw [h0] at this; exact absurd this (by decide)
    · intro k hk
      simp only [List.length_cons, List.length_nil] at hk
      omega
    · simp [writeLoop, World.writeNetwork, h0]

/-! ## The heap is touched by `Add` only -/

theorem writeWithRetries_heap (data : Bytes) (w : World) :
    (writeWithRetries data w).1.heap = w.heap :=
  writeLoop_heap data 3 w

theorem publishGroups_heap (env : Env) (groups : List (List Ptr)) (w : World) :
    (publishGroups env groups w).1.heap = w.heap := by
  induction groups generalizing w with
  | nil => rfl
  | cons g rest ih =>
    simp only [publishGroups]
    split
    · exact ih w
    · rw [ih, writeWithRetries_heap]

theorem publishBatch_heap (env : Env) (batch : List Ptr) (w : World) :
    (publishBatch env batch w).1.heap = w.heap := by
  unfold publishBatch
  split
  · rfl
  · split
    · split
      · rfl
      · exact publishGroups_heap env _ w
    · exact writeWithRetries_heap _ w

theorem flushLocked_heap (env : Env) (b : BatchBuffer) (w : World) :
    (flushLocked env b w).world.heap = w.heap := by
  unfold flushLocked
  split
  · rfl
  · exact publishBatch_heap env _ w

theorem Add_heap (env : Env) (b : BatchBuffer) (p : Ptr) (w : World) :
    (b.Add env p w).world.heap = Function.update w.heap p (trimPayload (w.heap p)) := by
  unfold BatchBuffer.Add
  simp only
  split
  · rw [flushLocked_heap]; rfl
  · split <;> rfl

/-! ## Payload trimming on admission -/

/-- C3, as stated, fails: a record handed to `Add` with a three-byte payload and
`PayloadSize = 0` is stored with `PayloadSize = 0`, not `min 3 1024 = 3`. -/
theorem add_payload_size_not_recomputed :
    ((exampleWorld [1, 2, 3] 0 true).heap 7).Payload.length = 3 ∧
    ((((NewBatchBuffer 100 second).Add exampleEnv 7
        (exampleWorld [1, 2, 3] 0 true)).world.heap 7).PayloadSize = 0) ∧
    ((((NewBatchBuffer 100 second).Add exampleEnv 7
        (exampleWorld [1, 2, 3] 0 true)).world.heap 7).PayloadSize ≠
      ((min 3 maxPayloadSize : Nat) : Int)) := by
  refine ⟨rfl, ?_, ?_⟩ <;> simp [Add_heap, trimPayload, exampleWorld, maxPayloadSize]

/-- C3, amended.  After `Add` the stored record's payload is the first
`min n 1024` bytes of the original `n`-byte payload, so its length is
`min n 1024`; its `PayloadSize` equals `min n 1024` whenever `n > 1024` or
`PayloadSize` was `n` on entry, and is otherwise left as it was passed. -/
theorem add_stored_payload (env : Env) (b : BatchBuffer) (p : Ptr) (w : World) :
    ((b.Add env p w).world.heap p).Payload = (w.heap p).Payload.take maxPayloadSize ∧
    ((b.Add env p w).world.heap p).Payload.length =
      min (w.heap p).Payload.length maxPayloadSize ∧
    ((w.heap p).Payload.length > maxPayloadSize ∨
        (w.heap p).PayloadSize = ((w.heap p).Payload.length : Int) →
      ((b.Add env p w).world.heap p).PayloadSize =
        ((min (w.heap p).Payload.length maxPayloadSize : Nat) : Int)) ∧
    ((w.heap p).Payload.length ≤ maxPayloadSize →
      ((b.Add env p w).world.heap p).PayloadSize = (w.heap p).PayloadSize) := by
  rw [Add_heap]
  simp only [Function.update_same]
  unfold trimPayload
  by_cases h : (w.heap p).Payload.length > maxPayloadSize
  · rw [if_pos h]
    refine ⟨rfl, ?_, ?_, ?_⟩
    · show (List.take maxPayloadSize (w.heap p).Payload).length = _
      rw [List.length_take, Nat.min_comm]
    · intro _
      rw [Nat.min_eq_right (Nat.le_of_lt h)]
    · intro h2; omega
  · rw [if_neg h]
    have hle : (w.heap p).Payload.length ≤ maxPayloadSize := Nat.le_of_not_gt h
    refine ⟨?_, ?_, ?_, ?_⟩
    · rw [List.take_of_length_le hle]
    · rw [Nat.min_eq_left hle]
    · rintro (h1 | h1)
      · exact absurd h1 h
      · rw [h1, Nat.min_eq_left hle]
    · intro _; rfl

/-- C3 at the spec's example: a record with a 10 KiB payload is stored with
`PayloadSize = 1024` and a payload of 1024 bytes. -/
theorem add_stored_payload_witness :
    ((exampleWorld (List.replicate 10240 0) 10240 true).heap 0).Payload.length
      > maxPayloadSize ∧
    ((((NewBatchBuffer 100 second).Add exampleEnv 0
        (exampleWorld (List.replicate 10240 0) 10240 true)).world.heap 0).PayloadSize
      = 1024) ∧
    ((((NewBatchBuffer 100 second).Add exampleEnv 0
        (exampleWorld (List.replicate 10240 0) 10240 true)).world.heap 0).Payload.length
      = 1024) := by
  have hlen : ((exampleWorld (List.replicate 10240 0) 10240 true).heap 0).Payload.length
      = 10240 := List.length_replicate 10240 0
  have hgt : ((exampleWorld (List.replicate 10240 0) 10240 true).heap 0).Payload.length
      > maxPayloadSize := by rw [hlen]; decide
  have h := add_stored_payload exampleEnv (NewBatchBuffer 100 second) 0
    (exampleWorld (List.replicate 10240 0) 10240 true)
  refine ⟨hgt, ?_, ?_⟩
  · rw [h.2.2.1 (Or.inl hgt), hlen]; decide
  · rw [h.2.1, hlen]; decide

/-! ## Flush empties the buffer -/

/-- C5. After `BatchBuffer.Flush` the packet buffer has length zero, and after
`LogBatch.Flush` the log buffer has length zero, whatever the serialiser and the
writers do. -/
theorem flush_leaves_buffer_empty (env : Env) (b : BatchBuffer) (lb : LogBatch)
    (w : World) :
    (b.Flush env w).st.packets.length = 0 ∧ (lb.Flush env w).st.entries.length = 0 := by
  constructor
  · unfold BatchBuffer.Flush flushLocked
    split
    · assumption
    · rfl
  · unfold LogBatch.Flush LogBatch.flush
    by_cases h : lb.entries.length = 0
    · rw [if_pos h]; exact h
    · rw [if_neg h]
      dsimp only
      generalize env.marshalEnvelope _ = m
      cases m <;> rfl

/-! ## The split loop -/

/-- One iteration of the split loop, with the popped record and the shortened
accumulator written out. -/
theorem splitLoop_cons {α : Type} (marshal : List α → Option Bytes) (maxSize : Int)
    (pkt : α) (rest : List α) (groups : List (List α)) (current : List α) :
    splitLoop marshal maxSize (pkt :: rest) groups current =
      match marshal (current ++ [pkt]) with
      | none => none
      | some data =>
        if (data.length : Int) > maxSize then
          if current.length = 0 then splitLoop marshal maxSize rest (groups ++ [[pkt]]) []
          else splitLoop marshal maxSize rest (groups ++ [current]) [pkt]
        else splitLoop marshal maxSize rest groups (current ++ [pkt]) := by
  rw [splitLoop]
  cases marshal (current ++ [pkt]) with
  | none => rfl
  | some data =>
    simp only
    by_cases hd : (data.length : Int) > maxSize
    · rw [if_pos hd, if_pos hd]
      by_cases hc : current.length = 0
      · have hnil : current = [] := List.length_eq_zero.mp hc
        subst hnil; simp
      · have hlen : ¬ (current ++ [pkt]).length = 1 := by
          rw [List.length_append, List.length_singleton]; omega
        rw [if_neg hlen, if_neg hc]
        simp [List.dropLast_concat]
    · rw [if_neg hd, if_neg hd]

/-- The groups returned by the split loop, concatenated, are the groups so far,
the accumulator and the records still to visit, in that order. -/
theorem splitLoop_flatten {α : Type} (marshal : List α → Option Bytes) (maxSize : Int)
    (rest : List α) (groups : List (List α)) (current : List α) (gs : List (List α))
    (h : splitLoop marshal maxSize rest groups current = some gs) :
    gs.flatten = groups.flatten ++ current ++ rest := by
  induction rest generalizing groups current with
  | nil =>
    rw [splitLoop] at h
    by_cases hc : current.length > 0
    · rw [if_pos hc] at h
      cases h
      simp
    · rw [if_neg hc] at h
      cases h
      have : current = [] := List.length_eq_zero.mp (by omega)
      simp [this]
  | cons pkt rest ih =>
    rw [splitLoop_cons] at h
    cases hm : marshal (current ++ [pkt]) with
    | none => rw [hm] at h; cases h
    | some data =>
      rw [hm] at h
      simp only at h
      by_cases hd : (data.length : Int) > maxSize
      · rw [if_pos hd] at h
        by_cases hc : current.length = 0
        · rw [if_pos hc] at h
          rw [ih _ _ h, List.length_eq_zero.mp hc]; simp
        · rw [if_neg hc] at h
          rw [ih _ _ h]; simp
      · rw [if_neg hd] at h
        rw [ih _ _ h]; simp

/-- When every serialisation succeeds, the split loop returns groups. -/
theorem splitLoop_isSome {α : Type} (marshal : List α → Option Bytes) (maxSize : Int)
    (hm : ∀ xs, (marshal xs).isSome = true)
    (rest : List α) (groups : List (List α)) (current : List α) :
    ∃ gs, splitLoop marshal maxSize rest groups current = some gs := by
  induction rest generalizing groups current with
  | nil =>
    rw [splitLoop]
    by_cases hc : current.length > 0
    · rw [if_pos hc]; exact ⟨_, rfl⟩
    · rw [if_neg hc]; exact ⟨_, rfl⟩
  | cons pkt rest ih =>
    rw [splitLoop_cons]
    obtain ⟨data, hdata⟩ := Option.isSome_iff_exists.mp (hm (current ++ [pkt]))
    rw [hdata]
    simp only
    by_cases hd : (data.length : Int) > maxSize
    · rw [if_pos hd]
      by_cases hc : current.length = 0
      · rw [if_pos hc]; exact ih _ _
      · rw [if_neg hc]; exact ih _ _
    · rw [if_neg hd]; exact ih _ _

/-- Every group returned by the split loop is within the bound, provided the
groups so far are and the accumulator is empty or within the bound. -/
theorem splitLoop_groupOk {α : Type} (marshal : List α → Option Bytes) (maxSize : Int)
    (rest : List α) (groups : List (List α)) (current : List α) (gs : List (List α))
    (hg : ∀ g ∈ groups, groupOk marshal maxSize g)
    (hc : current = [] ∨ groupOk marshal maxSize current)
    (h : splitLoop marshal maxSize rest groups current = some gs) :
    ∀ g ∈ gs, groupOk marshal maxSize g := by
  induction rest generalizing groups current with
  | nil =>
    rw [splitLoop] at h
    by_cases hl : current.length > 0
    · rw [if_pos hl] at h
      cases h
      intro g hmem
      rcases List.mem_append.mp hmem with h1 | h1
      · exact hg g h1
      · rw [List.mem_singleton] at h1
        subst h1
        rcases hc with hc | hc
        · rw [hc] at hl; exact absurd hl (by simp)
        · exact hc
    · rw [if_neg hl] at h
      cases h
      exact hg
  | cons pkt rest ih =>
    rw [splitLoop_cons] at h
    cases hm : marshal (current ++ [pkt]) with
    | none => rw [hm] at h; cases h
    | some data =>
      rw [hm] at h
      simp only at h
      by_cases hd : (data.length : Int) > maxSize
      · rw [if_pos hd] at h
        by_cases hnil : current.length = 0
        · rw [if_pos hnil] at h
          refine ih _ _ ?_ (Or.inl rfl) h
          intro g hmem
          rcases List.mem_append.mp hmem with h1 | h1
          · exact hg g h1
          · rw [List.mem_singleton] at h1
            exact Or.inr ⟨pkt, h1⟩
        · rw [if_neg hnil] at h
          refine ih _ _ ?_ (Or.inr (Or.inr ⟨pkt, rfl⟩)) h
          intro g hmem
          rcases List.mem_append.mp hmem with h1 | h1
          · exact hg g h1
          · rw [List.mem_singleton] at h1
            subst h1
            rcases hc with hc | hc
            · exact absurd (by rw [hc]; rfl) hnil
            · exact hc
      · rw [if_neg hd] at h
        exact ih _ _ hg (Or.inr (Or.inl ⟨data, hm, by omega⟩)) h

/-- When every record is longer than half of `maxSize` and a slice serialises to
at least the sum of its records, the split loop emits one group per record. -/
theorem splitLoop_singletons {α : Type} (marshal : List α → Option Bytes) (maxSize : Int)
    (size : α → Nat)
    (hsum : ∀ xs d, marshal xs = some d → (xs.map size).sum ≤ d.length)
    (rest : List α) (groups : List (List α)) (current : List α) (gs : List (List α))
    (hbig : ∀ x ∈ current ++ rest, maxSize < 2 * (size x : Int))
    (hlen : current.length ≤ 1)
    (h : splitLoop marshal maxSize rest groups current = some gs) :
    gs = groups ++ (current ++ rest).map (fun x => [x]) := by
  induction rest generalizing groups current with
  | nil =>
    rw [splitLoop] at h
    by_cases hl : current.length > 0
    · rw [if_pos hl] at h
      cases h
      obtain ⟨c, hc⟩ := List.length_eq_one.mp (by omega : current.length = 1)
      subst hc; simp
    · rw [if_neg hl] at h
      cases h
      have : current = [] := List.length_eq_zero.mp (by omega)
      subst this; simp
  | cons pkt rest ih =>
    rw [splitLoop_cons] at h
    cases hm : marshal (current ++ [pkt]) with
    | none => rw [hm] at h; cases h
    | some data =>
      rw [hm] at h
      simp only at h
      have hrest : ∀ x ∈ rest, maxSize < 2 * (size x : Int) := fun x hx =>
        hbig x (List.mem_append_right _ (List.mem_cons_of_mem _ hx))
      have hpkt : maxSize < 2 * (size pkt : Int) :=
        hbig pkt (List.mem_append_right _ (List.mem_cons_self _ _))
      by_cases hd : (data.length : Int) > maxSize
      · rw [if_pos hd] at h
        by_cases hnil : current.length = 0
        · rw [if_pos hnil] at h
          have hc : current = [] := List.length_eq_zero.mp hnil
          subst hc
          rw [ih _ _ (by simpa using hrest) (by simp) h]
          simp
        · rw [if_neg hnil] at h
          obtain ⟨c, hc⟩ := List.length_eq_one.mp (by omega : current.length = 1)
          subst hc
          rw [ih _ _ ?_ (by simp) h]
          · simp
          · intro x hx
            rcases List.mem_append.mp hx with h1 | h1
            · rw [List.mem_singleton] at h1; subst h1; exact hpkt
            · exact hrest x h1
      · rw [if_neg hd] at h
        by_cases hnil : current.length = 0
        · have hc : current = [] := List.length_eq_zero.mp hnil
          subst hc
          rw [ih _ _ ?_ (by simp) h]
          · simp
          · intro x hx
            rcases List.mem_append.mp hx with h1 | h1
            · simp only [List.nil_append, List.mem_singleton] at h1; subst h1; exact hpkt
            · exact hrest x h1
        · exfalso
          obtain ⟨c, hc⟩ := List.length_eq_one.mp (by omega : current.length = 1)
          subst hc
          have hcbig : maxSize < 2 * (size c : Int) :=
            hbig c (List.mem_append_left _ (List.mem_singleton.mpr rfl))
          have hs := hsum _ _ hm
          simp only [List.singleton_append, List.map_cons, List.map_nil, List.sum_cons,
            List.sum_nil, Nat.add_zero] at hs
          omega

/-! ## Splitting when every record is longer than half the bound -/

/-- C9, the example as stated, fails: five records of 1 258 291 bytes (1.2 MiB)
each, serialised as an array with brackets and commas, are split at
`maxSize = 5 MiB` into a group of four records and a group of one, not into five
one-record groups: four records take 5 033 169 bytes, which is below 5 242 880. -/
theorem splitBatch_example_not_singletons :
    splitBatch (uniformMarshal 1258291) [0, 1, 2, 3, 4] (maxMessageSize : Int) =
      some [[0, 1, 2, 3], [4]] ∧
    splitBatch (uniformMarshal 1258291) [0, 1, 2, 3, 4] (maxMessageSize : Int) ≠
      some ([0, 1, 2, 3, 4].map (fun x => [x])) := by
  have h : splitBatch (uniformMarshal 1258291) [0, 1, 2, 3, 4] (maxMessageSize : Int) =
      some [[0, 1, 2, 3], [4]] := by
    simp [splitBatch, splitLoop, uniformMarshal, maxMessageSize, zeros_length]
  refine ⟨h, ?_⟩
  rw [h]
  decide

/-- C9, amended.  For every batch in which each record has a size of more than
`maxSize / 2` (twice the size exceeds `maxSize`), under a serialiser whose output
for a slice is at least the sum of the sizes of its records: whenever `splitBatch`
returns groups they are the one-record groups of the batch in the batch order, and
it does return them when every serialisation succeeds. -/
theorem splitBatch_singletons {α : Type} (marshal : List α → Option Bytes)
    (maxSize : Int) (size : α → Nat) (batch : List α)
    (hbig : ∀ x ∈ batch, maxSize < 2 * (size x : Int))
    (hsum : ∀ xs d, marshal xs = some d → (xs.map size).sum ≤ d.length) :
    (∀ gs, splitBatch marshal batch maxSize = some gs → gs = batch.map (fun x => [x])) ∧
    ((∀ xs, (marshal xs).isSome = true) →
      splitBatch marshal batch maxSize = some (batch.map (fun x => [x]))) := by
  have part : ∀ gs, splitBatch marshal batch maxSize = some gs →
      gs = batch.map (fun x => [x]) := by
    intro gs h
    have := splitLoop_singletons marshal maxSize size hsum batch [] [] gs
      (by simpa using hbig) (by simp) h
    simpa using this
  refine ⟨part, ?_⟩
  intro htotal
  obtain ⟨gs, hgs⟩ := splitLoop_isSome marshal maxSize htotal batch [] []
  have hgs2 : splitBatch marshal batch maxSize = some gs := hgs
  rw [hgs2, part gs hgs2]

/-- C9, amended, at an example: five records of 2 621 441 bytes each, one byte
more than half of 5 MiB, are split into five one-record groups in order. -/
theorem splitBatch_singletons_witness :
    splitBatch (uniformMarshal 2621441) [0, 1, 2, 3, 4] (maxMessageSize : Int) =
      some [[0], [1], [2], [3], [4]] :=
  (splitBatch_singletons (uniformMarshal 2621441) (maxMessageSize : Int)
    (fun _ => 2621441) [0, 1, 2, 3, 4]
    (by
      intro x _
      rw [maxMessageSize_eq]
      show ((5242880 : Nat) : Int) < 2 * ((2621441 : Nat) : Int)
      omega)
    (by
      intro xs d h
      simp only [uniformMarshal, Option.some.injEq] at h
      subst h
      simp only [List.map_const', List.sum_replicate, zeros_length, smul_eq_mul]
      omega)).2
    (by intro xs; rfl)

/-! ## Events of the publish path -/

theorem writeLoop_no_splitCall (data : Bytes) (n : Nat) (w : World) :
    Event.splitCall ∉ (writeLoop data n w).2 := by
  induction n generalizing w with
  | zero => simp [writeLoop]
  | succ n ih =>
    simp only [writeLoop, World.writeNetwork]
    split
    · simp
    · have h := ih { w with networkWriter := fun k => w.networkWriter (k + 1),
                            now := w.now + second }
      simpa using h

theorem writeWithRetries_handedOff (data : Bytes) (w : World) :
    handedOff (writeWithRetries data w).2 = [] :=
  writeLoop_handedOff data 3 w

theorem writeWithRetries_snapshots (data : Bytes) (w : World) :
    snapshots (writeWithRetries data w).2 = [] :=
  writeLoop_snapshots data 3 w

theorem writeWithRetries_armed (data : Bytes) (w : World) :
    armed (writeWithRetries data w).2 = [] :=
  writeLoop_armed data 3 w

/-- With a writer that accepts every message, `writeWithRetries` makes a single
successful call and leaves a writer that accepts every message. -/
theorem writeWithRetries_allOk (data : Bytes) (w : World)
    (hok : ∀ k d, w.networkWriter k d = true) :
    (writeWithRetries data w).2 = [Event.writeMessages Topic.network data true] ∧
    ∀ k d, (writeWithRetries data w).1.networkWriter k d = true := by
  simp [writeWithRetries, writeLoop, World.writeNetwork, hok]

theorem publishGroups_snapshots (env : Env) (groups : List (List Ptr)) (w : World) :
    snapshots (publishGroups env groups w).2 = [] := by
  induction groups generalizing w with
  | nil => rfl
  | cons g rest ih =>
    simp only [publishGroups]
    split
    · have h := ih w
      simpa [snapshots, Event.snapshot?] using h
    · next d _ =>
      have h1 := writeWithRetries_snapshots d w
      have h2 := ih (writeWithRetries d w).1
      simp only [snapshots] at h1 h2 ⊢
      simp [Event.snapshot?, h1, h2]

theorem publishGroups_armed (env : Env) (groups : List (List Ptr)) (w : World) :
    armed (publishGroups env groups w).2 = [] := by
  induction groups generalizing w with
  | nil => rfl
  | cons g rest ih =>
    simp only [publishGroups]
    split
    · have h := ih w
      simpa [armed, Event.armed?] using h
    · next d _ =>
      have h1 := writeWithRetries_armed d w
      have h2 := ih (writeWithRetries d w).1
      simp only [armed] at h1 h2 ⊢
      simp [Event.armed?, h1, h2]

/-- Every message handed over by the loop over the split groups is the
serialisation of one of the groups. -/
theorem publishGroups_handedOff_mem (env : Env) (groups : List (List Ptr)) (w : World)
    (g : List Ptr) (d : Bytes) (h : (g, d) ∈ handedOff (publishGroups env groups w).2) :
    g ∈ groups ∧ env.marshal (g.map w.heap) = some d := by
  induction groups generalizing w with
  | nil => simp [publishGroups, handedOff] at h
  | cons g0 rest ih =>
    simp only [publishGroups] at h
    split at h
    · have h2 : (g, d) ∈ handedOff (publishGroups env rest w).2 := by
        simpa [handedOff, Event.handOff?] using h
      exact ⟨List.mem_cons_of_mem _ (ih w h2).1, (ih w h2).2⟩
    · next d0 hd0 =>
      have h1 := writeWithRetries_handedOff d0 w
      rw [show ∀ (e : Event) (es : List Event), handedOff (e :: es) = handedOff [e] ++ handedOff es
        from fun e es => handedOff_append [e] es, handedOff_append, h1] at h
      simp only [handedOff, List.filterMap_cons, Event.handOff?, List.filterMap_nil,
        List.nil_append, List.singleton_append, List.mem_cons, Prod.mk.injEq] at h
      rcases h with ⟨hg, hd⟩ | h
      · subst hg; subst hd
        exact ⟨List.mem_cons_self _ _, hd0⟩
      · have h2 := ih (writeWithRetries d0 w).1 h
        rw [writeWithRetries_heap] at h2
        exact ⟨List.mem_cons_of_mem _ h2.1, h2.2⟩

/-- When every serialisation succeeds, the loop over the split groups hands over
every group, in order. -/
theorem publishGroups_handedOff_total (env : Env) (groups : List (List Ptr)) (w : World)
    (hm : ∀ xs, (env.marshal xs).isSome = true) :
    (handedOff (publishGroups env groups w).2).map Prod.fst = groups := by
  induction groups generalizing w with
  | nil => rfl
  | cons g0 rest ih =>
    simp only [publishGroups]
    split
    · next hnone =>
      have := hm (g0.map w.heap)
      rw [hnone] at this
      exact absurd this (by simp)
    · next d0 _ =>
      have h1 := writeWithRetries_handedOff d0 w
      rw [show ∀ (e : Event) (es : List Event), handedOff (e :: es) = handedOff [e] ++ handedOff es
        from fun e es => handedOff_append [e] es, handedOff_append, h1]
      simp only [handedOff, List.filterMap_cons, Event.handOff?, List.filterMap_nil,
        List.nil_append, List.singleton_append, List.map_cons]
      have h2 := ih (writeWithRetries d0 w).1
      simp only [handedOff] at h2
      rw [h2]

/-- With a writer that accepts every message, every message handed over by the
loop over the split groups is written once, successfully. -/
theorem publishGroups_allOk (env : Env) (groups : List (List Ptr)) (w : World)
    (hok : ∀ k d, w.networkWriter k d = true) :
    attempts Topic.network (publishGroups env groups w).2 =
      (handedOff (publishGroups env groups w).2).map (fun gd => (gd.2, true)) ∧
    ∀ k d, (publishGroups env groups w).1.networkWriter k d = true := by
  induction groups generalizing w with
  | nil => exact ⟨rfl, hok⟩
  | cons g0 rest ih =>
    simp only [publishGroups]
    split
    · have h := ih w hok
      refine ⟨?_, h.2⟩
      have h1 := h.1
      simp only [attempts, handedOff] at h1 ⊢
      simp [Event.attempt?, Event.handOff?, h1]
    · next d0 _ =>
      obtain ⟨he, hw⟩ := writeWithRetries_allOk d0 w hok
      have h := ih (writeWithRetries d0 w).1 hw
      refine ⟨?_, h.2⟩
      have h1 := h.1
      rw [he]
      simp only [attempts, handedOff] at h1 ⊢
      simp [Event.attempt?, Event.handOff?, h1]

theorem publishBatch_snapshots (env : Env) (batch : List Ptr) (w : World) :
    snapshots (publishBatch env batch w).2 = [] := by
  unfold publishBatch
  split
  · rfl
  · split
    · split
      · rfl
      · have h := publishGroups_snapshots env ‹List (List Ptr)› w
        simpa [snapshots, Event.snapshot?] using h
    · next data _ _ =>
      have h := writeWithRetries_snapshots data w
      simpa [snapshots, Event.snapshot?] using h

theorem publishBatch_armed (env : Env) (batch : List Ptr) (w : World) :
    armed (publishBatch env batch w).2 = [] := by
  unfold publishBatch
  split
  · rfl
  · split
    · split
      · rfl
      · have h := publishGroups_armed env ‹List (List Ptr)› w
        simpa [armed, Event.armed?] using h
    · next data _ _ =>
      have h := writeWithRetries_armed data w
      simpa [armed, Event.armed?] using h

/-- Every message handed over by the publish part of a flush is the
serialisation of its group and is within the bound unless its group is a single
record. -/
theorem publishBatch_handedOff_mem (env : Env) (batch : List Ptr) (w : World)
    (g : List Ptr) (d : Bytes) (h : (g, d) ∈ handedOff (publishBatch env batch w).2) :
    env.marshal (g.map w.heap) = some d ∧
    (d.length ≤ maxMessageSize ∨ ∃ p, g = [p]) := by
  unfold publishBatch at h
  split at h
  · simp [handedOff, Event.handOff?] at h
  · next data hdata =>
    split at h
    · split at h
      · simp [handedOff, Event.handOff?] at h
      · next groups hgroups =>
        have h2 : (g, d) ∈ handedOff (publishGroups env groups w).2 := by
          simpa [handedOff, Event.handOff?] using h
        obtain ⟨hmem, hser⟩ := publishGroups_handedOff_mem env groups w g d h2
        refine ⟨hser, ?_⟩
        have hok := splitLoop_groupOk (fun g => env.marshal (g.map w.heap))
          (maxMessageSize : Int) batch [] [] groups (by simp) (Or.inl rfl) hgroups g hmem
        rcases hok with ⟨d1, hd1, hle⟩ | hsingle
        · left
          simp only at hd1
          rw [hser] at hd1
          cases hd1
          exact_mod_cast hle
        · exact Or.inr hsingle
    · next hle =>
      have h1 := writeWithRetries_handedOff data w
      rw [show ∀ (e : Event) (es : List Event), handedOff (e :: es) = handedOff [e] ++ handedOff es
        from fun e es => handedOff_append [e] es, h1] at h
      simp only [handedOff, List.filterMap_cons, Event.handOff?, List.filterMap_nil,
        List.append_nil, List.mem_singleton, Prod.mk.injEq] at h
      obtain ⟨hg, hd⟩ := h
      subst hg; subst hd
      exact ⟨hdata, Or.inl (Nat.le_of_not_gt hle)⟩

/-- When every serialisation succeeds, the groups handed over by the publish
part of a flush, concatenated in order, are the snapshot. -/
theorem publishBatch_handedOff_total (env : Env) (batch : List Ptr) (w : World)
    (hm : ∀ xs, (env.marshal xs).isSome = true) :
    ((handedOff (publishBatch env batch w).2).map Prod.fst).flatten = batch := by
  unfold publishBatch
  split
  · next hnone =>
    have := hm (batch.map w.heap)
    rw [hnone] at this
    exact absurd this (by simp)
  · next data hdata =>
    split
    · obtain ⟨gs, hgs⟩ := splitLoop_isSome (fun g => env.marshal (g.map w.heap))
        (maxMessageSize : Int) (fun xs => hm _) batch [] []
      have hgs2 : splitBatch (fun g => env.marshal (g.map w.heap)) batch
          (maxMessageSize : Int) = some gs := hgs
      rw [hgs2]
      simp only
      have h1 := publishGroups_handedOff_total env gs w hm
      have h2 := splitLoop_flatten _ _ _ _ _ _ hgs
      simp only [List.flatten_nil, List.nil_append] at h2
      have h3 : handedOff (Event.splitCall :: (publishGroups env gs w).2) =
          handedOff (publishGroups env gs w).2 := by
        simp [handedOff, Event.handOff?]
      rw [h3, h1, h2]
    · have h1 := writeWithRetries_handedOff data w
      rw [show ∀ (e : Event) (es : List Event), handedOff (e :: es) = handedOff [e] ++ handedOff es
        from fun e es => handedOff_append [e] es, h1]
      simp [handedOff, Event.handOff?]

/-- With a writer that accepts every message, every message handed over by the
publish part of a flush is written once, successfully. -/
theorem publishBatch_allOk (env : Env) (batch : List Ptr) (w : World)
    (hok : ∀ k d, w.networkWriter k d = true) :
    attempts Topic.network (publishBatch env batch w).2 =
      (handedOff (publishBatch env batch w).2).map (fun gd => (gd.2, true)) ∧
    ∀ k d, (publishBatch env batch w).1.networkWriter k d = true := by
  unfold publishBatch
  split
  · exact ⟨rfl, hok⟩
  · next data _ =>
    split
    · split
      · exact ⟨rfl, hok⟩
      · next groups _ =>
        have h := publishGroups_allOk env groups w hok
        refine ⟨?_, h.2⟩
        have h1 := h.1
        simp only [attempts, handedOff] at h1 ⊢
        simp [Event.attempt?, Event.handOff?, h1]
    · obtain ⟨he, hw⟩ := writeWithRetries_allOk data w hok
      refine ⟨?_, hw⟩
      simp only
      rw [he]
      simp [attempts, handedOff, Event.attempt?, Event.handOff?]

/-! ## Facts about `flushLocked` -/

theorem flushLocked_empty (env : Env) (b : BatchBuffer) (w : World)
    (h : b.packets = []) :
    flushLocked env b w = { st := b, world := w, events := [] } := by
  unfold flushLocked
  rw [if_pos (by rw [h]; rfl)]

theorem flushLocked_nonempty (env : Env) (b : BatchBuffer) (w : World)
    (h : b.packets ≠ []) :
    flushLocked env b w =
      { st := { b with packets := [], timer := none },
        world := (publishBatch env b.packets w).1,
        events := Event.copyOut b.packets ::
          ((if b.timer.isSome then [Event.timerStop] else []) ++
            (publishBatch env b.packets w).2) } := by
  unfold flushLocked
  rw [if_neg (by simpa using h)]

theorem flushLocked_handedOff (env : Env) (b : BatchBuffer) (w : World) :
    handedOff (flushLocked env b w).events = handedOff (publishBatch env b.packets w).2 ∨
    handedOff (flushLocked env b w).events = [] := by
  by_cases h : b.packets = []
  · right; rw [flushLocked_empty env b w h]; rfl
  · left
    rw [flushLocked_nonempty env b w h]
    simp only
    rw [show ∀ (e : Event) (es : List Event), handedOff (e :: es) = handedOff [e] ++ handedOff es
      from fun e es => handedOff_append [e] es, handedOff_append]
    by_cases ht : b.timer.isSome <;> simp [ht, handedOff, Event.handOff?]

/-! ## Message sizes -/

/-- C2. Every message that `flushLocked` hands to `writeWithRetries` is the
serialisation of its record group and is at most `maxMessageSize` bytes long,
except a message of a single record whose own serialisation exceeds
`maxMessageSize`.  (No assumption on the serialiser is needed.) -/
theorem flushLocked_message_size (env : Env) (b : BatchBuffer) (w : World)
    (g : List Ptr) (d : Bytes) (h : (g, d) ∈ handedOff (flushLocked env b w).events) :
    env.marshal (g.map w.heap) = some d ∧
    (d.length ≤ maxMessageSize ∨
      ∃ p, g = [p] ∧ env.marshal [w.heap p] = some d ∧ d.length > maxMessageSize) := by
  rcases flushLocked_handedOff env b w with heq | heq
  · rw [heq] at h
    obtain ⟨hser, hsize⟩ := publishBatch_handedOff_mem env b.packets w g d h
    refine ⟨hser, ?_⟩
    by_cases hle : d.length ≤ maxMessageSize
    · exact Or.inl hle
    · rcases hsize with hsize | ⟨p, hp⟩
      · exact absurd hsize hle
      · right
        subst hp
        exact ⟨p, rfl, hser, Nat.lt_of_not_le hle⟩
  · rw [heq] at h
    exact absurd h (List.not_mem_nil _)

/-- The publish part of a flush when the snapshot is over the bound and the split
returns groups. -/
theorem publishBatch_of_split (env : Env) (batch : List Ptr) (w : World) (data : Bytes)
    (groups : List (List Ptr))
    (hm : env.marshal (batch.map w.heap) = some data)
    (hgt : data.length > maxMessageSize)
    (hs : splitBatch (fun g => env.marshal (g.map w.heap)) batch (maxMessageSize : Int) =
      some groups) :
    publishBatch env batch w =
      ((publishGroups env groups w).1, Event.splitCall :: (publishGroups env groups w).2) := by
  unfold publishBatch
  rw [hm]
  simp only
  rw [if_pos hgt, hs]

/-- C2 at an example: two records whose serialisations, alone or together, take
6 000 000 bytes are flushed as two messages of one record each; both exceed
`maxMessageSize`, and each is the serialisation of a single record. -/
theorem flushLocked_message_size_witness :
    ([1], zeros 6000000) ∈ handedOff (flushLocked heavyEnv
      { packets := [0, 1], timer := none, batchSize := 100, timeout := second }
      (exampleWorld [1, 2, 3] 3 true)).events ∧
    (heavyEnv.marshal ([1].map (exampleWorld [1, 2, 3] 3 true).heap) = some (zeros 6000000) ∧
      ((zeros 6000000).length ≤ maxMessageSize ∨
        ∃ p, [1] = [p] ∧
          heavyEnv.marshal [(exampleWorld [1, 2, 3] 3 true).heap p] = some (zeros 6000000) ∧
          (zeros 6000000).length > maxMessageSize)) := by
  have hgt : (zeros 6000000).length > maxMessageSize := by
    rw [zeros_length, maxMessageSize_eq]; omega
  have hsplit : splitBatch
      (fun g => heavyEnv.marshal (g.map (exampleWorld [1, 2, 3] 3 true).heap)) [0, 1]
      (maxMessageSize : Int) = some [[0], [1]] := by
    simp [splitBatch, splitLoop, heavyEnv, zeros_length, maxMessageSize]
  have hgroups : handedOff (publishGroups heavyEnv [[0], [1]]
      (exampleWorld [1, 2, 3] 3 true)).2 = [([0], zeros 6000000), ([1], zeros 6000000)] := by
    simp [publishGroups, heavyEnv, writeWithRetries, writeLoop, World.writeNetwork,
      exampleWorld, handedOff, Event.handOff?]
  have hmem : ([1], zeros 6000000) ∈ handedOff (flushLocked heavyEnv
      { packets := [0, 1], timer := none, batchSize := 100, timeout := second }
      (exampleWorld [1, 2, 3] 3 true)).events := by
    rw [flushLocked_nonempty _ _ _ (by simp),
      publishBatch_of_split heavyEnv [0, 1] _ (zeros 6000000) [[0], [1]] rfl hgt hsplit]
    simp only [handedOff] at hgroups ⊢
    simp [Event.handOff?, hgroups]
  exact ⟨hmem, flushLocked_message_size _ _ _ _ _ hmem⟩

/-! ## A snapshot within the bound is published whole -/

/-- C8. When the serialisation `data` of a non-empty snapshot is at most
`maxMessageSize` bytes long (equality included), `flushLocked` copies the buffer
out, stops a pending timer, and makes exactly one call of `writeWithRetries`, on
`data`, the serialisation of the entire snapshot; `splitBatch` is not called. -/
theorem flushLocked_within_bound (env : Env) (b : BatchBuffer) (w : World) (data : Bytes)
    (hne : b.packets ≠ [])
    (hm : env.marshal (b.packets.map w.heap) = some data)
    (hle : data.length ≤ maxMessageSize) :
    (flushLocked env b w).events =
      Event.copyOut b.packets :: ((if b.timer.isSome then [Event.timerStop] else []) ++
        Event.handOff b.packets data :: (writeWithRetries data w).2) ∧
    handedOff (flushLocked env b w).events = [(b.packets, data)] ∧
    Event.splitCall ∉ (flushLocked env b w).events ∧
    (flushLocked env b w).world = (writeWithRetries data w).1 := by
  have hpb : publishBatch env b.packets w =
      ((writeWithRetries data w).1, Event.handOff b.packets data :: (writeWithRetries data w).2) := by
    unfold publishBatch
    rw [hm]
    simp only
    rw [if_neg (Nat.not_lt.mpr hle)]
  rw [flushLocked_nonempty env b w hne, hpb]
  refine ⟨rfl, ?_, ?_, rfl⟩
  · simp only
    have hw := writeWithRetries_handedOff data w
    simp only [handedOff] at hw ⊢
    by_cases ht : b.timer.isSome <;> simp [ht, Event.handOff?, hw]
  · have hno := writeLoop_no_splitCall data 3 w
    simp only
    intro hmem
    rcases List.mem_cons.mp hmem with h1 | h1
    · cases h1
    · rcases List.mem_append.mp h1 with h2 | h2
      · by_cases ht : b.timer.isSome
        · rw [if_pos ht] at h2
          rcases List.mem_singleton.mp h2 with h3
          cases h3
        · rw [if_neg ht] at h2
          exact absurd h2 (List.not_mem_nil _)
      · rcases List.mem_cons.mp h2 with h3 | h3
        · cases h3
        · exact hno h3

/-- C8 at the boundary: a snapshot whose serialisation is exactly
`5 * 1024 * 1024` bytes long is handed over as one message. -/
theorem flushLocked_within_bound_witness :
    (zeros maxMessageSize).length = 5 * 1024 * 1024 ∧
    handedOff (flushLocked boundaryEnv
      { packets := [0, 1, 2], timer := some ⟨second⟩, batchSize := 100, timeout := second }
      (exampleWorld [1, 2, 3] 3 true)).events = [([0, 1, 2], zeros maxMessageSize)] ∧
    Event.splitCall ∉ (flushLocked boundaryEnv
      { packets := [0, 1, 2], timer := some ⟨second⟩, batchSize := 100, timeout := second }
      (exampleWorld [1, 2, 3] 3 true)).events := by
  have h := flushLocked_within_bound boundaryEnv
    { packets := [0, 1, 2], timer := some ⟨second⟩, batchSize := 100, timeout := second }
    (exampleWorld [1, 2, 3] 3 true) (zeros maxMessageSize)
    (by simp) rfl (by rw [zeros_length])
  exact ⟨zeros_length _, h.2.1, h.2.2.1⟩

/-! ## Facts about `Add` -/

/-- The admit that brings the buffer to `batchSize` records: the buffer with the
new record is copied out and published, and the batch size is observed. -/
theorem Add_flush (env : Env) (b : BatchBuffer) (p : Ptr) (w : World)
    (h : ((b.packets ++ [p]).length : Int) ≥ b.batchSize) :
    b.Add env p w =
      { st := { b with packets := [], timer := none },
        world := (publishBatch env (b.packets ++ [p]) (w.trimAt p)).1,
        events := Event.copyOut (b.packets ++ [p]) ::
          ((if b.timer.isSome then [Event.timerStop] else []) ++
            (publishBatch env (b.packets ++ [p]) (w.trimAt p)).2) ++
          [Event.observe b.batchSize] } := by
  unfold BatchBuffer.Add
  simp only
  rw [if_pos h, flushLocked_nonempty _ _ _ (by simp)]

/-- An admit below `batchSize` with no timer pending: the record is appended and
the timer is armed. -/
theorem Add_arm (env : Env) (b : BatchBuffer) (p : Ptr) (w : World)
    (h : ((b.packets ++ [p]).length : Int) < b.batchSize) (ht : b.timer = none) :
    b.Add env p w =
      { st := { b with packets := b.packets ++ [p], timer := some ⟨b.timeout⟩ },
        world := w.trimAt p, events := [Event.afterFunc b.timeout] } := by
  unfold BatchBuffer.Add
  simp only
  rw [if_neg (by omega), if_pos (by rw [ht]; rfl)]

/-- An admit below `batchSize` with a timer pending: the record is appended and
nothing else happens. -/
theorem Add_pending (env : Env) (b : BatchBuffer) (p : Ptr) (w : World)
    (h : ((b.packets ++ [p]).length : Int) < b.batchSize) (ht : b.timer.isSome = true) :
    b.Add env p w =
      { st := { b with packets := b.packets ++ [p] }, world := w.trimAt p, events := [] } := by
  unfold BatchBuffer.Add
  simp only
  rw [if_neg (by omega), if_neg (by cases hb : b.timer <;> simp_all)]

theorem Add_batchSize (env : Env) (b : BatchBuffer) (p : Ptr) (w : World) :
    (b.Add env p w).st.batchSize = b.batchSize ∧ (b.Add env p w).st.timeout = b.timeout := by
  by_cases h : ((b.packets ++ [p]).length : Int) ≥ b.batchSize
  · rw [Add_flush env b p w h]; exact ⟨rfl, rfl⟩
  · cases ht : b.timer with
    | none => rw [Add_arm env b p w (by omega) ht]; exact ⟨rfl, rfl⟩
    | some t => rw [Add_pending env b p w (by omega) (by rw [ht]; rfl)]; exact ⟨rfl, rfl⟩

/-- The groups handed over by one admit, concatenated, followed by the buffer
after it, are the buffer before it followed by the admitted handle. -/
theorem Add_handedOff (env : Env) (b : BatchBuffer) (p : Ptr) (w : World)
    (hm : ∀ xs, (env.marshal xs).isSome = true) :
    ((handedOff (b.Add env p w).events).map Prod.fst).flatten ++ (b.Add env p w).st.packets =
      b.packets ++ [p] := by
  by_cases h : ((b.packets ++ [p]).length : Int) ≥ b.batchSize
  · rw [Add_flush env b p w h]
    have h1 := publishBatch_handedOff_total env (b.packets ++ [p]) (w.trimAt p) hm
    simp only [handedOff] at h1 ⊢
    by_cases ht : b.timer.isSome <;> simp [ht, Event.handOff?, h1]
  · cases ht : b.timer with
    | none => rw [Add_arm env b p w (by omega) ht]; simp [handedOff, Event.handOff?]
    | some t =>
      rw [Add_pending env b p w (by omega) (by rw [ht]; rfl)]; simp [handedOff]

/-- With a writer that accepts every message, every message handed over by one
admit is written once, successfully. -/
theorem Add_allOk (env : Env) (b : BatchBuffer) (p : Ptr) (w : World)
    (hok : ∀ k d, w.networkWriter k d = true) :
    attempts Topic.network (b.Add env p w).events =
      (handedOff (b.Add env p w).events).map (fun gd => (gd.2, true)) ∧
    ∀ k d, (b.Add env p w).world.networkWriter k d = true := by
  by_cases h : ((b.packets ++ [p]).length : Int) ≥ b.batchSize
  · rw [Add_flush env b p w h]
    have h1 := publishBatch_allOk env (b.packets ++ [p]) (w.trimAt p) hok
    refine ⟨?_, h1.2⟩
    have h2 := h1.1
    simp only [handedOff, attempts] at h2 ⊢
    by_cases ht : b.timer.isSome <;> simp [ht, Event.handOff?, Event.attempt?, h2]
  · cases ht : b.timer with
    | none =>
      rw [Add_arm env b p w (by omega) ht]
      exact ⟨by simp [handedOff, attempts, Event.handOff?, Event.attempt?], hok⟩
    | some t =>
      rw [Add_pending env b p w (by omega) (by rw [ht]; rfl)]
      exact ⟨by simp [handedOff, attempts], hok⟩

/-- The snapshot taken by one admit, if any, and the buffer after it. -/
theorem Add_snapshots (env : Env) (b : BatchBuffer) (p : Ptr) (w : World) :
    (((b.packets ++ [p]).length : Int) ≥ b.batchSize →
      snapshots (b.Add env p w).events = [b.packets ++ [p]] ∧
      (b.Add env p w).st.packets = [] ∧ (b.Add env p w).st.timer = none) ∧
    (((b.packets ++ [p]).length : Int) < b.batchSize →
      snapshots (b.Add env p w).events = [] ∧
      (b.Add env p w).st.packets = b.packets ++ [p]) := by
  constructor
  · intro h
    rw [Add_flush env b p w h]
    refine ⟨?_, rfl, rfl⟩
    have h1 := publishBatch_snapshots env (b.packets ++ [p]) (w.trimAt p)
    simp only [snapshots] at h1 ⊢
    by_cases ht : b.timer.isSome <;> simp [ht, Event.snapshot?, h1]
  · intro h
    cases ht : b.timer with
    | none => rw [Add_arm env b p w h ht]; simp [snapshots, Event.snapshot?]
    | some t => rw [Add_pending env b p w h (by rw [ht]; rfl)]; simp [snapshots]

/-! ## Facts about successive admits -/

theorem addAll_batchSize (env : Env) (b : BatchBuffer) (ps : List Ptr) (w : World) :
    (addAll env b ps w).st.batchSize = b.batchSize ∧
    (addAll env b ps w).st.timeout = b.timeout := by
  induction ps generalizing b w with
  | nil => exact ⟨rfl, rfl⟩
  | cons p ps ih =>
    simp only [addAll]
    rw [(ih _ _).1, (ih _ _).2]
    exact Add_batchSize env b p w

/-- Admits that stay below `batchSize` while a timer is pending only append. -/
theorem addAll_pending (env : Env) (b : BatchBuffer) (ps : List Ptr) (w : World)
    (ht : b.timer.isSome = true)
    (h : ((b.packets ++ ps).length : Int) < b.batchSize) :
    (addAll env b ps w).events = [] ∧
    (addAll env b ps w).st = { b with packets := b.packets ++ ps } := by
  induction ps generalizing b w with
  | nil => simp [addAll]
  | cons p ps ih =>
    have hlt : ((b.packets ++ [p]).length : Int) < b.batchSize := by
      simp only [List.length_append, List.length_cons, List.length_nil] at h ⊢
      omega
    simp only [addAll]
    rw [Add_pending env b p w hlt ht]
    simp only
    have := ih { b with packets := b.packets ++ [p] } (w.trimAt p) ht
      (by simpa [List.append_assoc] using h)
    rw [this.1, this.2]
    simp

/-- The groups handed over by successive admits, concatenated, followed by the
buffer after them, are the buffer before them followed by the admitted handles. -/
theorem addAll_handedOff (env : Env) (b : BatchBuffer) (ps : List Ptr) (w : World)
    (hm : ∀ xs, (env.marshal xs).isSome = true) :
    ((handedOff (addAll env b ps w).events).map Prod.fst).flatten ++
      (addAll env b ps w).st.packets = b.packets ++ ps := by
  induction ps generalizing b w with
  | nil => simp [addAll, handedOff]
  | cons p ps ih =>
    simp only [addAll]
    have h1 := Add_handedOff env b p w hm
    have h2 := ih (b.Add env p w).st (b.Add env p w).world
    rw [handedOff_append, List.map_append, List.flatten_append, List.append_assoc, h2,
      ← List.append_assoc, h1]
    simp

/-- With a writer that accepts every message, every message handed over by
successive admits is written once, successfully. -/
theorem addAll_allOk (env : Env) (b : BatchBuffer) (ps : List Ptr) (w : World)
    (hok : ∀ k d, w.networkWriter k d = true) :
    attempts Topic.network (addAll env b ps w).events =
      (handedOff (addAll env b ps w).events).map (fun gd => (gd.2, true)) ∧
    ∀ k d, (addAll env b ps w).world.networkWriter k d = true := by
  induction ps generalizing b w with
  | nil => exact ⟨rfl, hok⟩
  | cons p ps ih =>
    simp only [addAll]
    obtain ⟨h1, hw1⟩ := Add_allOk env b p w hok
    obtain ⟨h2, hw2⟩ := ih (b.Add env p w).st (b.Add env p w).world hw1
    refine ⟨?_, hw2⟩
    rw [attempts_append, handedOff_append, List.map_append, h1, h2]

/-- When every serialisation succeeds, the groups handed over by a flush,
concatenated in order, are the buffer. -/
theorem Flush_handedOff (env : Env) (b : BatchBuffer) (w : World)
    (hm : ∀ xs, (env.marshal xs).isSome = true) :
    ((handedOff (b.Flush env w).events).map Prod.fst).flatten = b.packets ∧
    (b.Flush env w).st.packets = [] := by
  unfold BatchBuffer.Flush
  by_cases h : b.packets = []
  · rw [flushLocked_empty env b w h, h]
    exact ⟨rfl, rfl⟩
  · rw [flushLocked_nonempty env b w h]
    refine ⟨?_, rfl⟩
    have h1 := publishBatch_handedOff_total env b.packets w hm
    simp only [handedOff] at h1 ⊢
    by_cases ht : b.timer.isSome <;> simp [ht, Event.handOff?, h1]

/-- With a writer that accepts every message, every message handed over by a
flush is written once, successfully. -/
theorem Flush_allOk (env : Env) (b : BatchBuffer) (w : World)
    (hok : ∀ k d, w.networkWriter k d = true) :
    attempts Topic.network (b.Flush env w).events =
      (handedOff (b.Flush env w).events).map (fun gd => (gd.2, true)) := by
  unfold BatchBuffer.Flush
  by_cases h : b.packets = []
  · rw [flushLocked_empty env b w h]; rfl
  · rw [flushLocked_nonempty env b w h]
    have h2 := (publishBatch_allOk env b.packets w hok).1
    simp only [handedOff, attempts] at h2 ⊢
    by_cases ht : b.timer.isSome <;> simp [ht, Event.handOff?, Event.attempt?, h2]

/-! ## Order of publication -/

/-- C1. Admit the handles `ps` with `Add` to a fresh batcher of any batch size
and then call `Flush`, with every serialisation succeeding and every publish
accepted.  The record groups handed to `writeWithRetries` (by the count-triggered
flushes and the final flush, split groups included), concatenated in the order of
the calls, are exactly `ps`; each of their messages is written exactly once,
successfully, in that same order; and the buffer ends empty. -/
theorem admit_then_flush_preserves_order (env : Env) (B T : Int) (ps : List Ptr)
    (w : World)
    (hm : ∀ xs, (env.marshal xs).isSome = true)
    (hok : ∀ k d, w.networkWriter k d = true) :
    ((handedOff (addAllThenFlush env (NewBatchBuffer B T) ps w).events).map
      Prod.fst).flatten = ps ∧
    attempts Topic.network (addAllThenFlush env (NewBatchBuffer B T) ps w).events =
      (handedOff (addAllThenFlush env (NewBatchBuffer B T) ps w).events).map
        (fun gd => (gd.2, true)) ∧
    (addAllThenFlush env (NewBatchBuffer B T) ps w).st.packets = [] := by
  unfold addAllThenFlush
  simp only
  have h1 := addAll_handedOff env (NewBatchBuffer B T) ps w hm
  obtain ⟨h2, hw⟩ := addAll_allOk env (NewBatchBuffer B T) ps w hok
  obtain ⟨h3, h4⟩ := Flush_handedOff env (addAll env (NewBatchBuffer B T) ps w).st
    (addAll env (NewBatchBuffer B T) ps w).world hm
  have h5 := Flush_allOk env (addAll env (NewBatchBuffer B T) ps w).st
    (addAll env (NewBatchBuffer B T) ps w).world hw
  refine ⟨?_, ?_, h4⟩
  · rw [handedOff_append, List.map_append, List.flatten_append, h3, h1]
    rfl
  · rw [attempts_append, handedOff_append, List.map_append, h2, h5]

/-- C1 at an example: three records admitted to a batcher of size two and then
flushed are handed over in admission order. -/
theorem admit_then_flush_preserves_order_witness :
    ((handedOff (addAllThenFlush exampleEnv (NewBatchBuffer 2 second) [10, 11, 12]
      (exampleWorld [1, 2, 3] 3 true)).events).map Prod.fst).flatten = [10, 11, 12] :=
  (admit_then_flush_preserves_order exampleEnv 2 second [10, 11, 12]
    (exampleWorld [1, 2, 3] 3 true) (fun _ => rfl) (fun _ _ => rfl)).1

/-! ## Admits below the batch size -/

/-- C7. Admit `k` handles, `1 ≤ k ≤ B - 1`, to a fresh batcher of size `B ≥ 2`
(empty buffer, no timer).  The only event is one `time.AfterFunc` call with the
batcher's timeout, made by the first admit; the later admits execute no event, so
the timer is not armed again and nothing is serialised or published; all `k`
handles stay in the buffer, in order, with the timer pending. -/
theorem admits_below_batch_size (env : Env) (B T : Int) (ps : List Ptr) (w : World)
    (hB : 2 ≤ B) (hk1 : 1 ≤ ps.length) (hk : (ps.length : Int) ≤ B - 1) :
    (addAll env (NewBatchBuffer B T) ps w).events = [Event.afterFunc T] ∧
    (addAll env (NewBatchBuffer B T) (ps.take 1) w).events = [Event.afterFunc T] ∧
    (addAll env (addAll env (NewBatchBuffer B T) (ps.take 1) w).st (ps.drop 1)
      (addAll env (NewBatchBuffer B T) (ps.take 1) w).world).events = [] ∧
    attempts Topic.network (addAll env (NewBatchBuffer B T) ps w).events = [] ∧
    handedOff (addAll env (NewBatchBuffer B T) ps w).events = [] ∧
    (addAll env (NewBatchBuffer B T) ps w).st.packets = ps ∧
    (addAll env (NewBatchBuffer B T) ps w).st.timer = some ⟨T⟩ := by
  cases ps with
  | nil => simp at hk1
  | cons p rest =>
    have hlen : ((rest.length : Int)) + 1 ≤ B - 1 := by
      simpa using hk
    have hfirst : (NewBatchBuffer B T).Add env p w =
        { st := { NewBatchBuffer B T with packets := [p], timer := some ⟨T⟩ },
          world := w.trimAt p, events := [Event.afterFunc T] } := by
      rw [Add_arm env (NewBatchBuffer B T) p w (by simp [NewBatchBuffer]; omega) rfl]
      rfl
    have hrest := addAll_pending env
      { NewBatchBuffer B T with packets := [p], timer := some ⟨T⟩ } rest (w.trimAt p) rfl
      (by simp [NewBatchBuffer]; omega)
    have hall : addAll env (NewBatchBuffer B T) (p :: rest) w =
        { st := { NewBatchBuffer B T with packets := p :: rest, timer := some ⟨T⟩ },
          world := (addAll env { NewBatchBuffer B T with packets := [p], timer := some ⟨T⟩ }
            rest (w.trimAt p)).world,
          events := [Event.afterFunc T] } := by
      simp only [addAll]
      rw [hfirst]
      simp only
      rw [hrest.1, hrest.2]
      simp
    refine ⟨?_, ?_, ?_, ?_, ?_, ?_, ?_⟩
    · rw [hall]
    · simp only [List.take_succ_cons, List.take_zero, addAll]
      rw [hfirst]; simp
    · simp only [List.take_succ_cons, List.take_zero, List.drop_succ_cons, List.drop_zero,
        addAll]
      rw [hfirst]
      simp only [List.append_nil]
      exact hrest.1
    · rw [hall]; simp [attempts, Event.attempt?]
    · rw [hall]; simp [handedOff, Event.handOff?]
    · rw [hall]
    · rw [hall]

/-- C7 at an example: three admits to a fresh batcher of size 100 and timeout
one second arm the timer once and publish nothing. -/
theorem admits_below_batch_size_witness :
    (addAll exampleEnv (NewBatchBuffer 100 second) [10, 11, 12]
      (exampleWorld [1, 2, 3] 3 true)).events = [Event.afterFunc second] ∧
    (addAll exampleEnv (NewBatchBuffer 100 second) [10, 11, 12]
      (exampleWorld [1, 2, 3] 3 true)).st.packets = [10, 11, 12] := by
  have h := admits_below_batch_size exampleEnv 100 second [10, 11, 12]
    (exampleWorld [1, 2, 3] 3 true) (by decide) (by decide) (by decide)
  exact ⟨h.1, h.2.2.2.2.2.1⟩

/-! ## Count-triggered flushes -/

theorem fullChunks_short {α : Type} (n : Nat) (xs : List α) (h : xs.length < n) :
    fullChunks n xs = [] ∧ xs.drop (xs.length / n * n) = xs := by
  unfold fullChunks
  rw [Nat.div_eq_of_lt h]
  simp

theorem fullChunks_block {α : Type} (n : Nat) (xs ys : List α) (hn : 0 < n)
    (h : xs.length = n) :
    fullChunks n (xs ++ ys) = xs :: fullChunks n ys ∧
    (xs ++ ys).drop ((xs ++ ys).length / n * n) = ys.drop (ys.length / n * n) := by
  have hdiv : (xs ++ ys).length / n = ys.length / n + 1 := by
    rw [List.length_append, h, Nat.add_div_left _ hn]
  constructor
  · unfold fullChunks
    rw [hdiv, List.range_succ_eq_map, List.map_cons, List.map_map]
    congr 1
    · simp only [Nat.zero_mul, List.drop_zero]
      rw [← h, List.take_left']
      rfl
    · apply List.map_congr_left
      intro i _
      simp only [Function.comp]
      have : (i + 1) * n = xs.length + i * n := by rw [h, Nat.add_mul]; omega
      rw [this, List.drop_append]
  · rw [hdiv]
    have : (ys.length / n + 1) * n = xs.length + ys.length / n * n := by
      rw [h, Nat.add_mul]; omega
    rw [this, List.drop_append]

/-- The snapshots taken by successive admits to a batcher holding fewer than
`B` records are the full blocks of `B` records of the buffer followed by the
admitted handles; the rest stays buffered. -/
theorem addAll_snapshots (env : Env) (B : Nat) (b : BatchBuffer) (ps : List Ptr)
    (w : World) (hB : 0 < B) (hsize : b.batchSize = (B : Int))
    (hlt : b.packets.length < B) :
    snapshots (addAll env b ps w).events = fullChunks B (b.packets ++ ps) ∧
    (addAll env b ps w).st.packets =
      (b.packets ++ ps).drop ((b.packets ++ ps).length / B * B) := by
  induction ps generalizing b w with
  | nil =>
    have h := fullChunks_short B b.packets hlt
    simp only [addAll, List.append_nil]
    exact ⟨by rw [h.1]; rfl, h.2.symm⟩
  | cons p ps ih =>
    simp only [addAll]
    rw [snapshots_append]
    obtain ⟨hflush, hkeep⟩ := Add_snapshots env b p w
    have hbs := (Add_batchSize env b p w).1
    by_cases hge : ((b.packets ++ [p]).length : Int) ≥ b.batchSize
    · obtain ⟨h1, h2, _⟩ := hflush hge
      have hlen : (b.packets ++ [p]).length = B := by
        rw [hsize] at hge
        simp only [List.length_append, List.length_singleton] at hge ⊢
        omega
      have hih := ih (b.Add env p w).st (b.Add env p w).world (by rw [hbs, hsize])
        (by rw [h2]; exact hB)
      rw [h2, List.nil_append] at hih
      have hblock := fullChunks_block B (b.packets ++ [p]) ps hB hlen
      rw [List.append_assoc] at hblock
      simp only [List.singleton_append] at hblock
      rw [h1, hih.1, hih.2, hblock.1, hblock.2]
      exact ⟨rfl, rfl⟩
    · have hlt2 : ((b.packets ++ [p]).length : Int) < b.batchSize := by omega
      obtain ⟨h1, h2⟩ := hkeep hlt2
      have hih := ih (b.Add env p w).st (b.Add env p w).world (by rw [hbs, hsize])
        (by rw [h2]; rw [hsize] at hlt2; exact_mod_cast hlt2)
      rw [h2, List.append_assoc] at hih
      simp only [List.singleton_append] at hih
      rw [h1, hih.1, hih.2]
      exact ⟨rfl, rfl⟩

/-- C6. Admit the handles `ps` (`n` of them) to a fresh batcher of size `B ≥ 1`,
with no timer firing in between.  The snapshots flushed inline are the first
`n / B` consecutive blocks of `B` handles of `ps`, in order (block `i`, counted
from zero, is `ps[i*B .. (i+1)*B)`), so there are exactly `n / B` of them; after the
first `k` admits exactly `k / B` of them have been taken, so flush `i` happens on
admit `i * B`; and the `n % B` handles after the last full block stay buffered. -/
theorem count_triggered_flushes (env : Env) (B : Nat) (T : Int) (ps : List Ptr)
    (w : World) (hB : 1 ≤ B) :
    snapshots (addAll env (NewBatchBuffer B T) ps w).events = fullChunks B ps ∧
    (snapshots (addAll env (NewBatchBuffer B T) ps w).events).length = ps.length / B ∧
    (∀ k, k ≤ ps.length →
      (snapshots (addAll env (NewBatchBuffer B T) (ps.take k) w).events).length = k / B) ∧
    (addAll env (NewBatchBuffer B T) ps w).st.packets = ps.drop (ps.length / B * B) ∧
    (addAll env (NewBatchBuffer B T) ps w).st.packets.length = ps.length % B := by
  have main : ∀ qs : List Ptr,
      snapshots (addAll env (NewBatchBuffer B T) qs w).events = fullChunks B qs ∧
      (addAll env (NewBatchBuffer B T) qs w).st.packets = qs.drop (qs.length / B * B) := by
    intro qs
    have h := addAll_snapshots env B (NewBatchBuffer B T) qs w hB rfl hB
    simpa [NewBatchBuffer] using h
  have hcount : ∀ qs : List Ptr, (fullChunks B qs).length = qs.length / B := by
    intro qs; simp [fullChunks]
  refine ⟨(main ps).1, ?_, ?_, (main ps).2, ?_⟩
  · rw [(main ps).1, hcount]
  · intro k hk
    rw [(main (ps.take k)).1, hcount, List.length_take, Nat.min_eq_left hk]
  · rw [(main ps).2, List.length_drop]
    have := Nat.div_add_mod ps.length B
    have h2 : ps.length / B * B = B * (ps.length / B) := Nat.mul_comm _ _
    omega

/-- C6 at the spec's example: 150 admits to a fresh batcher of size 100 flush
once, and 50 records stay buffered for the timer. -/
theorem count_triggered_flushes_witness :
    (snapshots (addAll exampleEnv (NewBatchBuffer (100 : Nat) second) (List.range 150)
      (exampleWorld [1, 2, 3] 3 true)).events).length = 1 ∧
    (addAll exampleEnv (NewBatchBuffer (100 : Nat) second) (List.range 150)
      (exampleWorld [1, 2, 3] 3 true)).st.packets.length = 50 := by
  have h := count_triggered_flushes exampleEnv 100 second (List.range 150)
    (exampleWorld [1, 2, 3] 3 true) (by decide)
  refine ⟨?_, ?_⟩
  · rw [h.2.1, List.length_range]
  · rw [h.2.2.2.2, List.length_range]

/-! ## No record is discarded on admission -/

theorem settled_append_left (xs ys : List Event) (d : Bytes) (h : settled ys d) :
    settled (xs ++ ys) d := by
  unfold settled at h ⊢
  rw [attempts_append]
  rcases h with h | h
  · exact Or.inl (List.mem_append_right _ h)
  · right
    rw [List.count_append]
    omega

theorem settled_append_right (xs ys : List Event) (d : Bytes) (h : settled xs d) :
    settled (xs ++ ys) d := by
  unfold settled at h ⊢
  rw [attempts_append]
  rcases h with h | h
  · exact Or.inl (List.mem_append_left _ h)
  · right
    rw [List.count_append]
    omega

theorem settled_cons (e : Event) (es : List Event) (d : Bytes) (h : settled es d) :
    settled (e :: es) d :=
  settled_append_left [e] es d h

/-- A call of `writeWithRetries` ends on a successful write of its message or
after three failed writes of it. -/
theorem writeWithRetries_settled (data : Bytes) (w : World) :
    settled (writeWithRetries data w).2 data := by
  unfold settled writeWithRetries
  rw [writeLoop_three_attempts]
  cases h0 : w.networkWriter 0 data <;> cases h1 : w.networkWriter 1 data <;>
    cases h2 : w.networkWriter 2 data <;> simp

theorem publishGroups_settled (env : Env) (groups : List (List Ptr)) (w : World)
    (g : List Ptr) (d : Bytes) (h : (g, d) ∈ handedOff (publishGroups env groups w).2) :
    settled (publishGroups env groups w).2 d := by
  induction groups generalizing w with
  | nil => simp [publishGroups, handedOff] at h
  | cons g0 rest ih =>
    simp only [publishGroups] at h ⊢
    split at h
    · next hnone =>
      have h2 : (g, d) ∈ handedOff (publishGroups env rest w).2 := by
        simpa [handedOff, Event.handOff?] using h
      exact settled_cons _ _ _ (ih w h2)
    · next d0 hd0 =>
      have h1 := writeWithRetries_handedOff d0 w
      simp only [handedOff] at h1 h
      simp only [List.filterMap_cons, Event.handOff?, List.filterMap_append, h1,
        List.nil_append, List.mem_cons, Prod.mk.injEq] at h
      apply settled_cons
      rcases h with ⟨_, hd⟩ | h
      · subst hd
        exact settled_append_right _ _ _ (writeWithRetries_settled _ w)
      · exact settled_append_left _ _ _ (ih (writeWithRetries d0 w).1 (by simpa [handedOff] using h))

/-- The loop over the split groups logs a serialisation failure or hands over
every group, in order. -/
theorem publishGroups_error_or_all (env : Env) (groups : List (List Ptr)) (w : World) :
    Event.logError "Failed to marshal packet group" ∈ (publishGroups env groups w).2 ∨
    (handedOff (publishGroups env groups w).2).map Prod.fst = groups := by
  induction groups generalizing w with
  | nil => exact Or.inr rfl
  | cons g0 rest ih =>
    simp only [publishGroups]
    split
    · exact Or.inl (List.mem_cons_self _ _)
    · next d0 _ =>
      rcases ih (writeWithRetries d0 w).1 with h | h
      · exact Or.inl (List.mem_cons_of_mem _ (List.mem_append_right _ h))
      · right
        have h1 := writeWithRetries_handedOff d0 w
        simp only [handedOff] at h1 h ⊢
        simp [Event.handOff?, h1, h]

theorem publishBatch_settled (env : Env) (batch : List Ptr) (w : World)
    (g : List Ptr) (d : Bytes) (h : (g, d) ∈ handedOff (publishBatch env batch w).2) :
    settled (publishBatch env batch w).2 d := by
  unfold publishBatch at h ⊢
  split at h
  · simp [handedOff, Event.handOff?] at h
  · next data hdata =>
    split at h
    · next hgt =>
      split at h
      · simp [handedOff, Event.handOff?] at h
      · next groups hgroups =>
        rw [if_pos hgt]
        have h2 : (g, d) ∈ handedOff (publishGroups env groups w).2 := by
          simpa [handedOff, Event.handOff?] using h
        exact settled_cons _ _ _ (publishGroups_settled env groups w g d h2)
    · next hle =>
      have h1 := writeWithRetries_handedOff data w
      simp only [handedOff] at h1 h
      simp only [List.filterMap_cons, Event.handOff?, h1, List.mem_singleton,
        Prod.mk.injEq] at h
      obtain ⟨_, hd⟩ := h
      subst hd
      rw [if_neg hle]
      exact settled_cons _ _ _ (writeWithRetries_settled _ w)

/-- The publish part of a flush logs a serialisation failure or hands over groups
that, concatenated in order, are the snapshot. -/
theorem publishBatch_error_or_all (env : Env) (batch : List Ptr) (w : World) :
    serialisationErrorLogged (publishBatch env batch w).2 ∨
    ((handedOff (publishBatch env batch w).2).map Prod.fst).flatten = batch := by
  unfold publishBatch
  split
  · exact Or.inl (Or.inl (List.mem_singleton.mpr rfl))
  · next data hdata =>
    split
    · split
      · exact Or.inl (Or.inr (Or.inl (List.mem_cons_of_mem _ (List.mem_singleton.mpr rfl))))
      · next groups hgroups =>
        rcases publishGroups_error_or_all env groups w with h | h
        · exact Or.inl (Or.inr (Or.inr (List.mem_cons_of_mem _ h)))
        · right
          have h2 := splitLoop_flatten _ _ _ _ _ _ hgroups
          simp only [List.flatten_nil, List.nil_append] at h2
          have h3 : handedOff (Event.splitCall :: (publishGroups env groups w).2) =
              handedOff (publishGroups env groups w).2 := by
            simp [handedOff, Event.handOff?]
          simp only
          rw [h3, h, h2]
    · right
      have h1 := writeWithRetries_handedOff data w
      simp only [handedOff] at h1 ⊢
      simp [Event.handOff?, h1]

theorem Add_settled (env : Env) (b : BatchBuffer) (p : Ptr) (w : World)
    (g : List Ptr) (d : Bytes) (h : (g, d) ∈ handedOff (b.Add env p w).events) :
    settled (b.Add env p w).events d := by
  by_cases hge : ((b.packets ++ [p]).length : Int) ≥ b.batchSize
  · rw [Add_flush env b p w hge] at h ⊢
    simp only at h ⊢
    have h2 : (g, d) ∈ handedOff (publishBatch env (b.packets ++ [p]) (w.trimAt p)).2 := by
      simp only [handedOff] at h ⊢
      by_cases ht : b.timer.isSome <;> simpa [ht, Event.handOff?] using h
    exact settled_append_right _ _ _ (settled_cons _ _ _
      (settled_append_left _ _ _ (publishBatch_settled env _ _ g d h2)))
  · cases ht : b.timer with
    | none =>
      rw [Add_arm env b p w (by omega) ht] at h
      simp [handedOff, Event.handOff?] at h
    | some t =>
      rw [Add_pending env b p w (by omega) (by rw [ht]; rfl)] at h
      simp [handedOff] at h

/-- C4, as stated, fails: when `json.Marshal` returns an error for the snapshot,
the admit that fills a batcher of size one copies the record out of the buffer,
logs the failure and returns; the record is neither buffered nor handed to
`writeWithRetries`, and no publish attempt is made, let alone three failed ones. -/
theorem add_record_lost_without_publish_attempt :
    ((NewBatchBuffer 1 second).Add failingEnv 0 (exampleWorld [1, 2, 3] 3 true)).events =
      [Event.copyOut [0], Event.logError "Failed to marshal packet batch",
        Event.observe 1] ∧
    ((NewBatchBuffer 1 second).Add failingEnv 0 (exampleWorld [1, 2, 3] 3 true)).st.packets
      = [] ∧
    attempts Topic.network
      ((NewBatchBuffer 1 second).Add failingEnv 0 (exampleWorld [1, 2, 3] 3 true)).events
      = [] := by
  have h : ((NewBatchBuffer 1 second).Add failingEnv 0 (exampleWorld [1, 2, 3] 3 true)).events =
      [Event.copyOut [0], Event.logError "Failed to marshal packet batch",
        Event.observe 1] := by
    rw [Add_flush _ _ _ _ (by simp [NewBatchBuffer])]
    rfl
  refine ⟨h, ?_, ?_⟩
  · rw [Add_flush _ _ _ _ (by simp [NewBatchBuffer])]
  · rw [h]; rfl

/-- C4, amended.  `Add` never discards a record on admission: after `Add` either
the buffer is the old buffer with the handle appended and no snapshot was taken,
or the append brought the buffer to `batchSize` and the snapshot copied out is the
old buffer with the handle appended.  In the second case a serialisation failure
is logged or the groups handed to `writeWithRetries`, concatenated, are that
snapshot; and every message handed over is written successfully or its write has
failed three times.  So a record is lost only through a logged serialisation
failure or three failed publish attempts. -/
theorem add_never_discards (env : Env) (b : BatchBuffer) (p : Ptr) (w : World) :
    (((b.Add env p w).st.packets = b.packets ++ [p] ∧
        snapshots (b.Add env p w).events = []) ∨
      (((b.packets ++ [p]).length : Int) ≥ b.batchSize ∧
        snapshots (b.Add env p w).events = [b.packets ++ [p]] ∧
        (serialisationErrorLogged (b.Add env p w).events ∨
          ((handedOff (b.Add env p w).events).map Prod.fst).flatten = b.packets ++ [p]))) ∧
    (∀ g d, (g, d) ∈ handedOff (b.Add env p w).events → settled (b.Add env p w).events d) := by
  refine ⟨?_, fun g d h => Add_settled env b p w g d h⟩
  obtain ⟨hflush, hkeep⟩ := Add_snapshots env b p w
  by_cases hge : ((b.packets ++ [p]).length : Int) ≥ b.batchSize
  · right
    refine ⟨hge, (hflush hge).1, ?_⟩
    rw [Add_flush env b p w hge]
    simp only
    rcases publishBatch_error_or_all env (b.packets ++ [p]) (w.trimAt p) with herr | hall
    · left
      have hsub : ∀ e, e ∈ (publishBatch env (b.packets ++ [p]) (w.trimAt p)).2 →
          e ∈ Event.copyOut (b.packets ++ [p]) ::
            ((if b.timer.isSome then [Event.timerStop] else []) ++
              (publishBatch env (b.packets ++ [p]) (w.trimAt p)).2) ++
            [Event.observe b.batchSize] := by
        intro e he
        exact List.mem_append_left _ (List.mem_cons_of_mem _ (List.mem_append_right _ he))
      rcases herr with h1 | h1 | h1
      · exact Or.inl (hsub _ h1)
      · exact Or.inr (Or.inl (hsub _ h1))
      · exact Or.inr (Or.inr (hsub _ h1))
    · right
      simp only [handedOff] at hall ⊢
      by_cases ht : b.timer.isSome <;> simp [ht, Event.handOff?, hall]
  · left
    exact ⟨(hkeep (by omega)).2, (hkeep (by omega)).1⟩

/-- C4, amended, at an example: with a writer that rejects every message, the
admit that fills a batcher of size one hands the record over, and its message is
written three times without success. -/
theorem add_never_discards_witness :
    ([0], [91, 1, 2, 3, 93]) ∈ handedOff
      ((NewBatchBuffer 1 second).Add exampleEnv 0 (exampleWorld [1, 2, 3] 3 false)).events ∧
    settled ((NewBatchBuffer 1 second).Add exampleEnv 0
      (exampleWorld [1, 2, 3] 3 false)).events [91, 1, 2, 3, 93] := by
  have hmem : ([0], [91, 1, 2, 3, 93]) ∈ handedOff
      ((NewBatchBuffer 1 second).Add exampleEnv 0 (exampleWorld [1, 2, 3] 3 false)).events := by
    rw [Add_flush _ _ _ _ (by simp [NewBatchBuffer])]
    simp [handedOff, Event.handOff?, publishBatch, exampleEnv, exampleMarshal, World.trimAt,
      trimPayload, exampleWorld, NewBatchBuffer, maxMessageSize, maxPayloadSize,
      writeWithRetries, writeLoop, World.writeNetwork]
  exact ⟨hmem, (add_never_discards exampleEnv (NewBatchBuffer 1 second) 0
    (exampleWorld [1, 2, 3] 3 false)).2 _ _ hmem⟩

/-! ## TCP flag string -/

/-- C13. For each of the 64 combinations of FIN, SYN, RST, PSH, ACK, URG the
string returned by `tcpFlags` consists of exactly the letters of the flags that
are set, each once, in the order F S R P A U and with nothing between them (the
empty string when none is set); it is a subsequence of `"FSRPAU"`, and its length
is the number of flags set. -/
theorem tcpFlags_set_letters (tcp : TCP) :
    (tcpFlags tcp).data = setFlagLetters tcp ∧
    List.Sublist (tcpFlags tcp).data "FSRPAU".data ∧
    (tcpFlags tcp).length =
      [tcp.FIN, tcp.SYN, tcp.RST, tcp.PSH, tcp.ACK, tcp.URG].count true := by
  have hdata : (tcpFlags tcp).data = setFlagLetters tcp := by
    obtain ⟨sp, dp, fin, syn, rst, psh, ack, urg, sq, ak, wd⟩ := tcp
    cases fin <;> cases syn <;> cases rst <;> cases psh <;> cases ack <;> cases urg <;> rfl
  refine ⟨hdata, ?_, ?_⟩
  · rw [hdata]
    exact (List.filter_sublist _).map _
  · obtain ⟨sp, dp, fin, syn, rst, psh, ack, urg, sq, ak, wd⟩ := tcp
    cases fin <;> cases syn <;> cases rst <;> cases psh <;> cases ack <;> cases urg <;> rfl

/-! ## Each dissection block writes its own fields only -/

theorem dissectDot1Q_eq (packet : Packet) (m : PacketData) :
    dissectDot1Q packet m = { m with VLANID := (dissectDot1Q packet m).VLANID } := by
  unfold dissectDot1Q
  cases packet.dot1q <;> rfl

theorem dissectNetwork_eq (lib : PacketLib) (packet : Packet) (m : PacketData) :
    dissectNetwork lib packet m =
      { m with SrcIP := (dissectNetwork lib packet m).SrcIP,
               DstIP := (dissectNetwork lib packet m).DstIP,
               IPVrs := (dissectNetwork lib packet m).IPVrs,
               TTL := (dissectNetwork lib packet m).TTL,
               Protocol := (dissectNetwork lib packet m).Protocol,
               FragID := (dissectNetwork lib packet m).FragID,
               FragOffset := (dissectNetwork lib packet m).FragOffset,
               DSCP := (dissectNetwork lib packet m).DSCP } := by
  unfold dissectNetwork
  cases packet.ipv4 <;> cases packet.ipv6 <;> cases packet.ipv6Fragment <;> rfl

theorem dissectTransport_eq (packet : Packet) (m : PacketData) :
    dissectTransport packet m =
      { m with SrcPort := (dissectTransport packet m).SrcPort,
               DstPort := (dissectTransport packet m).DstPort,
               TCPFlags := (dissectTransport packet m).TCPFlags,
               SeqNum := (dissectTransport packet m).SeqNum,
               AckNum := (dissectTransport packet m).AckNum,
               WindowSize := (dissectTransport packet m).WindowSize } := by
  unfold dissectTransport
  cases packet.tcp <;> cases packet.udp <;> rfl

theorem dissectICMP_eq (lib : PacketLib) (packet : Packet) (m : PacketData) :
    dissectICMP lib packet m =
      { m with ICMPType := (dissectICMP lib packet m).ICMPType,
               ICMPCode := (dissectICMP lib packet m).ICMPCode } := by
  unfold dissectICMP
  cases packet.icmpv4 <;> rfl

theorem dissectDNS_eq (lib : PacketLib) (packet : Packet) (m : PacketData) :
    dissectDNS lib packet m =
      { m with DNSID := (dissectDNS lib packet m).DNSID,
               DNSOpCode := (dissectDNS lib packet m).DNSOpCode,
               DNSQuery := (dissectDNS lib packet m).DNSQuery } := by
  unfold dissectDNS
  cases packet.dns <;> rfl

theorem dissectPayload_eq (packet : Packet) (m : PacketData) :
    dissectPayload packet m =
      { m with Payload := (dissectPayload packet m).Payload,
               PayloadSize := (dissectPayload packet m).PayloadSize } := by
  unfold dissectPayload
  cases packet.application <;> rfl

theorem dissectEthernet_eq (lib : PacketLib) (packet : Packet) (m : PacketData) :
    dissectEthernet lib packet m =
      { m with SrcMAC := (dissectEthernet lib packet m).SrcMAC,
               DstMAC := (dissectEthernet lib packet m).DstMAC,
               EtherType := (dissectEthernet lib packet m).EtherType,
               IsMultiCast := (dissectEthernet lib packet m).IsMultiCast } := by
  unfold dissectEthernet
  cases packet.ethernet <;> rfl

/-- The payload block stores at most `maxPayloadSize` bytes when the record
held no more before it. -/
theorem dissectPayload_length (packet : Packet) (m : PacketData)
    (hm : m.Payload.length ≤ maxPayloadSize) :
    (dissectPayload packet m).Payload.length ≤ maxPayloadSize := by
  unfold dissectPayload
  cases packet.application with
  | none => exact hm
  | some appPayload =>
    simp only
    by_cases h : appPayload.length > maxPayloadSize
    · rw [if_pos h, List.length_take]
      exact Nat.min_le_left _ _
    · rw [if_neg h]
      exact Nat.le_of_not_gt h

/-- The payload of the record built by `dissectPacket` is the payload left by
its last block, run on a record with an empty payload. -/
theorem dissectRecord_payload_length (lib : PacketLib) (deviceName : String)
    (packet : Packet) :
    (dissectRecord lib deviceName packet).Payload.length ≤ maxPayloadSize := by
  unfold dissectRecord
  apply dissectPayload_length
  rw [congrArg PacketData.Payload (dissectDNS_eq lib packet _)]
  show (dissectICMP lib packet _).Payload.length ≤ _
  rw [congrArg PacketData.Payload (dissectICMP_eq lib packet _)]
  show (dissectTransport packet _).Payload.length ≤ _
  rw [congrArg PacketData.Payload (dissectTransport_eq packet _)]
  show (dissectNetwork lib packet _).Payload.length ≤ _
  rw [congrArg PacketData.Payload (dissectNetwork_eq lib packet _)]
  show (dissectDot1Q packet _).Payload.length ≤ _
  rw [congrArg PacketData.Payload (dissectDot1Q_eq packet _)]
  show (dissectEthernet lib packet _).Payload.length ≤ _
  rw [congrArg PacketData.Payload (dissectEthernet_eq lib packet _)]
  exact Nat.zero_le _

/-- The record that `dissectPacket` leaves at `addr` is the record it built:
the trimming in `Add` finds nothing to trim. -/
theorem dissectPacket_stored (lib : PacketLib) (env : Env) (b : BatchBuffer)
    (deviceName : String) (packet : Packet) (addr : Ptr) (w : World) :
    (dissectPacket lib env b deviceName packet addr w).world.heap addr =
      dissectRecord lib deviceName packet := by
  unfold dissectPacket
  simp only
  rw [Add_heap]
  simp only [Function.update_same]
  unfold trimPayload
  rw [if_neg (Nat.not_lt.mpr (dissectRecord_payload_length lib deviceName packet))]

/-- A reading of the record that the last three blocks (ICMP, DNS, payload)
leave alone has, on the built record, the value it has after the transport
block. -/
theorem dissectRecord_after_transport {α : Type} (lib : PacketLib) (deviceName : String)
    (packet : Packet) (f : PacketData → α)
    (hI : ∀ m, f (dissectICMP lib packet m) = f m)
    (hD : ∀ m, f (dissectDNS lib packet m) = f m)
    (hP : ∀ m, f (dissectPayload packet m) = f m) :
    f (dissectRecord lib deviceName packet) =
      f (dissectTransport packet (dissectNetwork lib packet (dissectDot1Q packet
        (dissectEthernet lib packet
          { Timestamp := packet.Timestamp, DeviceName := deviceName })))) := by
  unfold dissectRecord
  simp only
  rw [hP, hD, hI]

/-- A reading of the record that the blocks after the network block leave alone
has, on the built record, the value it has after the network block. -/
theorem dissectRecord_after_network {α : Type} (lib : PacketLib) (deviceName : String)
    (packet : Packet) (f : PacketData → α)
    (hT : ∀ m, f (dissectTransport packet m) = f m)
    (hI : ∀ m, f (dissectICMP lib packet m) = f m)
    (hD : ∀ m, f (dissectDNS lib packet m) = f m)
    (hP : ∀ m, f (dissectPayload packet m) = f m) :
    f (dissectRecord lib deviceName packet) =
      f (dissectNetwork lib packet (dissectDot1Q packet
        (dissectEthernet lib packet
          { Timestamp := packet.Timestamp, DeviceName := deviceName }))) := by
  rw [dissectRecord_after_transport lib deviceName packet f hI hD hP, hT]

/-- A reading of the record that the blocks after the Ethernet block leave
alone has, on the built record, the value it has after the Ethernet block. -/
theorem dissectRecord_after_ethernet {α : Type} (lib : PacketLib) (deviceName : String)
    (packet : Packet) (f : PacketData → α)
    (hQ : ∀ m, f (dissectDot1Q packet m) = f m)
    (hN : ∀ m, f (dissectNetwork lib packet m) = f m)
    (hT : ∀ m, f (dissectTransport packet m) = f m)
    (hI : ∀ m, f (dissectICMP lib packet m) = f m)
    (hD : ∀ m, f (dissectDNS lib packet m) = f m)
    (hP : ∀ m, f (dissectPayload packet m) = f m) :
    f (dissectRecord lib deviceName packet) =
      f (dissectEthernet lib packet
          { Timestamp := packet.Timestamp, DeviceName := deviceName }) := by
  rw [dissectRecord_after_network lib deviceName packet f hT hI hD hP, hN, hQ]

/-! ## Payload extraction -/

/-- C14. For a frame whose application layer has the `n`-byte payload `payload`,
the record that `dissectPacket` stores has as payload the first `min n 1024`
bytes of `payload`, unchanged, and as `PayloadSize` the truncated length
`min n 1024`. -/
theorem dissectPacket_payload (lib : PacketLib) (env : Env) (b : BatchBuffer)
    (deviceName : String) (packet : Packet) (addr : Ptr) (w : World) (payload : Bytes)
    (happ : packet.application = some payload) :
    ((dissectPacket lib env b deviceName packet addr w).world.heap addr).Payload =
      payload.take (min payload.length maxPayloadSize) ∧
    ((dissectPacket lib env b deviceName packet addr w).world.heap addr).Payload.length =
      min payload.length maxPayloadSize ∧
    ((dissectPacket lib env b deviceName packet addr w).world.heap addr).PayloadSize =
      ((min payload.length maxPayloadSize : Nat) : Int) := by
  rw [dissectPacket_stored]
  have hrec : ∀ m, dissectPayload packet m =
      { m with Payload := payload.take (min payload.length maxPayloadSize),
               PayloadSize := ((min payload.length maxPayloadSize : Nat) : Int) } := by
    intro m
    unfold dissectPayload
    rw [happ]
    simp only
    by_cases h : payload.length > maxPayloadSize
    · rw [if_pos h, Nat.min_eq_right (Nat.le_of_lt h), List.length_take,
        Nat.min_eq_left (Nat.le_of_lt h)]
    · have hle : payload.length ≤ maxPayloadSize := Nat.le_of_not_gt h
      rw [if_neg h, Nat.min_eq_left hle, List.take_of_length_le (Nat.le_refl _)]
  unfold dissectRecord
  simp only
  rw [hrec]
  refine ⟨rfl, ?_, rfl⟩
  show (payload.take (min payload.length maxPayloadSize)).length = _
  rw [List.length_take, Nat.min_eq_left (Nat.min_le_left _ _)]

/-- C14 at an example: a frame with a 2000-byte application payload is stored
with `PayloadSize = 1024`, not 2000. -/
theorem dissectPacket_payload_witness :
    ((dissectPacket exampleLib exampleEnv (NewBatchBuffer 100 second) "eth0"
      { Timestamp := 5, application := some (zeros 2000) } 0
      (exampleWorld [] 0 true)).world.heap 0).PayloadSize = 1024 := by
  have h := (dissectPacket_payload exampleLib exampleEnv (NewBatchBuffer 100 second) "eth0"
    { Timestamp := 5, application := some (zeros 2000) } 0 (exampleWorld [] 0 true)
    (zeros 2000) rfl).2.2
  rw [h, zeros_length]
  decide

/-! ## Transport precedence -/

/-- C15. If the frame has a TCP layer, the record that `dissectPacket` stores
has that layer's ports, flag string, sequence and acknowledgement numbers and
window, whether or not a UDP layer is present as well; the ports of the UDP layer
are recorded only when there is no TCP layer. -/
theorem dissectPacket_transport (lib : PacketLib) (env : Env) (b : BatchBuffer)
    (deviceName : String) (packet : Packet) (addr : Ptr) (w : World) :
    (∀ tcp, packet.tcp = some tcp →
      ((dissectPacket lib env b deviceName packet addr w).world.heap addr).SrcPort
        = tcp.SrcPort ∧
      ((dissectPacket lib env b deviceName packet addr w).world.heap addr).DstPort
        = tcp.DstPort ∧
      ((dissectPacket lib env b deviceName packet addr w).world.heap addr).TCPFlags
        = tcpFlags tcp ∧
      ((dissectPacket lib env b deviceName packet addr w).world.heap addr).SeqNum
        = tcp.Seq ∧
      ((dissectPacket lib env b deviceName packet addr w).world.heap addr).AckNum
        = tcp.Ack ∧
      ((dissectPacket lib env b deviceName packet addr w).world.heap addr).WindowSize
        = tcp.Window) ∧
    (∀ udp, packet.tcp = none → packet.udp = some udp →
      ((dissectPacket lib env b deviceName packet addr w).world.heap addr).SrcPort
        = udp.SrcPort ∧
      ((dissectPacket lib env b deviceName packet addr w).world.heap addr).DstPort
        = udp.DstPort) := by
  rw [dissectPacket_stored]
  have key : ∀ {α : Type} (f : PacketData → α)
      (_ : ∀ (m : PacketData) (a b : Nat), f { m with ICMPType := a, ICMPCode := b } = f m)
      (_ : ∀ (m : PacketData) (a : Nat) (c : String) (q : List String),
        f { m with DNSID := a, DNSOpCode := c, DNSQuery := q } = f m)
      (_ : ∀ (m : PacketData) (x : Bytes) (n : Int),
        f { m with Payload := x, PayloadSize := n } = f m),
      f (dissectRecord lib deviceName packet) =
        f (dissectTransport packet (dissectNetwork lib packet (dissectDot1Q packet
          (dissectEthernet lib packet
            { Timestamp := packet.Timestamp, DeviceName := deviceName })))) := by
    intro α f h1 h2 h3
    apply dissectRecord_after_transport
    · intro m; rw [dissectICMP_eq]; exact h1 _ _ _
    · intro m; rw [dissectDNS_eq]; exact h2 _ _ _ _
    · intro m; rw [dissectPayload_eq]; exact h3 _ _ _
  constructor
  · intro tcp htcp
    have ht : ∀ m, dissectTransport packet m =
        { m with SrcPort := tcp.SrcPort, DstPort := tcp.DstPort, TCPFlags := tcpFlags tcp,
                 SeqNum := tcp.Seq, AckNum := tcp.Ack, WindowSize := tcp.Window } := by
      intro m; unfold dissectTransport; rw [htcp]
    refine ⟨?_, ?_, ?_, ?_, ?_, ?_⟩
    · rw [key PacketData.SrcPort (fun _ _ _ => rfl) (fun _ _ _ _ => rfl) (fun _ _ _ => rfl), ht]
    · rw [key PacketData.DstPort (fun _ _ _ => rfl) (fun _ _ _ _ => rfl) (fun _ _ _ => rfl), ht]
    · rw [key PacketData.TCPFlags (fun _ _ _ => rfl) (fun _ _ _ _ => rfl) (fun _ _ _ => rfl), ht]
    · rw [key PacketData.SeqNum (fun _ _ _ => rfl) (fun _ _ _ _ => rfl) (fun _ _ _ => rfl), ht]
    · rw [key PacketData.AckNum (fun _ _ _ => rfl) (fun _ _ _ _ => rfl) (fun _ _ _ => rfl), ht]
    · rw [key PacketData.WindowSize (fun _ _ _ => rfl) (fun _ _ _ _ => rfl) (fun _ _ _ => rfl),
        ht]
  · intro udp htcp hudp
    have ht : ∀ m, dissectTransport packet m =
        { m with SrcPort := udp.SrcPort, DstPort := udp.DstPort } := by
      intro m; unfold dissectTransport; rw [htcp, hudp]
    refine ⟨?_, ?_⟩
    · rw [key PacketData.SrcPort (fun _ _ _ => rfl) (fun _ _ _ _ => rfl) (fun _ _ _ => rfl), ht]
    · rw [key PacketData.DstPort (fun _ _ _ => rfl) (fun _ _ _ _ => rfl) (fun _ _ _ => rfl), ht]

/-- C15 at an example: a frame with a TCP layer on ports 443 and 50000 and a
UDP layer on ports 53 and 53 is recorded with the TCP ports. -/
theorem dissectPacket_transport_witness :
    ((dissectPacket exampleLib exampleEnv (NewBatchBuffer 100 second) "eth0"
      { Timestamp := 5,
        tcp := some { SrcPort := 443, DstPort := 50000, FIN := false, SYN := true,
                      RST := false, PSH := false, ACK := true, URG := false,
                      Seq := 7, Ack := 8, Window := 9 },
        udp := some { SrcPort := 53, DstPort := 53 } } 0
      (exampleWorld [] 0 true)).world.heap 0).SrcPort = 443 :=
  ((dissectPacket_transport exampleLib exampleEnv (NewBatchBuffer 100 second) "eth0"
      { Timestamp := 5,
        tcp := some { SrcPort := 443, DstPort := 50000, FIN := false, SYN := true,
                      RST := false, PSH := false, ACK := true, URG := false,
                      Seq := 7, Ack := 8, Window := 9 },
        udp := some { SrcPort := 53, DstPort := 53 } } 0
      (exampleWorld [] 0 true)).1 _ rfl).1

/-! ## Network layer -/

/-- A reading of the record that does not depend on the fields written by the
transport, ICMP, DNS and payload blocks has, on the built record, the value it has
after the network block. -/
theorem dissectRecord_network_reading {α : Type} (lib : PacketLib) (deviceName : String)
    (packet : Packet) (f : PacketData → α)
    (h0 : ∀ (m : PacketData) (a b : Nat) (c : String) (d e g : Nat),
      f { m with SrcPort := a, DstPort := b, TCPFlags := c, SeqNum := d, AckNum := e,
                 WindowSize := g } = f m)
    (h1 : ∀ (m : PacketData) (a b : Nat), f { m with ICMPType := a, ICMPCode := b } = f m)
    (h2 : ∀ (m : PacketData) (a : Nat) (c : String) (q : List String),
      f { m with DNSID := a, DNSOpCode := c, DNSQuery := q } = f m)
    (h3 : ∀ (m : PacketData) (x : Bytes) (n : Int),
      f { m with Payload := x, PayloadSize := n } = f m) :
    f (dissectRecord lib deviceName packet) =
      f (dissectNetwork lib packet (dissectDot1Q packet (dissectEthernet lib packet
        { Timestamp := packet.Timestamp, DeviceName := deviceName }))) := by
  apply dissectRecord_after_network
  · intro m; rw [dissectTransport_eq]; exact h0 _ _ _ _ _ _ _
  · intro m; rw [dissectICMP_eq]; exact h1 _ _ _
  · intro m; rw [dissectDNS_eq]; exact h2 _ _ _ _
  · intro m; rw [dissectPayload_eq]; exact h3 _ _ _

/-- The record before the network block has its network fields at zero. -/
theorem before_network_zero (lib : PacketLib) (deviceName : String) (packet : Packet) :
    dissectDot1Q packet (dissectEthernet lib packet
        { Timestamp := packet.Timestamp, DeviceName := deviceName }) =
      { dissectDot1Q packet (dissectEthernet lib packet
          { Timestamp := packet.Timestamp, DeviceName := deviceName }) with
        SrcIP := "", DstIP := "", IPVrs := "", TTL := 0, Protocol := "", FragID := 0,
        FragOffset := 0, DSCP := 0 } := by
  rw [dissectDot1Q_eq, dissectEthernet_eq]

/-- C16. The network fields of the record that `dissectPacket` stores come from
one IP layer.  With an IPv4 layer they are that layer's addresses, TTL, protocol,
id and fragment offset with `IPVrs = "IPv4"`, whether or not an IPv6 layer or an
IPv6 fragment header is present as well.  With an IPv6 layer and no IPv4 layer
they are that layer's addresses, hop limit and next header with `IPVrs = "IPv6"`,
and the id and offset of the IPv6 fragment header when there is one (zero
otherwise).  With neither layer they are all zero, fragment header or not. -/
theorem dissectPacket_network (lib : PacketLib) (env : Env) (b : BatchBuffer)
    (deviceName : String) (packet : Packet) (addr : Ptr) (w : World) :
    (∀ ip4, packet.ipv4 = some ip4 →
      networkReading ((dissectPacket lib env b deviceName packet addr w).world.heap addr) =
      (lib.ipString ip4.SrcIP, lib.ipString ip4.DstIP, "IPv4", ip4.TTL,
        lib.ipProtocolString ip4.Protocol, ip4.Id, ip4.FragOffset)) ∧
    (∀ ip6, packet.ipv4 = none → packet.ipv6 = some ip6 →
      addressReading ((dissectPacket lib env b deviceName packet addr w).world.heap addr) =
      (lib.ipString ip6.SrcIP, lib.ipString ip6.DstIP, "IPv6", ip6.HopLimit,
        lib.ipProtocolString ip6.NextHeader) ∧
      (∀ frag, packet.ipv6Fragment = some frag →
        ((dissectPacket lib env b deviceName packet addr w).world.heap addr).FragID =
          frag.Identification ∧
        ((dissectPacket lib env b deviceName packet addr w).world.heap addr).FragOffset =
          frag.FragmentOffset) ∧
      (packet.ipv6Fragment = none →
        ((dissectPacket lib env b deviceName packet addr w).world.heap addr).FragID = 0 ∧
        ((dissectPacket lib env b deviceName packet addr w).world.heap addr).FragOffset = 0)) ∧
    (packet.ipv4 = none → packet.ipv6 = none →
      networkReading ((dissectPacket lib env b deviceName packet addr w).world.heap addr) =
      ("", "", "", 0, "", 0, 0)) := by
  rw [dissectPacket_stored]
  have hzero := before_network_zero lib deviceName packet
  refine ⟨?_, ?_, ?_⟩
  · intro ip4 h4
    rw [dissectRecord_network_reading lib deviceName packet networkReading
      (fun _ _ _ _ _ _ _ => rfl) (fun _ _ _ => rfl) (fun _ _ _ _ => rfl) (fun _ _ _ => rfl)]
    unfold dissectNetwork
    rw [h4]
    rfl
  · intro ip6 h4 h6
    refine ⟨?_, ?_, ?_⟩
    · rw [dissectRecord_network_reading lib deviceName packet addressReading
        (fun _ _ _ _ _ _ _ => rfl) (fun _ _ _ => rfl) (fun _ _ _ _ => rfl) (fun _ _ _ => rfl)]
      unfold dissectNetwork
      rw [h4, h6]
      cases packet.ipv6Fragment <;> rfl
    · intro frag hf
      constructor
      · rw [dissectRecord_network_reading lib deviceName packet PacketData.FragID
          (fun _ _ _ _ _ _ _ => rfl) (fun _ _ _ => rfl) (fun _ _ _ _ => rfl) (fun _ _ _ => rfl)]
        unfold dissectNetwork
        rw [h4, h6, hf]
      · rw [dissectRecord_network_reading lib deviceName packet PacketData.FragOffset
          (fun _ _ _ _ _ _ _ => rfl) (fun _ _ _ => rfl) (fun _ _ _ _ => rfl) (fun _ _ _ => rfl)]
        unfold dissectNetwork
        rw [h4, h6, hf]
    · intro hf
      constructor
      · rw [dissectRecord_network_reading lib deviceName packet PacketData.FragID
          (fun _ _ _ _ _ _ _ => rfl) (fun _ _ _ => rfl) (fun _ _ _ _ => rfl) (fun _ _ _ => rfl)]
        unfold dissectNetwork
        rw [h4, h6, hf, hzero]
      · rw [dissectRecord_network_reading lib deviceName packet PacketData.FragOffset
          (fun _ _ _ _ _ _ _ => rfl) (fun _ _ _ => rfl) (fun _ _ _ _ => rfl) (fun _ _ _ => rfl)]
        unfold dissectNetwork
        rw [h4, h6, hf, hzero]
  · intro h4 h6
    rw [dissectRecord_network_reading lib deviceName packet networkReading
      (fun _ _ _ _ _ _ _ => rfl) (fun _ _ _ => rfl) (fun _ _ _ _ => rfl) (fun _ _ _ => rfl)]
    unfold dissectNetwork
    rw [h4, h6, hzero]
    rfl

/-- C16 at an example: a frame with both an IPv4 and an IPv6 layer and an IPv6
fragment header is recorded as IPv4 with the IPv4 id. -/
theorem dissectPacket_network_witness :
    networkReading
      ((dissectPacket exampleLib exampleEnv (NewBatchBuffer 100 second) "eth0"
        { Timestamp := 5,
          ipv4 := some { SrcIP := [10, 0, 0, 1], DstIP := [10, 0, 0, 2], TTL := 64,
                         Protocol := 6, Id := 77, FragOffset := 3, TOS := 184 },
          ipv6 := some { SrcIP := [], DstIP := [], HopLimit := 1, NextHeader := 44 },
          ipv6Fragment := some { Identification := 99, FragmentOffset := 8 } } 0
        (exampleWorld [] 0 true)).world.heap 0) =
    ("", "", "IPv4", 64, "", 77, 3) :=
  (dissectPacket_network exampleLib exampleEnv (NewBatchBuffer 100 second) "eth0"
    { Timestamp := 5,
      ipv4 := some { SrcIP := [10, 0, 0, 1], DstIP := [10, 0, 0, 2], TTL := 64,
                     Protocol := 6, Id := 77, FragOffset := 3, TOS := 184 },
      ipv6 := some { SrcIP := [], DstIP := [], HopLimit := 1, NextHeader := 44 },
      ipv6Fragment := some { Identification := 99, FragmentOffset := 8 } } 0
    (exampleWorld [] 0 true)).1 _ rfl

/-! ## Multicast bit -/

/-- C17. For a frame with an Ethernet layer the stored record's `IsMultiCast` is
`DstMAC[0] & 1 == 1`, so it is true exactly when the lowest bit of the first
destination-address byte is 1; for a frame without an Ethernet layer it is
false. -/
theorem dissectPacket_multicast (lib : PacketLib) (env : Env) (b : BatchBuffer)
    (deviceName : String) (packet : Packet) (addr : Ptr) (w : World) :
    (∀ eth, packet.ethernet = some eth →
      ((dissectPacket lib env b deviceName packet addr w).world.heap addr).IsMultiCast =
        (eth.DstMAC.b0 &&& 1 == 1) ∧
      (((dissectPacket lib env b deviceName packet addr w).world.heap addr).IsMultiCast = true ↔
        eth.DstMAC.b0 % 2 = 1)) ∧
    (packet.ethernet = none →
      ((dissectPacket lib env b deviceName packet addr w).world.heap addr).IsMultiCast =
        false) := by
  rw [dissectPacket_stored]
  have hread := dissectRecord_after_ethernet lib deviceName packet PacketData.IsMultiCast
    (fun m => by rw [dissectDot1Q_eq])
    (fun m => by rw [dissectNetwork_eq])
    (fun m => by rw [dissectTransport_eq])
    (fun m => by rw [dissectICMP_eq])
    (fun m => by rw [dissectDNS_eq])
    (fun m => by rw [dissectPayload_eq])
  rw [hread]
  constructor
  · intro eth he
    have hval : (dissectEthernet lib packet
        { Timestamp := packet.Timestamp, DeviceName := deviceName }).IsMultiCast =
        (eth.DstMAC.b0 &&& 1 == 1) := by
      unfold dissectEthernet
      rw [he]
    refine ⟨hval, ?_⟩
    rw [hval, Nat.and_one_is_mod]
    simp
  · intro he
    unfold dissectEthernet
    rw [he]

/-- C17 at an example: the broadcast destination `ff:ff:ff:ff:ff:ff` is recorded
as multicast. -/
theorem dissectPacket_multicast_witness :
    ((dissectPacket exampleLib exampleEnv (NewBatchBuffer 100 second) "eth0"
      { Timestamp := 5,
        ethernet := some { SrcMAC := ⟨2, 0, 0, 0, 0, 1⟩, DstMAC := ⟨255, 255, 255, 255, 255, 255⟩,
                           EthernetType := 2048 } } 0
      (exampleWorld [] 0 true)).world.heap 0).IsMultiCast = true :=
  (((dissectPacket_multicast exampleLib exampleEnv (NewBatchBuffer 100 second) "eth0"
      { Timestamp := 5,
        ethernet := some { SrcMAC := ⟨2, 0, 0, 0, 0, 1⟩, DstMAC := ⟨255, 255, 255, 255, 255, 255⟩,
                           EthernetType := 2048 } } 0
      (exampleWorld [] 0 true)).1 _ rfl).2).mpr (by decide)

/-! ## DSCP -/

/-- C18. For a frame with an IPv4 layer whose TOS byte is `t ≤ 255` the stored
record's `DSCP` is `t >> 2`, which is `t / 4`, the upper six bits of `t`, and is
at most 63; two such frames whose TOS bytes agree on the upper six bits are stored
with the same `DSCP`, so the two low bits have no influence. -/
theorem dissectPacket_dscp (lib : PacketLib) (env : Env) (b : BatchBuffer)
    (deviceName : String) (packet : Packet) (addr : Ptr) (w : World) (ip4 : IPv4)
    (h4 : packet.ipv4 = some ip4) (ht : ip4.TOS ≤ 255) :
    ((dissectPacket lib env b deviceName packet addr w).world.heap addr).DSCP =
      ip4.TOS >>> 2 ∧
    ((dissectPacket lib env b deviceName packet addr w).world.heap addr).DSCP =
      ip4.TOS / 4 ∧
    ip4.TOS = 4 * ((dissectPacket lib env b deviceName packet addr w).world.heap addr).DSCP
      + ip4.TOS % 4 ∧
    ((dissectPacket lib env b deviceName packet addr w).world.heap addr).DSCP ≤ 63 ∧
    (∀ (packet2 : Packet) (ip42 : IPv4), packet2.ipv4 = some ip42 →
      ip42.TOS / 4 = ip4.TOS / 4 →
      ((dissectPacket lib env b deviceName packet2 addr w).world.heap addr).DSCP =
        ((dissectPacket lib env b deviceName packet addr w).world.heap addr).DSCP) := by
  have hval : ∀ (pk : Packet) (ip : IPv4), pk.ipv4 = some ip →
      ((dissectPacket lib env b deviceName pk addr w).world.heap addr).DSCP = ip.TOS / 4 := by
    intro pk ip hip
    rw [dissectPacket_stored, dissectRecord_network_reading lib deviceName pk PacketData.DSCP
      (fun _ _ _ _ _ _ _ => rfl) (fun _ _ _ => rfl) (fun _ _ _ _ => rfl) (fun _ _ _ => rfl)]
    unfold dissectNetwork
    rw [hip]
    show ip.TOS >>> 2 = ip.TOS / 4
    rw [Nat.shiftRight_eq_div_pow]
  have hshift : ip4.TOS >>> 2 = ip4.TOS / 4 := by rw [Nat.shiftRight_eq_div_pow]
  rw [hval packet ip4 h4]
  refine ⟨hshift.symm, rfl, ?_, ?_, ?_⟩
  · omega
  · omega
  · intro packet2 ip42 h42 hsame
    rw [hval packet2 ip42 h42, hsame]

/-- C18 at an example: TOS `0xb8` (expedited forwarding) and TOS `0xbb`, which
differs from it in the two low bits only, are both recorded with DSCP 46. -/
theorem dissectPacket_dscp_witness :
    ((dissectPacket exampleLib exampleEnv (NewBatchBuffer 100 second) "eth0"
      { Timestamp := 5,
        ipv4 := some { SrcIP := [10, 0, 0, 1], DstIP := [10, 0, 0, 2], TTL := 64,
                       Protocol := 6, Id := 77, FragOffset := 0, TOS := 184 } } 0
      (exampleWorld [] 0 true)).world.heap 0).DSCP = 46 ∧
    ((dissectPacket exampleLib exampleEnv (NewBatchBuffer 100 second) "eth0"
      { Timestamp := 5,
        ipv4 := some { SrcIP := [10, 0, 0, 1], DstIP := [10, 0, 0, 2], TTL := 64,
                       Protocol := 6, Id := 77, FragOffset := 0, TOS := 187 } } 0
      (exampleWorld [] 0 true)).world.heap 0).DSCP = 46 := by
  have h := dissectPacket_dscp exampleLib exampleEnv (NewBatchBuffer 100 second) "eth0"
    { Timestamp := 5,
      ipv4 := some { SrcIP := [10, 0, 0, 1], DstIP := [10, 0, 0, 2], TTL := 64,
                     Protocol := 6, Id := 77, FragOffset := 0, TOS := 184 } } 0
    (exampleWorld [] 0 true) _ rfl (by decide)
  have h1 := h.2.1
  have h2 := h.2.2.2.2
    { Timestamp := 5,
      ipv4 := some { SrcIP := [10, 0, 0, 1], DstIP := [10, 0, 0, 2], TTL := 64,
                     Protocol := 6, Id := 77, FragOffset := 0, TOS := 187 } } _ rfl (by decide)
  exact ⟨h1, h2.trans h1⟩

/-! ## Dissection always admits one record -/

/-- C19. `dissectPacket` is total: for every frame it builds one record and
admits its handle with one `Add`, so afterwards the buffer is the old buffer with
that handle appended, or the snapshot copied out is.  The stored record carries
the frame's capture timestamp and the interface name, and for a frame in which
none of the Ethernet, 802.1Q, IPv4, IPv6, TCP, UDP, ICMPv4, DNS and application
layers is recognised, whether or not it has an IPv6 fragment header, every other
field of the record is at its zero value. -/
theorem dissectPacket_admits_one (lib : PacketLib) (env : Env) (b : BatchBuffer)
    (deviceName : String) (packet : Packet) (addr : Ptr) (w : World) :
    (((dissectPacket lib env b deviceName packet addr w).st.packets = b.packets ++ [addr] ∧
        snapshots (dissectPacket lib env b deviceName packet addr w).events = []) ∨
      (snapshots (dissectPacket lib env b deviceName packet addr w).events
          = [b.packets ++ [addr]] ∧
        (dissectPacket lib env b deviceName packet addr w).st.packets = [])) ∧
    ((dissectPacket lib env b deviceName packet addr w).world.heap addr).Timestamp =
      packet.Timestamp ∧
    ((dissectPacket lib env b deviceName packet addr w).world.heap addr).DeviceName =
      deviceName ∧
    (packet.ethernet = none → packet.dot1q = none → packet.ipv4 = none →
      packet.ipv6 = none → packet.tcp = none → packet.udp = none →
      packet.icmpv4 = none → packet.dns = none → packet.application = none →
      (dissectPacket lib env b deviceName packet addr w).world.heap addr =
        { Timestamp := packet.Timestamp, DeviceName := deviceName }) := by
  refine ⟨?_, ?_, ?_, ?_⟩
  · unfold dissectPacket
    simp only
    obtain ⟨hflush, hkeep⟩ := Add_snapshots env b addr
      { w with heap := Function.update w.heap addr (dissectRecord lib deviceName packet) }
    by_cases hge : ((b.packets ++ [addr]).length : Int) ≥ b.batchSize
    · exact Or.inr ⟨(hflush hge).1, (hflush hge).2.1⟩
    · exact Or.inl ⟨(hkeep (by omega)).2, (hkeep (by omega)).1⟩
  · rw [dissectPacket_stored, dissectRecord_after_ethernet lib deviceName packet
      PacketData.Timestamp
      (fun m => by rw [dissectDot1Q_eq])
      (fun m => by rw [dissectNetwork_eq])
      (fun m => by rw [dissectTransport_eq])
      (fun m => by rw [dissectICMP_eq])
      (fun m => by rw [dissectDNS_eq])
      (fun m => by rw [dissectPayload_eq]),
      congrArg PacketData.Timestamp (dissectEthernet_eq lib packet _)]
  · rw [dissectPacket_stored, dissectRecord_after_ethernet lib deviceName packet
      PacketData.DeviceName
      (fun m => by rw [dissectDot1Q_eq])
      (fun m => by rw [dissectNetwork_eq])
      (fun m => by rw [dissectTransport_eq])
      (fun m => by rw [dissectICMP_eq])
      (fun m => by rw [dissectDNS_eq])
      (fun m => by rw [dissectPayload_eq]),
      congrArg PacketData.DeviceName (dissectEthernet_eq lib packet _)]
  · intro he hq h4 h6 ht hu hi hd ha
    rw [dissectPacket_stored]
    unfold dissectRecord dissectEthernet dissectDot1Q dissectNetwork dissectTransport
      dissectICMP dissectDNS dissectPayload
    simp only [he, hq, h4, h6, ht, hu, hi, hd, ha]

/-- C19 at an example: a frame that has an IPv6 fragment header and none of the
nine layers is admitted as a record that holds the timestamp and the interface
name and nothing else. -/
theorem dissectPacket_admits_one_witness :
    (dissectPacket exampleLib exampleEnv (NewBatchBuffer 100 second) "eth0"
      { Timestamp := 5, ipv6Fragment := some { Identification := 7, FragmentOffset := 3 } }
      0 (exampleWorld [] 0 true)).world.heap 0 =
    { Timestamp := 5, DeviceName := "eth0" } :=
  (dissectPacket_admits_one exampleLib exampleEnv (NewBatchBuffer 100 second) "eth0"
    { Timestamp := 5, ipv6Fragment := some { Identification := 7, FragmentOffset := 3 } }
    0 (exampleWorld [] 0 true)).2.2.2 rfl rfl rfl rfl rfl rfl rfl rfl rfl

/-! ## Log file discovery -/

theorem includeLoop_eq (fs : FileSystem) (name : String) (patterns : List String)
    (matched : Bool) :
    includeLoop fs name patterns matched =
      (patterns.any (fun pattern => fs.globMatch pattern name) || matched) := by
  induction patterns with
  | nil => simp [includeLoop]
  | cons pattern rest ih =>
    simp only [includeLoop, List.any_cons]
    cases h : fs.globMatch pattern name
    · simp [ih]
    · simp

theorem excludeLoop_eq (fs : FileSystem) (name : String) (patterns : List String)
    (matched : Bool) :
    excludeLoop fs name patterns matched =
      (matched && !patterns.any (fun pattern => fs.globMatch pattern name)) := by
  induction patterns with
  | nil => simp [excludeLoop]
  | cons pattern rest ih =>
    simp only [excludeLoop, List.any_cons]
    cases h : fs.globMatch pattern name
    · simp [ih]
    · simp

theorem entriesLoop_eq (fs : FileSystem) (config : LogConfig) (dir : String)
    (entries : List DirEntry) (logFiles : List String) :
    entriesLoop fs config dir entries logFiles =
      logFiles ++ (entries.filter (keepsEntry fs config)).map
        (fun entry => fs.join dir entry.Name) := by
  induction entries generalizing logFiles with
  | nil => simp [entriesLoop]
  | cons entry rest ih =>
    simp only [entriesLoop, includeLoop_eq, excludeLoop_eq, Bool.or_false]
    cases hd : entry.IsDir
    · cases hk : (config.FilePatterns.any (fun pattern => fs.globMatch pattern entry.Name) &&
          !config.ExPatterns.any (fun pattern => fs.globMatch pattern entry.Name))
      · have hkeep : keepsEntry fs config entry = false := by
          unfold keepsEntry; rw [hd, Bool.and_assoc, hk]; rfl
        simp [ih, List.filter_cons, hkeep]
      · have hkeep : keepsEntry fs config entry = true := by
          unfold keepsEntry; rw [hd, Bool.and_assoc, hk]; rfl
        simp [ih, List.filter_cons, hkeep]
    · have hkeep : keepsEntry fs config entry = false := by
        unfold keepsEntry; rw [hd]; rfl
      simp [ih, List.filter_cons, hkeep]

theorem directoriesLoop_eq (fs : FileSystem) (config : LogConfig) (dirs : List String)
    (logFiles warned : List String) :
    directoriesLoop fs config dirs (logFiles, warned) =
      (logFiles ++ dirs.flatMap (fun dir =>
          match fs.readDir dir with
          | none => []
          | some entries =>
            (entries.filter (keepsEntry fs config)).map (fun entry => fs.join dir entry.Name)),
        warned ++ dirs.filter (fun dir => (fs.readDir dir).isNone)) := by
  induction dirs generalizing logFiles warned with
  | nil => simp [directoriesLoop]
  | cons dir rest ih =>
    simp only [directoriesLoop]
    cases h : fs.readDir dir with
    | none => simp [ih, List.flatMap_cons, List.filter_cons, h]
    | some entries => simp [ih, entriesLoop_eq, List.flatMap_cons, List.filter_cons, h]

/-- C20. The paths returned by `discoverLogs` are, for the configured directories
in order, the joined paths `dir/name` of exactly those entries of each readable
directory, in entry order, that are not directories, are matched by at least one
include pattern and are matched by no exclude pattern; a directory that cannot be
read contributes no path (and is the subject of one warning). -/
theorem discoverLogs_kept_paths (fs : FileSystem) (config : LogConfig) :
    (discoverLogs fs config).1 = keptPaths fs config ∧
    (discoverLogs fs config).2 =
      config.Directories.filter (fun dir => (fs.readDir dir).isNone) ∧
    (∀ path, path ∈ (discoverLogs fs config).1 ↔
      ∃ dir entries entry, dir ∈ config.Directories ∧ fs.readDir dir = some entries ∧
        entry ∈ entries ∧ path = fs.join dir entry.Name ∧
        entry.IsDir = false ∧
        (∃ pattern, pattern ∈ config.FilePatterns ∧ fs.globMatch pattern entry.Name = true) ∧
        ¬ ∃ pattern, pattern ∈ config.ExPatterns ∧ fs.globMatch pattern entry.Name = true) := by
  have hmain : discoverLogs fs config =
      (keptPaths fs config, config.Directories.filter (fun dir => (fs.readDir dir).isNone)) := by
    unfold discoverLogs keptPaths
    rw [directoriesLoop_eq]
    simp
  have hkeep : ∀ entry : DirEntry, keepsEntry fs config entry = true ↔
      (entry.IsDir = false ∧
        (∃ pattern, pattern ∈ config.FilePatterns ∧ fs.globMatch pattern entry.Name = true) ∧
        ¬ ∃ pattern, pattern ∈ config.ExPatterns ∧ fs.globMatch pattern entry.Name = true) := by
    intro entry
    unfold keepsEntry
    simp [List.any_eq_true, and_assoc]
  refine ⟨by rw [hmain], by rw [hmain], ?_⟩
  intro path
  rw [hmain]
  simp only [keptPaths, List.mem_flatMap]
  constructor
  · rintro ⟨dir, hdir, hpath⟩
    cases hread : fs.readDir dir with
    | none => rw [hread] at hpath; simp at hpath
    | some entries =>
      rw [hread] at hpath
      simp only [List.mem_map, List.mem_filter] at hpath
      obtain ⟨entry, ⟨hmem, hk⟩, hp⟩ := hpath
      exact ⟨dir, entries, entry, hdir, hread, hmem, hp.symm, (hkeep entry).mp hk⟩
  · rintro ⟨dir, entries, entry, hdir, hread, hmem, hp, hk⟩
    refine ⟨dir, hdir, ?_⟩
    rw [hread]
    simp only [List.mem_map, List.mem_filter]
    exact ⟨entry, ⟨hmem, (hkeep entry).mpr hk⟩, hp.symm⟩

/-- An evaluation of `discoverLogs`: of the four entries of `/var/log` the
subdirectory and the file matched by an exclude pattern are left out, the other
two are returned in entry order, and the directory that cannot be read is warned
about. -/
theorem discoverLogs_example :
    discoverLogs exampleFS exampleLogConfig =
      (["/var/log/syslog", "/var/log/auth.log"], ["/missing"]) := by
  decide

/-! ## The log batcher publishes once -/

/-- C11 does not hold on the code.  A flush of the log batcher calls
`logsWriter.WriteMessages` at most once, whatever the outcome; in the example, with
a writer that rejects every message, a flush of one buffered entry makes a single
failed attempt, logs the failure and leaves the buffer empty: the batch is dropped
after one attempt, not three. -/
theorem logBatch_flush_single_attempt :
    (∀ (env : Env) (b : LogBatch) (w : World),
      (attempts Topic.logs (b.flush env w).events).length ≤ 1) ∧
    (LogBatch.flush exampleEnv
        { entries := [{ Timestamp := 1, File := "/var/log/syslog", Message := "hello" }],
          timer := none, batchSize := 100, timeout := 5 * second }
        (exampleWorld [] 0 false)).events =
      [Event.copyOutLog [{ Timestamp := 1, File := "/var/log/syslog", Message := "hello" }],
        Event.writeMessages Topic.logs [123, 125] false,
        Event.logError "Failed to send log batch to Kafka"] ∧
    attempts Topic.logs (LogBatch.flush exampleEnv
        { entries := [{ Timestamp := 1, File := "/var/log/syslog", Message := "hello" }],
          timer := none, batchSize := 100, timeout := 5 * second }
        (exampleWorld [] 0 false)).events = [([123, 125], false)] ∧
    (LogBatch.flush exampleEnv
        { entries := [{ Timestamp := 1, File := "/var/log/syslog", Message := "hello" }],
          timer := none, batchSize := 100, timeout := 5 * second }
        (exampleWorld [] 0 false)).st.entries = [] := by
  refine ⟨?_, rfl, rfl, rfl⟩
  intro env b w
  unfold LogBatch.flush
  by_cases h : b.entries.length = 0
  · rw [if_pos h]; simp [attempts]
  · rw [if_neg h]
    dsimp only
    generalize env.marshalEnvelope _ = m
    cases m with
    | none =>
      by_cases ht : b.timer.isSome <;> simp [ht, attempts, Event.attempt?]
    | some data =>
      cases hw : (w.writeLogs data).1 <;>
        by_cases ht : b.timer.isSome <;> simp [ht, attempts, Event.attempt?]

/-! ## Flush on an empty buffer -/

/-- In a state in which an empty buffer comes with no timer, a flush leads to
such a state. -/
theorem flushLocked_timer_inv (env : Env) (b : BatchBuffer) (w : World)
    (h : b.packets = [] → b.timer = none) :
    (flushLocked env b w).st.packets = [] → (flushLocked env b w).st.timer = none := by
  by_cases he : b.packets = []
  · rw [flushLocked_empty env b w he]
    exact h
  · rw [flushLocked_nonempty env b w he]
    intro _
    rfl

/-- In every reachable state an empty buffer comes with no timer. -/
theorem Reachable_timer_inv (env : Env) (B T : Int) (b : BatchBuffer)
    (hr : Reachable env B T b) : b.packets = [] → b.timer = none := by
  induction hr with
  | init => intro _; rfl
  | add b p w _ ih =>
    by_cases hge : ((b.packets ++ [p]).length : Int) ≥ b.batchSize
    · rw [Add_flush env b p w hge]
      intro _; rfl
    · cases ht : b.timer with
      | none =>
        rw [Add_arm env b p w (by omega) ht]
        intro hnil
        simp at hnil
      | some t =>
        rw [Add_pending env b p w (by omega) (by rw [ht]; rfl)]
        intro hnil
        simp at hnil
  | fire b w _ ih => exact flushLocked_timer_inv env b w ih
  | flush b w _ ih => exact flushLocked_timer_inv env b w ih

/-- C12. In every state of a packet batcher reachable from construction by
`Add`, the timer callback and `Flush`: a `Flush` on an empty buffer executes no
event (so publishes nothing), returns the batcher and its surroundings unchanged,
and leaves no timer pending; and a second `Flush` right after a `Flush` executes
no event and changes nothing, so two flushes in a row equal one. -/
theorem flush_on_empty_is_noop (env : Env) (B T : Int) (b : BatchBuffer) (w : World)
    (hr : Reachable env B T b) :
    (b.packets = [] →
      (b.Flush env w).events = [] ∧ (b.Flush env w).st = b ∧ (b.Flush env w).world = w ∧
      (b.Flush env w).st.timer = none) ∧
    (((b.Flush env w).st.Flush env (b.Flush env w).world).events = [] ∧
      ((b.Flush env w).st.Flush env (b.Flush env w).world).st = (b.Flush env w).st ∧
      ((b.Flush env w).st.Flush env (b.Flush env w).world).world = (b.Flush env w).world) := by
  constructor
  · intro he
    unfold BatchBuffer.Flush
    rw [flushLocked_empty env b w he]
    exact ⟨rfl, rfl, rfl, Reachable_timer_inv env B T b hr he⟩
  · have hempty : (b.Flush env w).st.packets = [] := by
      unfold BatchBuffer.Flush
      by_cases he : b.packets = []
      · rw [flushLocked_empty env b w he]; exact he
      · rw [flushLocked_nonempty env b w he]
    have h2 : (b.Flush env w).st.Flush env (b.Flush env w).world =
        { st := (b.Flush env w).st, world := (b.Flush env w).world, events := [] } :=
      flushLocked_empty env _ _ hempty
    rw [h2]
    exact ⟨rfl, rfl, rfl⟩

/-- C12 at an example: after one admit and a flush the batcher is empty with no
timer, and a further flush does nothing. -/
theorem flush_on_empty_is_noop_witness :
    (((NewBatchBuffer 100 second).Add exampleEnv 0 (exampleWorld [1] 1 true)).st.Flush
      exampleEnv (exampleWorld [1] 1 true)).st.packets = [] ∧
    ((((NewBatchBuffer 100 second).Add exampleEnv 0 (exampleWorld [1] 1 true)).st.Flush
      exampleEnv (exampleWorld [1] 1 true)).st.Flush exampleEnv
        (exampleWorld [1] 1 true)).events = [] := by
  have hempty : (((NewBatchBuffer 100 second).Add exampleEnv 0
      (exampleWorld [1] 1 true)).st.Flush exampleEnv (exampleWorld [1] 1 true)).st.packets
      = [] := (Flush_handedOff exampleEnv _ _ (fun _ => rfl)).2
  exact ⟨hempty, ((flush_on_empty_is_noop exampleEnv 100 second _ (exampleWorld [1] 1 true)
    (Reachable.flush _ (exampleWorld [1] 1 true)
      (Reachable.add _ 0 (exampleWorld [1] 1 true) Reachable.init))).1 hempty).1⟩

/-! ## Capture snapshot length -/

/-- C26 does not hold on the code.  `captureDevice` opens every interface in
promiscuous mode with the block-forever timeout, but with a snapshot length of
65355 bytes, not 65535: the two middle digits are swapped.  The collector's
default snapshot length is 65535. -/
theorem captureDevice_snaplen (deviceName : String) :
    (captureDeviceOpenLive deviceName).snaplen = 65355 ∧
    (captureDeviceOpenLive deviceName).snaplen ≠ 65535 ∧
    (captureDeviceOpenLive deviceName).snaplen ≠ collectorSnapLenDefault ∧
    (captureDeviceOpenLive deviceName).promisc = true ∧
    (captureDeviceOpenLive deviceName).timeout = PcapTimeout.blockForever ∧
    (captureDeviceOpenLive deviceName).device = deviceName := by
  have h1 : (65355 : Int) ≠ 65535 := by decide
  exact ⟨rfl, h1, h1, rfl, rfl, rfl⟩

/-! ## Batch-size observations -/

theorem observations_append (xs ys : List Event) :
    observations (xs ++ ys) = observations xs ++ observations ys := by
  simp [observations]

theorem writeLoop_observations (data : Bytes) (n : Nat) (w : World) :
    observations (writeLoop data n w).2 = [] := by
  induction n generalizing w with
  | zero => rfl
  | succ n ih =>
    simp only [writeLoop, World.writeNetwork]
    split
    · rfl
    · have h := ih { w with networkWriter := fun k => w.networkWriter (k + 1),
                            now := w.now + second }
      simpa [observations, Event.observed?] using h

theorem publishGroups_observations (env : Env) (groups : List (List Ptr)) (w : World) :
    observations (publishGroups env groups w).2 = [] := by
  induction groups generalizing w with
  | nil => rfl
  | cons g rest ih =>
    simp only [publishGroups]
    split
    · have h := ih w
      simpa [observations, Event.observed?] using h
    · next d _ =>
      have h1 := writeLoop_observations d 3 w
      have h2 := ih (writeWithRetries d w).1
      simp only [observations, writeWithRetries] at h1 h2 ⊢
      simp [Event.observed?, h1, h2]

theorem publishBatch_observations (env : Env) (batch : List Ptr) (w : World) :
    observations (publishBatch env batch w).2 = [] := by
  unfold publishBatch
  split
  · rfl
  · split
    · split
      · rfl
      · have h := publishGroups_observations env ‹List (List Ptr)› w
        simpa [observations, Event.observed?] using h
    · next data _ _ =>
      have h := writeLoop_observations data 3 w
      simp only [observations, writeWithRetries] at h ⊢
      simp [Event.observed?, h]

theorem flushLocked_observations (env : Env) (b : BatchBuffer) (w : World) :
    observations (flushLocked env b w).events = [] := by
  by_cases h : b.packets = []
  · rw [flushLocked_empty env b w h]; rfl
  · rw [flushLocked_nonempty env b w h]
    have h1 := publishBatch_observations env b.packets w
    simp only [observations] at h1 ⊢
    by_cases ht : b.timer.isSome <;> simp [ht, Event.observed?, h1]

theorem flushLocked_packets (env : Env) (b : BatchBuffer) (w : World) :
    (flushLocked env b w).st.packets = [] := by
  by_cases h : b.packets = []
  · rw [flushLocked_empty env b w h]; exact h
  · rw [flushLocked_nonempty env b w h]

theorem flushLocked_snapshots (env : Env) (b : BatchBuffer) (w : World) :
    snapshots (flushLocked env b w).events = if b.packets = [] then [] else [b.packets] := by
  by_cases h : b.packets = []
  · rw [flushLocked_empty env b w h, if_pos h]; rfl
  · rw [flushLocked_nonempty env b w h, if_neg h]
    have h1 := publishBatch_snapshots env b.packets w
    simp only [snapshots] at h1 ⊢
    by_cases ht : b.timer.isSome <;> simp [ht, Event.snapshot?, h1]

/-- C24 does not hold on the code.  The timer callback reads the buffer length
after `flushLocked` has truncated the buffer, so the one value it hands to the
histogram is 0 whatever was flushed; in the example a snapshot of three records is
flushed by the timer and the value observed is 0, not 3. -/
theorem timerFire_observes_zero :
    (∀ (env : Env) (b : BatchBuffer) (w : World),
      observations (b.timerFire env w).events = [0]) ∧
    snapshots (BatchBuffer.timerFire exampleEnv
      { packets := [0, 1, 2], timer := some ⟨second⟩, batchSize := 100, timeout := second }
      (exampleWorld [1] 1 true)).events = [[0, 1, 2]] ∧
    observations (BatchBuffer.timerFire exampleEnv
      { packets := [0, 1, 2], timer := some ⟨second⟩, batchSize := 100, timeout := second }
      (exampleWorld [1] 1 true)).events = [0] := by
  have hgen : ∀ (env : Env) (b : BatchBuffer) (w : World),
      observations (b.timerFire env w).events = [0] := by
    intro env b w
    unfold BatchBuffer.timerFire
    simp only
    rw [observations_append, flushLocked_observations, flushLocked_packets]
    rfl
  refine ⟨hgen, ?_, hgen _ _ _⟩
  unfold BatchBuffer.timerFire
  simp only
  rw [snapshots_append, flushLocked_snapshots]
  rfl

/-! ## Frame of `Add` -/

/-- C29. `Add` stores the record with the first `min n 1024` bytes of its
`n`-byte payload and with every field other than `Payload` and `PayloadSize` as
it was; a record whose payload has at most 1024 bytes is stored unchanged in all
fields; and no other record is touched. -/
theorem add_frame (env : Env) (b : BatchBuffer) (p : Ptr) (w : World) :
    (b.Add env p w).world.heap p =
      { w.heap p with
        Payload := (w.heap p).Payload.take (min (w.heap p).Payload.length maxPayloadSize),
        PayloadSize := ((b.Add env p w).world.heap p).PayloadSize } ∧
    ((w.heap p).Payload.length ≤ maxPayloadSize → (b.Add env p w).world.heap p = w.heap p) ∧
    (∀ q, q ≠ p → (b.Add env p w).world.heap q = w.heap q) := by
  rw [Add_heap]
  refine ⟨?_, ?_, ?_⟩
  · simp only [Function.update_same]
    unfold trimPayload
    by_cases h : (w.heap p).Payload.length > maxPayloadSize
    · rw [if_pos h, Nat.min_eq_right (Nat.le_of_lt h)]
    · rw [if_neg h, Nat.min_eq_left (Nat.le_of_not_gt h),
        List.take_of_length_le (Nat.le_refl _)]
  · intro h
    simp only [Function.update_same]
    unfold trimPayload
    rw [if_neg (Nat.not_lt.mpr h)]
  · intro q hq
    exact Function.update_noteq hq _ _

/-- C29 at an example: a record with a three-byte payload is stored as it was
passed. -/
theorem add_frame_witness :
    ((NewBatchBuffer 100 second).Add exampleEnv 7 (exampleWorld [1, 2, 3] 3 true)).world.heap 7
      = (exampleWorld [1, 2, 3] 3 true).heap 7 :=
  (add_frame exampleEnv (NewBatchBuffer 100 second) 7 (exampleWorld [1, 2, 3] 3 true)).2.1
    (by decide)

/-! ## Split groups are non-empty -/

theorem splitLoop_nonempty {α : Type} (marshal : List α → Option Bytes) (maxSize : Int)
    (rest : List α) (groups : List (List α)) (current : List α) (gs : List (List α))
    (hg : ∀ g ∈ groups, g ≠ [])
    (h : splitLoop marshal maxSize rest groups current = some gs) :
    ∀ g ∈ gs, g ≠ [] := by
  induction rest generalizing groups current with
  | nil =>
    rw [splitLoop] at h
    by_cases hl : current.length > 0
    · rw [if_pos hl] at h
      cases h
      intro g hmem
      rcases List.mem_append.mp hmem with h1 | h1
      · exact hg g h1
      · rw [List.mem_singleton] at h1
        subst h1
        intro hnil
        rw [hnil] at hl
        exact absurd hl (by simp)
    · rw [if_neg hl] at h
      cases h
      exact hg
  | cons pkt rest ih =>
    rw [splitLoop_cons] at h
    cases hm : marshal (current ++ [pkt]) with
    | none => rw [hm] at h; cases h
    | some data =>
      rw [hm] at h
      simp only at h
      by_cases hd : (data.length : Int) > maxSize
      · rw [if_pos hd] at h
        by_cases hnil : current.length = 0
        · rw [if_pos hnil] at h
          refine ih _ _ ?_ h
          intro g hmem
          rcases List.mem_append.mp hmem with h1 | h1
          · exact hg g h1
          · rw [List.mem_singleton] at h1
            subst h1
            exact List.cons_ne_nil _ _
        · rw [if_neg hnil] at h
          refine ih _ _ ?_ h
          intro g hmem
          rcases List.mem_append.mp hmem with h1 | h1
          · exact hg g h1
          · rw [List.mem_singleton] at h1
            subst h1
            intro hc
            exact hnil (by rw [hc]; rfl)
      · rw [if_neg hd] at h
        exact ih _ _ hg h

theorem length_le_flatten_length {α : Type} (gs : List (List α)) (h : ∀ g ∈ gs, g ≠ []) :
    gs.length ≤ gs.flatten.length := by
  induction gs with
  | nil => simp
  | cons g rest ih =>
    have hg : g ≠ [] := h g (List.mem_cons_self _ _)
    have hpos : 0 < g.length := List.length_pos.mpr hg
    have := ih (fun x hx => h x (List.mem_cons_of_mem _ hx))
    simp only [List.flatten_cons, List.length_append, List.length_cons]
    omega

/-- C30. Whenever `splitBatch` returns groups (no serialisation failed), every
group is non-empty, so there are at most as many groups as records; `splitBatch`
of an empty batch returns no groups; and every group whose message a flush hands
to `writeWithRetries`, in a split or not, is non-empty. -/
theorem split_groups_nonempty {α : Type} (marshal : List α → Option Bytes) (maxSize : Int)
    (batch : List α) (env : Env) (b : BatchBuffer) (w : World) :
    (∀ gs, splitBatch marshal batch maxSize = some gs →
      (∀ g ∈ gs, g ≠ []) ∧ gs.length ≤ batch.length) ∧
    splitBatch marshal ([] : List α) maxSize = some [] ∧
    (∀ g d, (g, d) ∈ handedOff (flushLocked env b w).events → g ≠ []) := by
  refine ⟨?_, rfl, ?_⟩
  · intro gs h
    have hne := splitLoop_nonempty marshal maxSize batch [] [] gs (by simp) h
    refine ⟨hne, ?_⟩
    have hflat := splitLoop_flatten marshal maxSize batch [] [] gs h
    simp only [List.flatten_nil, List.nil_append] at hflat
    rw [← hflat]
    exact length_le_flatten_length gs hne
  · intro g d hmem
    by_cases he : b.packets = []
    · rw [flushLocked_empty env b w he] at hmem
      simp [handedOff] at hmem
    · rw [flushLocked_nonempty env b w he] at hmem
      have h2 : (g, d) ∈ handedOff (publishBatch env b.packets w).2 := by
        simp only [handedOff] at hmem ⊢
        by_cases ht : b.timer.isSome <;> simpa [ht, Event.handOff?] using hmem
      unfold publishBatch at h2
      split at h2
      · simp [handedOff, Event.handOff?] at h2
      · next data hdata =>
        split at h2
        · split at h2
          · simp [handedOff, Event.handOff?] at h2
          · next groups hgroups =>
            have h3 : (g, d) ∈ handedOff (publishGroups env groups w).2 := by
              simpa [handedOff, Event.handOff?] using h2
            have hin := (publishGroups_handedOff_mem env groups w g d h3).1
            exact splitLoop_nonempty _ _ b.packets [] [] groups (by simp) hgroups g hin
        · have h1 := writeWithRetries_handedOff data w
          simp only [handedOff] at h1 h2
          simp only [List.filterMap_cons, Event.handOff?, h1, List.mem_singleton,
            Prod.mk.injEq] at h2
          rw [h2.1]
          exact he

/-- C30 at an example: three records of three bytes each, split at ten bytes,
give two non-empty groups. -/
theorem split_groups_nonempty_witness :
    splitBatch (uniformMarshal 3) [0, 1, 2] 10 = some [[0, 1], [2]] ∧
    ((∀ g ∈ [[0, 1], [2]], g ≠ []) ∧ [[0, 1], [2]].length ≤ [0, 1, 2].length) := by
  have h : splitBatch (uniformMarshal 3) [0, 1, 2] 10 = some [[0, 1], [2]] := by
    simp [splitBatch, splitLoop, uniformMarshal, zeros_length]
  exact ⟨h, (split_groups_nonempty (uniformMarshal 3) 10 [0, 1, 2] exampleEnv
    (NewBatchBuffer 100 second) (exampleWorld [] 0 true)).1 _ h⟩

/-! ## The split is greedy -/

/-- The split loop keeps consecutive groups packed, and the last group so far
packed against the accumulator. -/
theorem splitLoop_packed {α : Type} (marshal : List α → Option Bytes) (maxSize : Int)
    (rest : List α) (groups : List (List α)) (current : List α) (gs : List (List α))
    (hchain : List.Chain' (packedBefore marshal maxSize) groups)
    (hlast : ∀ g, groups.getLast? = some g → packedBefore marshal maxSize g current)
    (h : splitLoop marshal maxSize rest groups current = some gs) :
    List.Chain' (packedBefore marshal maxSize) gs := by
  induction rest generalizing groups current with
  | nil =>
    rw [splitLoop] at h
    by_cases hl : current.length > 0
    · rw [if_pos hl] at h
      cases h
      rw [List.chain'_append]
      refine ⟨hchain, List.chain'_singleton _, ?_⟩
      intro x hx y hy
      simp only [List.head?_cons, Option.mem_def, Option.some.injEq] at hy
      subst hy
      exact hlast x hx
    · rw [if_neg hl] at h
      cases h
      exact hchain
  | cons pkt rest ih =>
    rw [splitLoop_cons] at h
    cases hm : marshal (current ++ [pkt]) with
    | none => rw [hm] at h; cases h
    | some data =>
      rw [hm] at h
      simp only at h
      by_cases hd : (data.length : Int) > maxSize
      · rw [if_pos hd] at h
        by_cases hnil : current.length = 0
        · rw [if_pos hnil] at h
          have hc : current = [] := List.length_eq_zero.mp hnil
          subst hc
          have hover : exceeds marshal maxSize [pkt] := ⟨data, by simpa using hm, hd⟩
          refine ih _ _ ?_ ?_ h
          · rw [List.chain'_append]
            refine ⟨hchain, List.chain'_singleton _, ?_⟩
            intro x hx y hy
            simp only [List.head?_cons, Option.mem_def, Option.some.injEq] at hy
            subst hy
            rcases hlast x hx with hsingle | ⟨y, r, hcur, _⟩
            · exact Or.inl hsingle
            · cases hcur
          · intro g hg
            rw [List.getLast?_concat] at hg
            cases hg
            exact Or.inl ⟨pkt, rfl, hover⟩
        · rw [if_neg hnil] at h
          refine ih _ _ ?_ ?_ h
          · rw [List.chain'_append]
            refine ⟨hchain, List.chain'_singleton _, ?_⟩
            intro x hx y hy
            simp only [List.head?_cons, Option.mem_def, Option.some.injEq] at hy
            subst hy
            exact hlast x hx
          · intro g hg
            rw [List.getLast?_concat] at hg
            cases hg
            exact Or.inr ⟨pkt, [], rfl, data, hm, hd⟩
      · rw [if_neg hd] at h
        refine ih _ _ hchain ?_ h
        intro g hg
        rcases hlast g hg with hsingle | ⟨y, r, hcur, hex⟩
        · exact Or.inl hsingle
        · exact Or.inr ⟨y, r ++ [pkt], by rw [hcur]; rfl, hex⟩

/-- C28. The groups that `splitBatch` returns are the greedy left-to-right
packing of the batch: they are the batch cut into consecutive non-empty pieces;
every group is within the bound, that is, it serialises to at most `maxSize`
bytes or is a single record; and every group followed by another is maximal: it
is a single record whose serialisation alone is longer than `maxSize`, or it with
the first record of the next group appended serialises to more than `maxSize`. -/
theorem splitBatch_greedy {α : Type} (marshal : List α → Option Bytes) (maxSize : Int)
    (batch : List α) (gs : List (List α))
    (h : splitBatch marshal batch maxSize = some gs) :
    List.Chain' (packedBefore marshal maxSize) gs ∧ gs.flatten = batch ∧
    (∀ g ∈ gs, groupOk marshal maxSize g) ∧ (∀ g ∈ gs, g ≠ []) := by
  refine ⟨splitLoop_packed marshal maxSize batch [] [] gs List.chain'_nil ?_ h, ?_, ?_, ?_⟩
  · intro g hg
    simp at hg
  · have := splitLoop_flatten marshal maxSize batch [] [] gs h
    simpa using this
  · exact splitLoop_groupOk marshal maxSize batch [] [] gs (by simp) (Or.inl rfl) h
  · exact splitLoop_nonempty marshal maxSize batch [] [] gs (by simp) h

/-- C28 at an example: of three records of three bytes each, split at ten bytes,
the first group holds two records and is within the bound, and a third record
would bring it to 13 bytes. -/
theorem splitBatch_greedy_witness :
    splitBatch (uniformMarshal 3) [0, 1, 2] 10 = some [[0, 1], [2]] ∧
    packedBefore (uniformMarshal 3) 10 [0, 1] [2] ∧
    groupOk (uniformMarshal 3) 10 [0, 1] := by
  have h : splitBatch (uniformMarshal 3) [0, 1, 2] 10 = some [[0, 1], [2]] := by
    simp [splitBatch, splitLoop, uniformMarshal, zeros_length]
  have hc := splitBatch_greedy (uniformMarshal 3) 10 [0, 1, 2] _ h
  exact ⟨h, (List.chain'_cons.mp hc.1).1, hc.2.2.1 [0, 1] (by simp)⟩

/-! ## A sub-group that fails to serialise -/

/-- The loop over the split groups hands over exactly the groups that
serialise, in order, each with its serialisation. -/
theorem publishGroups_handedOff_eq (env : Env) (groups : List (List Ptr)) (w : World) :
    handedOff (publishGroups env groups w).2 =
      groups.filterMap (fun g => (env.marshal (g.map w.heap)).map (fun d => (g, d))) := by
  induction groups generalizing w with
  | nil => rfl
  | cons g0 rest ih =>
    simp only [publishGroups]
    cases hm : env.marshal (g0.map w.heap) with
    | none =>
      have h := ih w
      simp only [handedOff] at h ⊢
      simp [Event.handOff?, h, hm]
    | some d0 =>
      have h1 := writeWithRetries_handedOff d0 w
      have h2 := ih (writeWithRetries d0 w).1
      rw [writeWithRetries_heap] at h2
      simp only [handedOff] at h1 h2 ⊢
      simp [Event.handOff?, h1, h2, hm]

/-- The loop over the split groups logs one failure per group that does not
serialise. -/
theorem publishGroups_failures (env : Env) (groups : List (List Ptr)) (w : World) :
    ((publishGroups env groups w).2.filter
        (fun e => e == Event.logError "Failed to marshal packet group")).length =
      (groups.filter (fun g => (env.marshal (g.map w.heap)).isNone)).length := by
  induction groups generalizing w with
  | nil => rfl
  | cons g0 rest ih =>
    simp only [publishGroups]
    cases hm : env.marshal (g0.map w.heap) with
    | none =>
      have h := ih w
      simp [List.filter_cons, hm, h]
    | some d0 =>
      have h2 := ih (writeWithRetries d0 w).1
      rw [writeWithRetries_heap] at h2
      have h1 : (writeWithRetries d0 w).2.filter
          (fun e => e == Event.logError "Failed to marshal packet group") = [] := by
        unfold writeWithRetries
        cases h0 : w.networkWriter 0 d0 <;> cases h1 : w.networkWriter 1 d0 <;>
          cases h2 : w.networkWriter 2 d0 <;>
          simp [writeLoop, World.writeNetwork, h0, h1, h2, List.filter_cons]
      simp [List.filter_cons, hm, h1, h2, List.filter_append]

/-- C25. When a snapshot is over the bound and the split returns groups, the
flush hands to `writeWithRetries` exactly the groups that serialise, in the order
of the split and each with its own serialisation; a group whose serialisation
fails is skipped, with one logged failure per such group, and the groups after it
are still handed over. -/
theorem split_flush_skips_failed_groups (env : Env) (b : BatchBuffer) (w : World)
    (data : Bytes) (groups : List (List Ptr))
    (hm : env.marshal (b.packets.map w.heap) = some data)
    (hgt : data.length > maxMessageSize)
    (hs : splitBatch (fun g => env.marshal (g.map w.heap)) b.packets (maxMessageSize : Int) =
      some groups) :
    handedOff (flushLocked env b w).events =
      groups.filterMap (fun g => (env.marshal (g.map w.heap)).map (fun d => (g, d))) ∧
    ((flushLocked env b w).events.filter
        (fun e => e == Event.logError "Failed to marshal packet group")).length =
      (groups.filter (fun g => (env.marshal (g.map w.heap)).isNone)).length := by
  by_cases he : b.packets = []
  · rw [he] at hs
    have hg : groups = [] := by
      have : splitBatch (fun g => env.marshal (g.map w.heap)) ([] : List Ptr)
          (maxMessageSize : Int) = some [] := rfl
      rw [this] at hs
      cases hs
      rfl
    rw [flushLocked_empty env b w he, hg]
    exact ⟨rfl, rfl⟩
  · rw [flushLocked_nonempty env b w he, publishBatch_of_split env b.packets w data groups hm hgt hs]
    have h1 := publishGroups_handedOff_eq env groups w
    have h2 := publishGroups_failures env groups w
    constructor
    · simp only [handedOff] at h1 ⊢
      by_cases ht : b.timer.isSome <;> simp [ht, Event.handOff?, h1]
    · by_cases ht : b.timer.isSome <;>
        simp [ht, List.filter_cons, List.filter_append, h2]

/-- C25 at an example: a snapshot of two records is split into two one-record
groups; the serialisation of the second group fails, and the first group is still
handed over. -/
theorem split_flush_skips_failed_groups_witness :
    handedOff (flushLocked pickyEnv
      { packets := [1, 9], timer := none, batchSize := 100, timeout := second }
      numberedWorld).events = [([1], zeros 3000000)] := by
  have hgt : (zeros 6000000).length > maxMessageSize := by
    rw [zeros_length, maxMessageSize_eq]; omega
  have hsplit : splitBatch (fun g => pickyEnv.marshal (g.map numberedWorld.heap)) [1, 9]
      (maxMessageSize : Int) = some [[1], [9]] := by
    simp [splitBatch, splitLoop, pickyEnv, numberedWorld, zeros_length, maxMessageSize]
  have h := (split_flush_skips_failed_groups pickyEnv
    { packets := [1, 9], timer := none, batchSize := 100, timeout := second }
    numberedWorld (zeros 6000000) [[1], [9]] (by simp [pickyEnv, numberedWorld]) hgt hsplit).1
  rw [h]
  simp [pickyEnv, numberedWorld]

/-! ## Facts about the log batcher -/

theorem logSnapshots_append (xs ys : List Event) :
    logSnapshots (xs ++ ys) = logSnapshots xs ++ logSnapshots ys := by
  simp [logSnapshots]

theorem logFlush_empty (env : Env) (b : LogBatch) (w : World) (h : b.entries = []) :
    b.flush env w = { st := b, world := w, events := [] } := by
  unfold LogBatch.flush
  rw [if_pos (by rw [h]; rfl)]

/-- The events of a flush of a non-empty log buffer, by the outcome of the
serialisation of its envelope. -/
theorem logFlush_nonempty (env : Env) (b : LogBatch) (w : World) (h : b.entries ≠ []) :
    (b.flush env w).st = { b with entries := [], timer := none } ∧
    (∀ data, env.marshalEnvelope (flushEnvelope env b w) = some data →
      (b.flush env w).events = Event.copyOutLog b.entries ::
        ((if b.timer.isSome then [Event.timerStop] else []) ++
          Event.writeMessages Topic.logs data (w.logsWriter 0 data) ::
            (if w.logsWriter 0 data then []
              else [Event.logError "Failed to send log batch to Kafka"]))) ∧
    (env.marshalEnvelope (flushEnvelope env b w) = none →
      (b.flush env w).events = Event.copyOutLog b.entries ::
        ((if b.timer.isSome then [Event.timerStop] else []) ++
          [Event.logError "Failed to marshal log envelope"])) := by
  have henv : flushEnvelope env b w =
      { SensorID := getHostID env, DataType := "log", Timestamp := w.now,
        Payload := b.entries } := by
    unfold flushEnvelope getHostID
    cases env.hostname <;> rfl
  unfold LogBatch.flush
  rw [if_neg (by simpa using h), henv]
  dsimp only
  generalize env.marshalEnvelope _ = m
  cases m with
  | none =>
    refine ⟨rfl, ?_, fun _ => rfl⟩
    intro data hd
    cases hd
  | some d =>
    refine ⟨rfl, ?_, ?_⟩
    · intro data hd
      cases hd
      rfl
    · intro hd
      cases hd

theorem logFlush_st (env : Env) (b : LogBatch) (w : World) :
    (b.flush env w).st = if b.entries = [] then b else { b with entries := [], timer := none } := by
  by_cases h : b.entries = []
  · rw [logFlush_empty env b w h, if_pos h]
  · rw [(logFlush_nonempty env b w h).1, if_neg h]

theorem logFlush_snapshots (env : Env) (b : LogBatch) (w : World) :
    logSnapshots (b.flush env w).events = if b.entries = [] then [] else [b.entries] := by
  by_cases h : b.entries = []
  · rw [logFlush_empty env b w h, if_pos h]; rfl
  · rw [if_neg h]
    obtain ⟨_, hsome, hnone⟩ := logFlush_nonempty env b w h
    cases hm : env.marshalEnvelope (flushEnvelope env b w) with
    | none =>
      rw [hnone hm]
      by_cases ht : b.timer.isSome <;> simp [ht, logSnapshots, Event.logSnapshot?]
    | some data =>
      rw [hsome data hm]
      by_cases ht : b.timer.isSome <;> cases w.logsWriter 0 data <;>
        simp [ht, logSnapshots, Event.logSnapshot?]

/-! ## The log envelope -/

/-- C21, as stated, fails: when the envelope does not serialise, a flush of a
non-empty log buffer copies the buffer out, logs the failure and publishes
nothing. -/
theorem logFlush_publishes_nothing_on_marshal_failure :
    (LogBatch.flush failingEnv
      { entries := [{ Timestamp := 1, File := "/var/log/syslog", Message := "hello" }],
        timer := none, batchSize := 100, timeout := 5 * second }
      (exampleWorld [] 0 true)).events =
      [Event.copyOutLog [{ Timestamp := 1, File := "/var/log/syslog", Message := "hello" }],
        Event.logError "Failed to marshal log envelope"] ∧
    attempts Topic.logs (LogBatch.flush failingEnv
      { entries := [{ Timestamp := 1, File := "/var/log/syslog", Message := "hello" }],
        timer := none, batchSize := 100, timeout := 5 * second }
      (exampleWorld [] 0 true)).events = [] := by
  exact ⟨rfl, rfl⟩

/-- C21, amended.  For a non-empty log buffer, `flush` copies out the buffered
entries and builds the envelope with `DataType = "log"`, `SensorID` the host name
or `"unknown"` when the host name cannot be obtained, and `Payload` the buffered
entries in admission order.  When that envelope serialises, its serialisation is
published in exactly one `WriteMessages` call on the log topic and nothing goes to
the network topic; when it does not serialise, the failure is logged and nothing
is published. -/
theorem logFlush_envelope (env : Env) (b : LogBatch) (w : World) (hne : b.entries ≠ []) :
    logSnapshots (b.flush env w).events = [b.entries] ∧
    (flushEnvelope env b w).DataType = "log" ∧
    (flushEnvelope env b w).Payload = b.entries ∧
    (∀ host, env.hostname = some host → (flushEnvelope env b w).SensorID = host) ∧
    (env.hostname = none → (flushEnvelope env b w).SensorID = "unknown") ∧
    (∀ data, env.marshalEnvelope (flushEnvelope env b w) = some data →
      attempts Topic.logs (b.flush env w).events = [(data, w.logsWriter 0 data)] ∧
      attempts Topic.network (b.flush env w).events = []) ∧
    (env.marshalEnvelope (flushEnvelope env b w) = none →
      attempts Topic.logs (b.flush env w).events = [] ∧
      attempts Topic.network (b.flush env w).events = [] ∧
      Event.logError "Failed to marshal log envelope" ∈ (b.flush env w).events) := by
  obtain ⟨_, hsome, hnone⟩ := logFlush_nonempty env b w hne
  refine ⟨?_, rfl, rfl, ?_, ?_, ?_, ?_⟩
  · rw [logFlush_snapshots, if_neg hne]
  · intro host hh
    unfold flushEnvelope
    rw [hh]
  · intro hh
    unfold flushEnvelope
    rw [hh]
  · intro data hd
    rw [hsome data hd]
    constructor <;>
      by_cases ht : b.timer.isSome <;> cases w.logsWriter 0 data <;>
        simp [ht, attempts, Event.attempt?]
  · intro hd
    rw [hnone hd]
    refine ⟨?_, ?_, ?_⟩
    · by_cases ht : b.timer.isSome <;> simp [ht, attempts, Event.attempt?]
    · by_cases ht : b.timer.isSome <;> simp [ht, attempts, Event.attempt?]
    · by_cases ht : b.timer.isSome <;> simp [ht]

/-- C21, amended, at an example: two buffered entries on a host whose name
cannot be obtained are published as one envelope with sensor id `"unknown"`. -/
theorem logFlush_envelope_witness :
    (flushEnvelope { exampleEnv with hostname := none }
      { entries := [{ Timestamp := 1, File := "a.log", Message := "x" },
                    { Timestamp := 2, File := "a.log", Message := "y" }],
        timer := none, batchSize := 100, timeout := 5 * second }
      (exampleWorld [] 0 true)).SensorID = "unknown" ∧
    attempts Topic.logs (LogBatch.flush { exampleEnv with hostname := none }
      { entries := [{ Timestamp := 1, File := "a.log", Message := "x" },
                    { Timestamp := 2, File := "a.log", Message := "y" }],
        timer := none, batchSize := 100, timeout := 5 * second }
      (exampleWorld [] 0 true)).events = [([123, 125], true)] := by
  have h := logFlush_envelope { exampleEnv with hostname := none }
    { entries := [{ Timestamp := 1, File := "a.log", Message := "x" },
                  { Timestamp := 2, File := "a.log", Message := "y" }],
      timer := none, batchSize := 100, timeout := 5 * second }
    (exampleWorld [] 0 true) (by simp)
  exact ⟨h.2.2.2.2.1 rfl, (h.2.2.2.2.2.1 [123, 125] rfl).1⟩

/-! ## The shape of a batcher after one operation -/

theorem logAdd_flush (env : Env) (b : LogBatch) (entry : LogEntry) (w : World)
    (h : ((b.entries ++ [entry]).length : Int) ≥ b.batchSize) :
    (b.Add env entry w).st = { b with entries := [], timer := none } ∧
    logSnapshots (b.Add env entry w).events = [b.entries ++ [entry]] := by
  unfold LogBatch.Add
  simp only
  rw [if_pos h]
  simp only
  rw [logSnapshots_append, logFlush_snapshots, logFlush_st]
  simp [logSnapshots, Event.logSnapshot?]

theorem logAdd_arm (env : Env) (b : LogBatch) (entry : LogEntry) (w : World)
    (h : ((b.entries ++ [entry]).length : Int) < b.batchSize) (ht : b.timer = none) :
    b.Add env entry w =
      { st := { b with entries := b.entries ++ [entry], timer := some ⟨b.timeout⟩ },
        world := w, events := [Event.afterFunc b.timeout] } := by
  unfold LogBatch.Add
  simp only
  rw [if_neg (by omega), if_pos (by rw [ht]; rfl)]

theorem logAdd_pending (env : Env) (b : LogBatch) (entry : LogEntry) (w : World)
    (h : ((b.entries ++ [entry]).length : Int) < b.batchSize) (ht : b.timer.isSome = true) :
    b.Add env entry w =
      { st := { b with entries := b.entries ++ [entry] }, world := w, events := [] } := by
  unfold LogBatch.Add
  simp only
  rw [if_neg (by omega), if_neg (by cases hb : b.timer <;> simp_all)]

/-- The packet batcher after an admit, by whether the admit brings the buffer to
the batch size. -/
theorem Add_shape (env : Env) (b : BatchBuffer) (p : Ptr) (w : World) :
    (b.Add env p w).st.batchSize = b.batchSize ∧
    ((((b.packets.length + 1 : Nat) : Int) ≥ b.batchSize →
      (b.Add env p w).st.packets.length = 0 ∧ (b.Add env p w).st.timer.isSome = false ∧
      (snapshots (b.Add env p w).events).map List.length = [b.packets.length + 1]) ∧
    (((b.packets.length + 1 : Nat) : Int) < b.batchSize →
      (b.Add env p w).st.packets.length = b.packets.length + 1 ∧
      (b.Add env p w).st.timer.isSome = true ∧
      (snapshots (b.Add env p w).events).map List.length = [])) := by
  refine ⟨(Add_batchSize env b p w).1, ?_, ?_⟩
  · intro h
    have h1 : ((b.packets ++ [p]).length : Int) ≥ b.batchSize := by
      rw [List.length_append]; exact h
    obtain ⟨hs, hp, ht⟩ := (Add_snapshots env b p w).1 h1
    rw [hs, hp, ht]
    simp
  · intro h
    have h1 : ((b.packets ++ [p]).length : Int) < b.batchSize := by
      rw [List.length_append]; exact h
    obtain ⟨hs, hp⟩ := (Add_snapshots env b p w).2 h1
    rw [hs, hp]
    refine ⟨by simp, ?_, rfl⟩
    cases ht : b.timer with
    | none => rw [Add_arm env b p w h1 ht]; rfl
    | some t => rw [Add_pending env b p w h1 (by rw [ht]; rfl)]; exact (by rw [ht]; rfl)

/-- The log batcher after an admit, by whether the admit brings the buffer to the
batch size. -/
theorem logAdd_shape (env : Env) (b : LogBatch) (entry : LogEntry) (w : World) :
    (b.Add env entry w).st.batchSize = b.batchSize ∧
    ((((b.entries.length + 1 : Nat) : Int) ≥ b.batchSize →
      (b.Add env entry w).st.entries.length = 0 ∧
      (b.Add env entry w).st.timer.isSome = false ∧
      (logSnapshots (b.Add env entry w).events).map List.length = [b.entries.length + 1]) ∧
    (((b.entries.length + 1 : Nat) : Int) < b.batchSize →
      (b.Add env entry w).st.entries.length = b.entries.length + 1 ∧
      (b.Add env entry w).st.timer.isSome = true ∧
      (logSnapshots (b.Add env entry w).events).map List.length = [])) := by
  refine ⟨?_, ?_, ?_⟩
  · by_cases h : ((b.entries ++ [entry]).length : Int) ≥ b.batchSize
    · rw [(logAdd_flush env b entry w h).1]
    · cases ht : b.timer with
      | none => rw [logAdd_arm env b entry w (by omega) ht]
      | some t => rw [logAdd_pending env b entry w (by omega) (by rw [ht]; rfl)]
  · intro h
    have h1 : ((b.entries ++ [entry]).length : Int) ≥ b.batchSize := by
      rw [List.length_append]; exact h
    obtain ⟨hst, hs⟩ := logAdd_flush env b entry w h1
    rw [hst, hs]
    simp
  · intro h
    have h1 : ((b.entries ++ [entry]).length : Int) < b.batchSize := by
      rw [List.length_append]; exact h
    cases ht : b.timer with
    | none =>
      rw [logAdd_arm env b entry w h1 ht]
      exact ⟨by simp, rfl, rfl⟩
    | some t =>
      rw [logAdd_pending env b entry w h1 (by rw [ht]; rfl)]
      exact ⟨by simp, by rw [ht]; rfl, rfl⟩

/-- The packet batcher after a flush. -/
theorem flushLocked_shape (env : Env) (b : BatchBuffer) (w : World) :
    (flushLocked env b w).st.batchSize = b.batchSize ∧
    (b.packets.length = 0 →
      (flushLocked env b w).st = b ∧ (snapshots (flushLocked env b w).events) = []) ∧
    (b.packets.length ≠ 0 →
      (flushLocked env b w).st.packets.length = 0 ∧
      (flushLocked env b w).st.timer.isSome = false ∧
      (snapshots (flushLocked env b w).events).map List.length = [b.packets.length]) := by
  by_cases he : b.packets = []
  · rw [flushLocked_empty env b w he]
    refine ⟨rfl, fun _ => ⟨rfl, rfl⟩, ?_⟩
    intro hne
    rw [he] at hne
    exact absurd rfl hne
  · rw [flushLocked_snapshots, if_neg he, flushLocked_nonempty env b w he]
    refine ⟨rfl, ?_, fun _ => ⟨rfl, rfl, rfl⟩⟩
    intro h0
    exact absurd (List.length_eq_zero.mp h0) he

/-- The log batcher after a flush. -/
theorem logFlush_shape (env : Env) (b : LogBatch) (w : World) :
    (b.flush env w).st.batchSize = b.batchSize ∧
    (b.entries.length = 0 →
      (b.flush env w).st = b ∧ (logSnapshots (b.flush env w).events) = []) ∧
    (b.entries.length ≠ 0 →
      (b.flush env w).st.entries.length = 0 ∧
      (b.flush env w).st.timer.isSome = false ∧
      (logSnapshots (b.flush env w).events).map List.length = [b.entries.length]) := by
  by_cases he : b.entries = []
  · rw [logFlush_empty env b w he]
    refine ⟨rfl, fun _ => ⟨rfl, rfl⟩, ?_⟩
    intro hne
    rw [he] at hne
    exact absurd rfl hne
  · rw [logFlush_snapshots, if_neg he, logFlush_st, if_neg he]
    refine ⟨rfl, ?_, fun _ => ⟨rfl, rfl, rfl⟩⟩
    intro h0
    exact absurd (List.length_eq_zero.mp h0) he

theorem timerFire_shape (env : Env) (b : BatchBuffer) (w : World) :
    (b.timerFire env w).st = (flushLocked env b w).st ∧
    snapshots (b.timerFire env w).events = snapshots (flushLocked env b w).events := by
  unfold BatchBuffer.timerFire
  refine ⟨rfl, ?_⟩
  simp only
  rw [snapshots_append]
  simp [snapshots, Event.snapshot?]

/-! ## Invariants of the reachable states -/

/-- In every state of the packet batcher reachable from `NewBatchBuffer B T` with
`B ≥ 1`: the batch size is `B`, an empty buffer has no timer, and the buffer holds
fewer than `B` handles. -/
theorem Reachable_inv (env : Env) (B T : Int) (hB : 1 ≤ B) (b : BatchBuffer)
    (hr : Reachable env B T b) :
    b.batchSize = B ∧ (b.packets = [] → b.timer = none) ∧ (b.packets.length : Int) < B := by
  refine ⟨?_, Reachable_timer_inv env B T b hr, ?_⟩
  · induction hr with
    | init => rfl
    | add b p w _ ih => rw [(Add_batchSize env b p w).1]; exact ih
    | fire b w _ ih => rw [(timerFire_shape env b w).1, (flushLocked_shape env b w).1]; exact ih
    | flush b w _ ih => exact (flushLocked_shape env b w).1.trans ih
  · have key : b.batchSize = B ∧ (b.packets.length : Int) < B := by
      induction hr with
      | init => exact ⟨rfl, by simp [NewBatchBuffer]; omega⟩
      | add b p w _ ih =>
        obtain ⟨hbs, hge, hlt⟩ := Add_shape env b p w
        refine ⟨hbs.trans ih.1, ?_⟩
        by_cases h : ((b.packets.length + 1 : Nat) : Int) ≥ b.batchSize
        · rw [(hge h).1]; simp; omega
        · rw [(hlt (by omega)).1, ← ih.1]; omega
      | fire b w _ ih =>
        rw [(timerFire_shape env b w).1]
        refine ⟨(flushLocked_shape env b w).1.trans ih.1, ?_⟩
        rw [flushLocked_packets]; simp; omega
      | flush b w _ ih =>
        refine ⟨(flushLocked_shape env b w).1.trans ih.1, ?_⟩
        show ((flushLocked env b w).st.packets.length : Int) < B
        rw [flushLocked_packets]; simp; omega
    exact key.2

/-- In every state of the log batcher reachable from `NewLogBatch B T` with
`B ≥ 1`: the batch size is `B`, an empty buffer has no timer, and the buffer holds
fewer than `B` entries. -/
theorem ReachableLog_inv (env : Env) (B T : Int) (hB : 1 ≤ B) (b : LogBatch)
    (hr : ReachableLog env B T b) :
    b.batchSize = B ∧ (b.entries = [] → b.timer = none) ∧ (b.entries.length : Int) < B := by
  have hflush : ∀ (b : LogBatch) (w : World),
      (b.batchSize = B ∧ (b.entries = [] → b.timer = none) ∧ (b.entries.length : Int) < B) →
      ((b.flush env w).st.batchSize = B ∧
        ((b.flush env w).st.entries = [] → (b.flush env w).st.timer = none) ∧
        ((b.flush env w).st.entries.length : Int) < B) := by
    intro b w ih
    rw [logFlush_st]
    by_cases he : b.entries = []
    · rw [if_pos he]; exact ih
    · rw [if_neg he]
      exact ⟨ih.1, fun _ => rfl, by simp; omega⟩
  induction hr with
  | init => exact ⟨rfl, fun _ => rfl, by simp [NewLogBatch]; omega⟩
  | add b entry w _ ih =>
    by_cases h : ((b.entries ++ [entry]).length : Int) ≥ b.batchSize
    · rw [(logAdd_flush env b entry w h).1]
      exact ⟨ih.1, fun _ => rfl, by simp; omega⟩
    · have hlt : ((b.entries ++ [entry]).length : Int) < b.batchSize := by omega
      cases ht : b.timer with
      | none =>
        rw [logAdd_arm env b entry w hlt ht]
        refine ⟨ih.1, ?_, ?_⟩
        · intro hnil; simp at hnil
        · rw [← ih.1]; exact hlt
      | some t =>
        rw [logAdd_pending env b entry w hlt (by rw [ht]; rfl)]
        refine ⟨ih.1, ?_, ?_⟩
        · intro hnil; simp at hnil
        · rw [← ih.1]; exact hlt
  | fire b w _ ih => exact hflush b w ih
  | flush b w _ ih => exact hflush b w ih

/-- C27. For a batch size `B ≥ 1`, in every state of a packet batcher and in
every state of a log batcher reachable from construction by any sequence of `Add`,
timer callback and `Flush`, a timer is pending only if the buffer is non-empty,
and the buffer holds strictly fewer than `B` records. -/
theorem reachable_timer_and_bound (env : Env) (B T : Int) (hB : 1 ≤ B) :
    (∀ b : BatchBuffer, Reachable env B T b →
      (b.timer.isSome = true → b.packets ≠ []) ∧ (b.packets.length : Int) < B) ∧
    (∀ b : LogBatch, ReachableLog env B T b →
      (b.timer.isSome = true → b.entries ≠ []) ∧ (b.entries.length : Int) < B) := by
  constructor
  · intro b hr
    obtain ⟨_, ht, hlen⟩ := Reachable_inv env B T hB b hr
    refine ⟨?_, hlen⟩
    intro hsome hnil
    rw [ht hnil] at hsome
    cases hsome
  · intro b hr
    obtain ⟨_, ht, hlen⟩ := ReachableLog_inv env B T hB b hr
    refine ⟨?_, hlen⟩
    intro hsome hnil
    rw [ht hnil] at hsome
    cases hsome

/-- C27 at an example: with `B = 2`, after two admits the packet batcher has
flushed and holds no record, and after one admit the log batcher holds one entry,
fewer than two. -/
theorem reachable_timer_and_bound_witness :
    (1 : Int) ≤ 2 ∧
    (((((NewBatchBuffer 2 second).Add exampleEnv 0 (exampleWorld [1] 1 true)).st.Add
      exampleEnv 1 (exampleWorld [1] 1 true)).st.packets.length : Int) < 2) ∧
    ((((NewLogBatch 2 second).Add exampleEnv
      { Timestamp := 1, File := "a.log", Message := "x" }
      (exampleWorld [] 0 true)).st.entries.length : Int) < 2) := by
  have h := reachable_timer_and_bound exampleEnv 2 second (by decide)
  exact ⟨by decide,
    (h.1 _ (Reachable.add _ 1 (exampleWorld [1] 1 true)
      (Reachable.add _ 0 (exampleWorld [1] 1 true) Reachable.init))).2,
    (h.2 _ (ReachableLog.add _ { Timestamp := 1, File := "a.log", Message := "x" }
      (exampleWorld [] 0 true) ReachableLog.init)).2⟩

/-! ## The two batchers follow the same flush discipline -/

/-- One event keeps the two batchers in agreement, and the snapshots it flushes
have the same lengths on both sides. -/
theorem step_agree (envP envL : Env) (p : BatchBuffer) (l : LogBatch) (wP wL : World)
    (op : BatcherOp) (h : agree p l) :
    agree (p.step envP wP op).st (l.step envL wL op).st ∧
    (snapshots (p.step envP wP op).events).map List.length =
      (logSnapshots (l.step envL wL op).events).map List.length := by
  obtain ⟨hlen, htimer, hbs⟩ := h
  have hflush : agree (flushLocked envP p wP).st (l.flush envL wL).st ∧
      (snapshots (flushLocked envP p wP).events).map List.length =
        (logSnapshots (l.flush envL wL).events).map List.length := by
    obtain ⟨pb, p0, p1⟩ := flushLocked_shape envP p wP
    obtain ⟨lb, l0, l1⟩ := logFlush_shape envL l wL
    by_cases h0 : p.packets.length = 0
    · obtain ⟨ps, pe⟩ := p0 h0
      obtain ⟨ls, le⟩ := l0 (by omega)
      rw [ps, pe, ls, le]
      exact ⟨⟨hlen, htimer, hbs⟩, rfl⟩
    · obtain ⟨ps, pt, pe⟩ := p1 h0
      obtain ⟨ls, lt, le⟩ := l1 (by omega)
      refine ⟨⟨by omega, by rw [pt, lt], by rw [pb, lb]; exact hbs⟩, ?_⟩
      rw [pe, le, hlen]
  cases op with
  | add packet entry =>
    show agree (p.Add envP packet wP).st (l.Add envL entry wL).st ∧
      (snapshots (p.Add envP packet wP).events).map List.length =
        (logSnapshots (l.Add envL entry wL).events).map List.length
    obtain ⟨pb, pge, plt⟩ := Add_shape envP p packet wP
    obtain ⟨lb, lge, llt⟩ := logAdd_shape envL l entry wL
    by_cases hge : ((p.packets.length + 1 : Nat) : Int) ≥ p.batchSize
    · obtain ⟨ps, pt, pe⟩ := pge hge
      obtain ⟨ls, lt, le⟩ := lge (by rw [← hlen, ← hbs]; exact hge)
      refine ⟨⟨by omega, by rw [pt, lt], by rw [pb, lb]; exact hbs⟩, ?_⟩
      rw [pe, le, hlen]
    · obtain ⟨ps, pt, pe⟩ := plt (by omega)
      obtain ⟨ls, lt, le⟩ := llt (by rw [← hlen, ← hbs]; omega)
      refine ⟨⟨by omega, by rw [pt, lt], by rw [pb, lb]; exact hbs⟩, ?_⟩
      rw [pe, le]
  | timerFire =>
    show agree (p.timerFire envP wP).st (l.flush envL wL).st ∧
      (snapshots (p.timerFire envP wP).events).map List.length =
        (logSnapshots (l.flush envL wL).events).map List.length
    rw [(timerFire_shape envP p wP).1, (timerFire_shape envP p wP).2]
    exact hflush
  | flush => exact hflush

/-- A sequence of events keeps the two batchers in agreement, and the snapshots
flushed along it have the same lengths on both sides. -/
theorem run_agree (envP envL : Env) (ops : List BatcherOp) :
    ∀ (p : BatchBuffer) (l : LogBatch) (wP wL : World), agree p l →
      agree (BatchBuffer.run envP p wP ops).st (LogBatch.run envL l wL ops).st ∧
      (snapshots (BatchBuffer.run envP p wP ops).events).map List.length =
        (logSnapshots (LogBatch.run envL l wL ops).events).map List.length := by
  induction ops with
  | nil =>
    intro p l wP wL h
    exact ⟨h, rfl⟩
  | cons op ops ih =>
    intro p l wP wL h
    obtain ⟨h1, e1⟩ := step_agree envP envL p l wP wL op h
    obtain ⟨h2, e2⟩ := ih (p.step envP wP op).st (l.step envL wL op).st
      (p.step envP wP op).world (l.step envL wL op).world h1
    unfold BatchBuffer.run LogBatch.run
    simp only
    refine ⟨h2, ?_⟩
    rw [snapshots_append, logSnapshots_append, List.map_append, List.map_append, e1, e2]

/-- C23. For every batch size `B` and every sequence of events (admit, timer
callback, explicit flush), a packet batcher and a log batcher constructed with the
same `B`, whatever their timeouts and surroundings, agree after each event, that
is after the first `k` events for every `k`: the buffers have the same length,
both or neither has a timer pending, and the snapshots flushed so far have the
same lengths in the same order. -/
theorem batchers_agree (envP envL : Env) (B TP TL : Int) (wP wL : World)
    (ops : List BatcherOp) (k : Nat) :
    (BatchBuffer.run envP (NewBatchBuffer B TP) wP (ops.take k)).st.packets.length =
      (LogBatch.run envL (NewLogBatch B TL) wL (ops.take k)).st.entries.length ∧
    (BatchBuffer.run envP (NewBatchBuffer B TP) wP (ops.take k)).st.timer.isSome =
      (LogBatch.run envL (NewLogBatch B TL) wL (ops.take k)).st.timer.isSome ∧
    (snapshots (BatchBuffer.run envP (NewBatchBuffer B TP) wP (ops.take k)).events).map
        List.length =
      (logSnapshots (LogBatch.run envL (NewLogBatch B TL) wL (ops.take k)).events).map
        List.length := by
  have h := run_agree envP envL (ops.take k) (NewBatchBuffer B TP) (NewLogBatch B TL) wP wL
    ⟨rfl, rfl, rfl⟩
  exact ⟨h.1.1, h.1.2.1, h.2⟩

end Pluto
